import Mathlib

/-!
# Verification development

Shallow embeddings of five parts of the repository and theorems about them: the
host resolution manager (net/dns), the simple path builder delegate and the
in-memory trust store (net/cert/pki), the battery state sampler
(base/power_monitor) and the WMI query helpers (base/win).  The definitions of
all parts come first, the theorems after them.
-/

/-!
# Host resolution manager

A shallow embedding of `net::HostResolverManager` (net/dns/host_resolver_manager.h).

The header declares the data model (the `TaskType` enumeration, the job map
`jobs_`, the dispatcher, the manager-wide flags) and documents the contract of
every operation.  The bodies of the operations live in
net/dns/host_resolver_manager.cc and the collaborating classes
(`PrioritizedDispatcher`, `HostCache`, `DnsClient`, ...) in other files that are
not among the sources; each definition that stands for such a body says so in
its doc comment and follows the specification and the header's documentation.
-/

namespace HostResolverManager

/-! ## Data model -/

/-- Task types that a Job might run (`enum class TaskType`,
host_resolver_manager.h lines 274-284). -/
inductive TaskType where
  | PROC
  | DNS
  | SECURE_DNS
  | MDNS
  | CACHE_LOOKUP
  | INSECURE_CACHE_LOOKUP
  | SECURE_CACHE_LOOKUP
  | CONFIG_PRESET
  deriving DecidableEq, Repr

/-- Modelled from the spec: the body of `IsLocalTask` is in
host_resolver_manager.cc, which is not among the sources.  The header documents
it as "true if the task is local, synchronous, and instantaneous"; the
specification names the cache and config stages as the ones the core runs
itself, the others being handled by external collaborators. -/
def IsLocalTask : TaskType → Bool
  | .CACHE_LOOKUP => true
  | .INSECURE_CACHE_LOOKUP => true
  | .SECURE_CACHE_LOOKUP => true
  | .CONFIG_PRESET => true
  | _ => false

/-- Modelled from the spec: the secure-DNS modes "off", "automatic" and
"required".  `SecureDnsMode` is declared in net/dns/public/secure_dns_mode.h,
which is not among the sources. -/
inductive SecureDnsMode where
  | off
  | automatic
  | required
  deriving DecidableEq, Repr

/-- Modelled from the spec: the per-request secure-DNS policy.  `SecureDnsPolicy`
is declared in net/dns/public/secure_dns_policy.h, which is not among the
sources.  Section 4.1: a request may carry no explicit policy, or force "off",
or force "required". -/
inductive SecureDnsPolicy where
  | unspecified
  | forceOff
  | forceRequired
  deriving DecidableEq, Repr

/-- Modelled from the spec: the caller's cache-usage policy
(`ResolveHostParameters::CacheUsage`, declared in net/dns/host_resolver.h, not
among the sources).  The header names `STALE_ALLOWED`; the specification
distinguishes a policy that permits cache reads, one that also allows stale
results, and one that permits no cache read. -/
inductive CacheUsage where
  | ALLOWED
  | STALE_ALLOWED
  | DISALLOWED
  deriving DecidableEq, Repr

/-- Modelled from the spec: DNS query types (`DnsQueryType`, declared in
net/dns/public/dns_query_type.h, not among the sources).  The specification
speaks of an unspecified request, IPv4 and IPv6 address queries, and leaves the
other record types open. -/
inductive DnsQueryType where
  | UNSPECIFIED
  | A
  | AAAA
  | other (rrtype : Nat)
  deriving DecidableEq, Repr

/-- Modelled from the spec: an IP address literal (`IPAddress`, declared in
net/base/ip_address.h, not among the sources): the bytes of an IPv4 (4) or IPv6
(16) address. -/
structure IPAddress where
  bytes : List Nat
  deriving DecidableEq, Repr

/-- Modelled from the spec: the host of a request ("Resolution Key", section 3:
normalized hostname or IP-literal text).  A host whose text parses as an IP
literal is a `literal`. -/
inductive Host where
  | literal (ip : IPAddress)
  | name (hostname : String)
  deriving DecidableEq, Repr

/-- Modelled from the spec: the resolution key ("Resolution Key", section 3):
normalized hostname or IP-literal text, requested query type set, secure-DNS
policy, resolve context identity, target network identity.  The requested query
type set is given by the request's query type, `UNSPECIFIED` standing for the set
of both address types (`DnsQueryType.expand`).  `JobKey` is only
forward-declared in the header. -/
structure JobKey where
  host : Host
  dns_query_type : DnsQueryType
  secure_dns_policy : SecureDnsPolicy
  resolve_context : Nat
  target_network : Nat
  deriving DecidableEq, Repr

/-- Modelled from the spec: the network error codes that the header and the
specification name (the codes are declared in net/base/net_error_list.h, not
among the sources). -/
inductive NetError where
  | OK
  | ERR_ABORTED
  | ERR_NAME_NOT_RESOLVED
  | ERR_DNS_CACHE_MISS
  | ERR_NETWORK_CHANGED
  | ERR_FAILED
  deriving DecidableEq, Repr

/-- Modelled from the spec: a resolution result (`HostCache::Entry`, declared in
net/dns/host_cache.h, not among the sources): an error code and the resolved
addresses. -/
structure Entry where
  error : NetError
  addresses : List IPAddress
  deriving DecidableEq, Repr

/-- Modelled from the spec: the staleness details of a cache entry
(`HostCache::EntryStaleness`, declared in net/dns/host_cache.h, not among the
sources): whether the entry is stale, and by how much it has expired. -/
structure EntryStaleness where
  is_stale : Bool
  expired_by : Nat
  deriving DecidableEq, Repr

/-- Modelled from the spec: a cache key (`HostCache::Key`, declared in
net/dns/host_cache.h, not among the sources): a resolution key and the secure
flag. -/
structure CacheKey where
  key : JobKey
  secure : Bool
  deriving DecidableEq, Repr

/-- Modelled from the spec: the result cache collaborator (section 6, "Cache"):
the stored entries, each with its staleness.  `HostCache` is defined in
net/dns/host_cache.h, not among the sources. -/
structure HostCache where
  entries : List (CacheKey × Entry × EntryStaleness)
  deriving DecidableEq, Repr

/-- Modelled from the spec: the parameters of one request (section 6, boundary
surface of `Resolve`; `ResolveHostParameters` is declared in
net/dns/host_resolver.h, not among the sources). -/
structure RequestParams where
  host : Host
  dns_query_type : DnsQueryType
  cache_usage : CacheUsage
  secure_dns_policy : SecureDnsPolicy
  prioritize_local_lookups : Bool
  priority : Nat
  resolve_context : Nat
  deriving DecidableEq, Repr

/-- Modelled from the spec: a Job (section 3; the class is only forward-declared
in the header): the remaining task sequence (its head is the task that runs, or runs
next), the attached requests in attachment order (each a request number and its
priority), the cache usage the job was created with, and the number of
dispatcher slots the job occupies (0 while queued, 1 while a task runs, 2 while
a secure and an insecure query race). -/
structure Job where
  tasks : List TaskType
  requests : List (Nat × Nat)
  cache_usage : CacheUsage
  num_occupied_job_slots : Nat
  deriving DecidableEq, Repr

/-- The job map (`using JobMap = std::map<JobKey, std::unique_ptr<Job>>`), as the
list of its key/job pairs. -/
abbrev JobMap := List (JobKey × Job)

/-- Modelled from the spec: the admission dispatcher (section 4.5).
`PrioritizedDispatcher` is defined in net/base/prioritized_dispatcher.h, not
among the sources.  It holds the configured limit, the number of slots handed
out, and the queued jobs in admission order (priority first, then arrival). -/
structure PrioritizedDispatcher where
  max_running_jobs : Nat
  num_running_jobs : Nat
  queue : List (Nat × JobKey)
  deriving DecidableEq, Repr

/-- The state of a `HostResolverManager`: the members the header declares
(`jobs_`, `dispatcher_`, `allow_fallback_to_proctask_`,
`last_ipv6_probe_result_`, `target_network_`), the effective DNS configuration
read through `dns_client_` together with its HOSTS table and preset results, the
host cache (absent when caching is disabled), the check of a hostname for
well-formedness that `Resolve` applies, whether the manager has been destroyed,
and two ghost fields that record the run: the number of requests started so far
and the terminal callbacks delivered so far.  The code of the hostname check is
not among the sources and the specification names only the empty hostname as
malformed input, so the check is a parameter of the manager:
`hostname_validator` answers whether a non-empty hostname is well formed. -/
structure Manager where
  jobs_ : JobMap
  dispatcher_ : PrioritizedDispatcher
  has_dns_config : Bool
  secure_dns_mode : SecureDnsMode
  insecure_dns_client_enabled : Bool
  allow_fallback_to_proctask_ : Bool
  last_ipv6_probe_result_ : Bool
  target_network_ : Nat
  hosts : List (String × List IPAddress)
  config_presets : List (String × List IPAddress)
  cache : Option HostCache
  hostname_validator : String → Bool
  destroyed : Bool
  next_request : Nat
  callbacks : List (Nat × Entry)

/-! ## Resolution policy (section 4.1) -/

/-- Modelled from the spec: a mode `m` restricts a mode `g` when it allows no transport that `g` does
not allow: "automatic" allows secure and insecure transports, "off" only
insecure ones, "required" only secure ones. -/
def SecureDnsMode.restricts (m g : SecureDnsMode) : Bool :=
  decide (m = g) || decide (g = .automatic)

/-- Modelled from the spec: the mode a per-request policy asks for, if it asks for
one. -/
def SecureDnsPolicy.forcedMode : SecureDnsPolicy → Option SecureDnsMode
  | .unspecified => none
  | .forceOff => some .off
  | .forceRequired => some .required

/-- Modelled from the spec: the body of `GetEffectiveSecureDnsMode` is in
host_resolver_manager.cc, which is not among the sources.  Section 4.1: an
explicit per-request policy overrides the manager's global mode only to
restrict it. -/
def GetEffectiveSecureDnsMode (m : Manager) (secure_dns_policy : SecureDnsPolicy) :
    SecureDnsMode :=
  match secure_dns_policy.forcedMode with
  | none => m.secure_dns_mode
  | some forced => if forced.restricts m.secure_dns_mode then forced else m.secure_dns_mode

/-- Modelled from the spec: whether a name lies within the multicast-DNS suffix
(section 4.1, rule 8). -/
def ResemblesMulticastDNSName (hostname : String) : Bool :=
  ".local".toList.isSuffixOf hostname.toList || ".local.".toList.isSuffixOf hostname.toList

/-- Modelled from the spec: the query types a requested type stands for before
narrowing. -/
def DnsQueryType.expand : DnsQueryType → List DnsQueryType
  | .UNSPECIFIED => [.A, .AAAA]
  | t => [t]

/-- Modelled from the spec: `IsIPv6Reachable` as far as the policy engine uses it:
the cached result of the last reachability probe (section 4.1, rule 7).  The
header documents that the result of a probe is returned for some time before
the manager probes again (lines 415-418); the probe and its clock are external,
and the arrival of a new probe result is the event `setIPv6ProbeResult`. -/
def IsIPv6Reachable (m : Manager) : Bool :=
  m.last_ipv6_probe_result_

/-- Modelled from the spec: the body of `GetEffectiveParametersForRequest` is in
host_resolver_manager.cc, which is not among the sources.  Section 4.1, rule 7:
if IPv6 is judged unreachable and the caller did not explicitly request IPv6,
the effective query types are narrowed to IPv4 only; the effective secure-DNS
mode is that of `GetEffectiveSecureDnsMode`. -/
def GetEffectiveParametersForRequest (m : Manager) (dns_query_type : DnsQueryType)
    (secure_dns_policy : SecureDnsPolicy) : List DnsQueryType × SecureDnsMode :=
  let types := dns_query_type.expand
  let effective_types :=
    if !IsIPv6Reachable m && decide (dns_query_type ≠ .AAAA) then
      types.filter (fun t => decide (t ≠ .AAAA))
    else types
  (effective_types, GetEffectiveSecureDnsMode m secure_dns_policy)

/-- Modelled from the spec: the resolution key of a request (section 3,
"Resolution Key"): the request's host, requested query type, secure-DNS policy
and resolve context, and the target network the manager is bound to. -/
def MakeJobKey (m : Manager) (r : RequestParams) : JobKey :=
  { host := r.host, dns_query_type := r.dns_query_type,
    secure_dns_policy := r.secure_dns_policy,
    resolve_context := r.resolve_context, target_network := m.target_network_ }

/-- Modelled from the spec: the insecure network stages of rules 4 and 5: the DNS-client stage if
insecure resolution is enabled (followed by the system-resolver fallback when
the fallback flag allows it), else the system-resolver stage. -/
def InsecureNetworkTasks (m : Manager) (proc_task_allowed insecure_tasks_allowed : Bool) :
    List TaskType :=
  if insecure_tasks_allowed then
    if proc_task_allowed && m.allow_fallback_to_proctask_ then [.DNS, .PROC] else [.DNS]
  else if proc_task_allowed then [.PROC] else []

/-- Modelled from the spec: the body of `PushDnsTasks` is in
host_resolver_manager.cc, which is not among the sources; the parameters are
those of the header's declaration.  Section 4.1, rules 2 and 4 to 6. -/
def PushDnsTasks (m : Manager) (proc_task_allowed : Bool) (secure_dns_mode : SecureDnsMode)
    (insecure_tasks_allowed allow_cache prioritize_local_lookups : Bool)
    (out_tasks : List TaskType) : List TaskType :=
  let secure_cache : List TaskType := if allow_cache then [.SECURE_CACHE_LOOKUP] else []
  let insecure_cache : List TaskType := if allow_cache then [.INSECURE_CACHE_LOOKUP] else []
  match secure_dns_mode with
  | .required => out_tasks ++ secure_cache ++ [.SECURE_DNS]
  | .off =>
    out_tasks ++ insecure_cache ++ InsecureNetworkTasks m proc_task_allowed insecure_tasks_allowed
  | .automatic =>
    if prioritize_local_lookups then
      out_tasks ++ secure_cache ++ insecure_cache ++ [.SECURE_DNS]
        ++ InsecureNetworkTasks m proc_task_allowed insecure_tasks_allowed
    else
      out_tasks ++ secure_cache ++ [.SECURE_DNS] ++ insecure_cache
        ++ InsecureNetworkTasks m proc_task_allowed insecure_tasks_allowed

/-- Modelled from the spec: the body of `CreateTaskSequence` is in
host_resolver_manager.cc, which is not among the sources.  Section 4.1: a
literal address needs no task (rule 1); a name within the multicast-DNS suffix
gets the multicast-DNS task alone (rule 8); every other name gets the tasks of
`PushDnsTasks` for the effective secure-DNS mode that
`GetEffectiveParametersForRequest` determines from the key's policy.
`prioritize_local_lookups` is the request's flag of rule 5.  The hosts-file
lookup of rule 3 is no `TaskType`: it is `ServeFromHosts`, which reads the task
sequence. -/
def CreateTaskSequence (m : Manager) (job_key : JobKey) (cache_usage : CacheUsage)
    (prioritize_local_lookups : Bool) : List TaskType :=
  match job_key.host with
  | .literal _ => []
  | .name hostname =>
    if ResemblesMulticastDNSName hostname then [.MDNS]
    else
      PushDnsTasks m true
        (GetEffectiveParametersForRequest m job_key.dns_query_type job_key.secure_dns_policy).2
        m.insecure_dns_client_enabled
        (decide (cache_usage ≠ .DISALLOWED)) prioritize_local_lookups []

/-- The task sequence built for a request in a manager state: `CreateTaskSequence`
for the key of the request, which takes the effective secure-DNS mode from
`GetEffectiveParametersForRequest`. -/
def TaskSequenceForRequest (m : Manager) (r : RequestParams) : List TaskType :=
  CreateTaskSequence m (MakeJobKey m r) r.cache_usage r.prioritize_local_lookups

/-! ## Local resolution (section 4.2) -/

/-- Modelled from the spec: the cache collaborator's lookup (section 6:
`Lookup(key, allow_stale) -> (Entry, Staleness) | Miss`).  With `ignore_secure`
the secure flag of the key is not compared (the parameter of
`MaybeServeFromCache`).  A stale entry is a miss unless `allow_stale`. -/
def HostCache.Lookup (c : HostCache) (key : CacheKey) (allow_stale ignore_secure : Bool) :
    Option (Entry × EntryStaleness) :=
  match c.entries.find?
      (fun e => decide (e.1.key = key.key) && (ignore_secure || decide (e.1.secure = key.secure))) with
  | none => none
  | some (_, entry, staleness) =>
    if staleness.is_stale && !allow_stale then none else some (entry, staleness)

/-- Modelled from the spec: the cache collaborator's `Store(key, Entry, ttl)`: the
new entry is fresh and shadows older entries of the key. -/
def HostCache.Store (c : HostCache) (key : CacheKey) (entry : Entry) : HostCache :=
  { entries := (key, entry, { is_stale := false, expired_by := 0 }) :: c.entries }

/-- Modelled from the spec: the body of `MaybeServeFromCache` is in
host_resolver_manager.cc, which is not among the sources.  Header, lines
337-340: returns the result iff `cache_usage` permits cache lookups and a match
is found for `key` in `cache`; the staleness output is filled in with details of
the entry's staleness if an entry is returned, otherwise it is set to nullopt.
The result is the pair of the returned entry and of `out_stale_info`. -/
def MaybeServeFromCache (cache : Option HostCache) (key : CacheKey) (cache_usage : CacheUsage)
    (ignore_secure : Bool) : Option Entry × Option EntryStaleness :=
  match cache with
  | none => (none, none)
  | some c =>
    if cache_usage = .DISALLOWED then (none, none)
    else
      match c.Lookup key (decide (cache_usage = .STALE_ALLOWED)) ignore_secure with
      | none => (none, none)
      | some (entry, staleness) => (some entry, some staleness)

/-- Modelled from the spec: the body of `ResolveAsIP` is in host_resolver_manager.cc,
which is not among the sources.  Section 4.1, rule 1: a literal address yields
the address directly. -/
def ResolveAsIP (ip_address : IPAddress) : Entry :=
  { error := .OK, addresses := [ip_address] }

/-- Modelled from the spec: the body of `MaybeReadFromConfig` is in
host_resolver_manager.cc, which is not among the sources.  Header: returns any
preset resolution result from the active configuration that matches the host. -/
def MaybeReadFromConfig (m : Manager) (hostname : String) : Option Entry :=
  (m.config_presets.lookup hostname).map (fun addrs => { error := .OK, addresses := addrs })

/-- Modelled from the spec: the body of `ServeFromHosts` is in
host_resolver_manager.cc, which is not among the sources.  Header, lines
359-361: iff there is a DnsClient with a valid DnsConfig and the job is not about
to attempt a system lookup, try to resolve the query using the HOSTS file. -/
def ServeFromHosts (m : Manager) (hostname : String) (tasks : List TaskType) : Option Entry :=
  if m.has_dns_config && decide (tasks.head? ≠ some TaskType.PROC) then
    (m.hosts.lookup hostname).map (fun addrs => { error := .OK, addresses := addrs })
  else none

/-- Modelled from the spec: the body of `ServeLocalhost` is in
host_resolver_manager.cc, which is not among the sources.  Header: iff the key is
for a localhost name and an address query type, returns an entry with the
loopback address. -/
def ServeLocalhost (hostname : String) (query_types : List DnsQueryType) : Option Entry :=
  if (decide (hostname = "localhost") || ".localhost".toList.isSuffixOf hostname.toList)
      && (query_types.contains .A || query_types.contains .AAAA) then
    some { error := .OK,
           addresses := (if query_types.contains .A then [{ bytes := [127, 0, 0, 1] }] else [])
             ++ (if query_types.contains .AAAA then
                  [{ bytes := [0, 0, 0, 0, 0, 0, 0, 0, 0, 0, 0, 0, 0, 0, 0, 1] }] else []) }
  else none

/-- Modelled from the spec: runs the local tasks at the front of a task sequence
(section 4.2: the cache
lookups at the front are consumed whether they hit or miss; a config-preset task
reads the preset results).  Returns the entry found, if any, with the staleness
reported for it, and the residual sequence. -/
def RunLocalTasks (m : Manager) (job_key : JobKey) (hostname : String) (cache_usage : CacheUsage) :
    List TaskType → Option (Entry × Option EntryStaleness) × List TaskType
  | [] => (none, [])
  | t :: rest =>
    if t = .CONFIG_PRESET then
      match MaybeReadFromConfig m hostname with
      | some entry => (some (entry, none), rest)
      | none => RunLocalTasks m job_key hostname cache_usage rest
    else if IsLocalTask t then
      match MaybeServeFromCache m.cache { key := job_key, secure := decide (t = .SECURE_CACHE_LOOKUP) }
          cache_usage (decide (t = .CACHE_LOOKUP)) with
      | (some entry, stale_info) => (some (entry, stale_info), rest)
      | (none, _) => RunLocalTasks m job_key hostname cache_usage rest
    else (none, t :: rest)

/-- Modelled from the spec: whether the hostname of a request is valid input
(section 4.3: an empty hostname is an input-validation failure; section 7: a
malformed hostname is an input error).  The empty hostname is invalid, and so is
every hostname that the manager's hostname check rejects. -/
def IsValidHostname (m : Manager) (hostname : String) : Bool :=
  !hostname.isEmpty && m.hostname_validator hostname

/-- The outcome of `ResolveLocally`: the returned entry, `out_tasks` and
`out_stale_info`. -/
structure LocalResult where
  entry : Entry
  out_tasks : List TaskType
  out_stale_info : Option EntryStaleness
  deriving DecidableEq, Repr

/-- Modelled from the spec: the body of `ResolveLocally` is in
host_resolver_manager.cc, which is not among the sources.  Header, lines
293-307, and section 4.2: fast local sources in order (IP literal, cache
lookups at the front of the sequence, HOSTS lookup, localhost, config preset);
the error is OK if successful, ERR_NAME_NOT_RESOLVED if the input is invalid,
ERR_DNS_CACHE_MISS if the host could not be resolved using local sources;
`out_stale_info` is filled in if results come from the host cache and is nullopt
otherwise. -/
def ResolveLocally (m : Manager) (job_key : JobKey) (cache_usage : CacheUsage)
    (prioritize_local_lookups : Bool) : LocalResult :=
  let tasks := CreateTaskSequence m job_key cache_usage prioritize_local_lookups
  match job_key.host with
  | .literal ip_address =>
    { entry := ResolveAsIP ip_address, out_tasks := tasks, out_stale_info := none }
  | .name hostname =>
    if !IsValidHostname m hostname then
      { entry := { error := .ERR_NAME_NOT_RESOLVED, addresses := [] }, out_tasks := tasks,
        out_stale_info := none }
    else
      match RunLocalTasks m job_key hostname cache_usage tasks with
      | (some (entry, stale_info), residual) =>
        { entry := entry, out_tasks := residual, out_stale_info := stale_info }
      | (none, residual) =>
        match ServeFromHosts m hostname residual with
        | some entry => { entry := entry, out_tasks := residual, out_stale_info := none }
        | none =>
          match ServeLocalhost hostname
              (GetEffectiveParametersForRequest m job_key.dns_query_type
                job_key.secure_dns_policy).1 with
          | some entry => { entry := entry, out_tasks := residual, out_stale_info := none }
          | none =>
            match MaybeReadFromConfig m hostname with
            | some entry => { entry := entry, out_tasks := residual, out_stale_info := none }
            | none =>
              { entry := { error := .ERR_DNS_CACHE_MISS, addresses := [] },
                out_tasks := residual, out_stale_info := none }

/-! ## Job registry and admission dispatcher (sections 4.3 to 4.5) -/

/-- The job registered under a key (`jobs_.find(key)`). -/
def JobMap.find : JobMap → JobKey → Option Job
  | [], _ => none
  | (k', j) :: rest, k => if k' = k then some j else JobMap.find rest k

/-- Removes the job registered under a key (`jobs_.erase`). -/
def JobMap.erase : JobMap → JobKey → JobMap
  | [], _ => []
  | (k', j) :: rest, k => if k' = k then JobMap.erase rest k else (k', j) :: JobMap.erase rest k

/-- Applies a change to the job registered under a key. -/
def JobMap.modify : JobMap → JobKey → (Job → Job) → JobMap
  | [], _, _ => []
  | (k', j) :: rest, k, f =>
    if k' = k then (k', f j) :: JobMap.modify rest k f else (k', j) :: JobMap.modify rest k f

/-- Registers a job under a key unless the key is taken (`jobs_.emplace`: a map
holds one element per key, an insertion under an existing key inserts nothing). -/
def JobMap.emplace (jobs : JobMap) (k : JobKey) (j : Job) : JobMap :=
  match JobMap.find jobs k with
  | some _ => jobs
  | none => jobs ++ [(k, j)]

/-- The number of dispatcher slots occupied by the jobs of a job map. -/
def JobMap.occupiedSlots : JobMap → Nat
  | [] => 0
  | (_, j) :: rest => j.num_occupied_job_slots + JobMap.occupiedSlots rest

/-- The numbers of the requests attached to the jobs of a job map. -/
def JobMap.attachedRequests : JobMap → List Nat
  | [] => []
  | (_, j) :: rest => j.requests.map Prod.fst ++ JobMap.attachedRequests rest

/-- Modelled from the spec: a job's priority: the maximum of the priorities of its attached requests
(section 4.4). -/
def Job.priority (j : Job) : Nat :=
  (j.requests.map Prod.snd).foldl max 0

/-- Modelled from the spec: queues a handle behind the queued handles of the same or a higher priority
(section 4.5: priority order, FIFO within equal priority). -/
def QueueInsert (p : Nat) (k : JobKey) : List (Nat × JobKey) → List (Nat × JobKey)
  | [] => [(p, k)]
  | (q, k') :: rest =>
    if q < p then (p, k) :: (q, k') :: rest else (q, k') :: QueueInsert p k rest

/-- Modelled from the spec: removes the queued handles of a job from the
dispatcher's queue. -/
def PrioritizedDispatcher.Cancel (d : PrioritizedDispatcher) (k : JobKey) : PrioritizedDispatcher :=
  { d with queue := d.queue.filter (fun e => decide (e.2 ≠ k)) }

/-- Modelled from the spec: moves the queued handle of a job, if it has one, to
the place of a new priority (section 4.4, "Priority"). -/
def PrioritizedDispatcher.ChangePriority (d : PrioritizedDispatcher) (k : JobKey) (p : Nat) :
    PrioritizedDispatcher :=
  if d.queue.any (fun e => decide (e.2 = k)) then
    { d with queue := QueueInsert p k (d.queue.filter (fun e => decide (e.2 ≠ k))) }
  else d

/-- Modelled from the spec: hands one dispatcher slot to the job under key `k`: the dispatcher counts
one running job more and the job occupies one slot more. -/
def GrantSlot (m : Manager) (k : JobKey) : Manager :=
  { m with
    jobs_ := JobMap.modify m.jobs_ k
      (fun j => { j with num_occupied_job_slots := j.num_occupied_job_slots + 1 })
    dispatcher_ := { m.dispatcher_ with num_running_jobs := m.dispatcher_.num_running_jobs + 1 } }

/-- Modelled from the spec: `RequestSlot(priority) -> granted now | queued`
(section 4.5) for the job under key `k`: a free slot is granted at once,
otherwise the job is queued. -/
def RequestSlot (m : Manager) (k : JobKey) (priority : Nat) : Manager :=
  if m.dispatcher_.num_running_jobs < m.dispatcher_.max_running_jobs then
    match JobMap.find m.jobs_ k with
    | some _ => GrantSlot m k
    | none => m
  else
    { m with dispatcher_ := { m.dispatcher_ with queue := QueueInsert priority k m.dispatcher_.queue } }

/-- Modelled from the spec: the reconsideration of the queue that `ReleaseSlot`
triggers (section 4.5): while a slot is free the head of the queue is admitted
and gets the slot; a handle whose job is gone is dropped.  The argument is the
queue still to be considered. -/
def DispatchQueue (m : Manager) : List (Nat × JobKey) → Manager
  | [] => { m with dispatcher_ := { m.dispatcher_ with queue := [] } }
  | (p, k) :: rest =>
    if m.dispatcher_.num_running_jobs < m.dispatcher_.max_running_jobs then
      match JobMap.find m.jobs_ k with
      | some _ => DispatchQueue (GrantSlot m k) rest
      | none => DispatchQueue m rest
    else { m with dispatcher_ := { m.dispatcher_ with queue := (p, k) :: rest } }

/-- Modelled from the spec: admits queued jobs into the free slots (section 4.5). -/
def MaybeDispatchJobs (m : Manager) : Manager :=
  DispatchQueue m m.dispatcher_.queue

/-- Modelled from the spec: `ReleaseSlot` for all the slots a job holds (section
4.4: on a stage transition or on completion the held slots are released). -/
def ReleaseSlots (m : Manager) (k : JobKey) : Manager :=
  match JobMap.find m.jobs_ k with
  | some job =>
    { m with
      jobs_ := JobMap.modify m.jobs_ k (fun j => { j with num_occupied_job_slots := 0 })
      dispatcher_ :=
        { m.dispatcher_ with
          num_running_jobs := m.dispatcher_.num_running_jobs - job.num_occupied_job_slots } }
  | none => m

/-- Modelled from the spec: `CacheResult`, "records the result in cache if cache
is present" (header), when the job's cache usage permits it (section 4.4). -/
def CacheResult (m : Manager) (k : JobKey) (cache_usage : CacheUsage) (secure : Bool)
    (entry : Entry) : Manager :=
  match m.cache with
  | some c =>
    if cache_usage = .DISALLOWED then m
    else { m with cache := some (c.Store { key := k, secure := secure } entry) }
  | none => m

/-- Modelled from the spec: the completion of a job (section 4.4): every attached
request is notified with the same result, in attachment order; the job is
removed from the registry (`RemoveJob`), its queued handles are cancelled and
all the slots it holds are released. -/
def CompleteJob (m : Manager) (k : JobKey) (entry : Entry) : Manager :=
  match JobMap.find m.jobs_ k with
  | some job =>
    { m with
      jobs_ := JobMap.erase m.jobs_ k
      dispatcher_ :=
        { (m.dispatcher_.Cancel k) with
          num_running_jobs := m.dispatcher_.num_running_jobs - job.num_occupied_job_slots }
      callbacks := m.callbacks ++ job.requests.map (fun r => (r.1, entry)) }
  | none => m

/-- The hostname of a key, empty for a literal address. -/
def JobKey.hostname (k : JobKey) : String :=
  match k.host with
  | .literal _ => ""
  | .name h => h

/-- Modelled from the spec: a stage transition of the job under key `k` to the
task sequence `tasks` (section 4.4): the held slots are released, the local
tasks at the front run at once, and either the job completes (a local task
produced a result, or the sequence is exhausted, which fails the job with
`error`) or a slot is requested for the next task. -/
def StartNextTask (m : Manager) (k : JobKey) (tasks : List TaskType) (error : NetError) : Manager :=
  match JobMap.find m.jobs_ k with
  | some job =>
    let m1 := ReleaseSlots m k
    match RunLocalTasks m1 k k.hostname job.cache_usage tasks with
    | (some (entry, _), _) => CompleteJob m1 k entry
    | (none, []) => CompleteJob m1 k { error := error, addresses := [] }
    | (none, t :: residual) =>
      RequestSlot { m1 with jobs_ := JobMap.modify m1.jobs_ k (fun j => { j with tasks := t :: residual }) }
        k job.priority
  | none => m

/-- Modelled from the spec: the outcome a collaborator reports for the running task
of a job (sections 4.4 and 7): success
with a result, or failure with an error that is retryable under the fallback
policy or terminal. -/
inductive TaskOutcome where
  | success (entry : Entry)
  | failure (error : NetError) (retryable : Bool)
  deriving DecidableEq, Repr

/-- Modelled from the spec: the transition of a running job on the completion of
its task (section 4.4).  Success: the result is cached and every request is
notified.  Retryable failure with tasks left: the job moves on to the rest of its
sequence.  Terminal failure, or no task left: every request is notified with the
error.  A job that holds no slot has no running task and nothing happens. -/
def OnTaskComplete (m : Manager) (k : JobKey) (outcome : TaskOutcome) : Manager :=
  match JobMap.find m.jobs_ k with
  | some job =>
    if job.num_occupied_job_slots = 0 then m
    else
      match outcome with
      | .success entry =>
        MaybeDispatchJobs
          (CompleteJob
            (CacheResult m k job.cache_usage (decide (job.tasks.head? = some TaskType.SECURE_DNS)) entry)
            k entry)
      | .failure error retryable =>
        if retryable && !job.tasks.tail.isEmpty then
          MaybeDispatchJobs (StartNextTask m k job.tasks.tail error)
        else MaybeDispatchJobs (CompleteJob m k { error := error, addresses := [] })
  | none => m

/-- Modelled from the spec: a running job starts to race a secure and an
insecure query (sections 3 and 4.5): it takes a second slot if one is free. -/
def StartRace (m : Manager) (k : JobKey) : Manager :=
  match JobMap.find m.jobs_ k with
  | some job =>
    if job.num_occupied_job_slots = 1
        ∧ m.dispatcher_.num_running_jobs < m.dispatcher_.max_running_jobs then
      { m with
        jobs_ := JobMap.modify m.jobs_ k (fun j => { j with num_occupied_job_slots := 2 })
        dispatcher_ :=
          { m.dispatcher_ with num_running_jobs := m.dispatcher_.num_running_jobs + 1 } }
    else m
  | none => m

/-- Modelled from the spec: the race of a job ends without completing the job: the
second slot is released and the queue is reconsidered (section 4.5). -/
def EndRace (m : Manager) (k : JobKey) : Manager :=
  match JobMap.find m.jobs_ k with
  | some job =>
    if job.num_occupied_job_slots = 2 then
      MaybeDispatchJobs
        { m with
          jobs_ := JobMap.modify m.jobs_ k (fun j => { j with num_occupied_job_slots := 1 })
          dispatcher_ :=
            { m.dispatcher_ with num_running_jobs := m.dispatcher_.num_running_jobs - 1 } }
    else m
  | none => m

/-- Modelled from the spec: attaches a request to a job (section 4.3), after the
requests already attached. -/
def Job.AddRequest (j : Job) (request priority : Nat) : Job :=
  { j with requests := j.requests ++ [(request, priority)] }

/-- Modelled from the spec: the body of `CreateAndStartJob` (with
`AddJobWithoutRequest`) is in host_resolver_manager.cc, which is not among the
sources.  Section 4.3: creates a Job, registers it, attaches the request and
submits its first stage to the admission dispatcher. -/
def CreateAndStartJob (m : Manager) (key : JobKey) (tasks : List TaskType)
    (cache_usage : CacheUsage) (request priority : Nat) : Manager :=
  let job : Job :=
    { tasks := tasks, requests := [(request, priority)], cache_usage := cache_usage,
      num_occupied_job_slots := 0 }
  RequestSlot { m with jobs_ := JobMap.emplace m.jobs_ key job } key priority

/-- Modelled from the spec: the body of `Resolve` is in host_resolver_manager.cc,
which is not among the sources.  Section 4.3: runs the policy engine and the
local fast path; a local result or an input-validation failure is returned
synchronously; on residual tasks the request is attached to the job registered
under its key, or a job is created for it.  The result is the new state and the
synchronous result, if any (`none`: the request waits on a job).  The request
gets the number `next_request`. -/
def Resolve (m : Manager) (r : RequestParams) : Manager × Option Entry :=
  let key := MakeJobKey m r
  let local_result := ResolveLocally m key r.cache_usage r.prioritize_local_lookups
  let m1 := { m with next_request := m.next_request + 1 }
  if local_result.entry.error ≠ .ERR_DNS_CACHE_MISS ∨ local_result.out_tasks = [] then
    (m1, some local_result.entry)
  else
    match JobMap.find m.jobs_ key with
    | some job =>
      let job1 := job.AddRequest m.next_request r.priority
      ({ m1 with
          jobs_ := JobMap.modify m.jobs_ key (fun j => j.AddRequest m.next_request r.priority)
          dispatcher_ := m.dispatcher_.ChangePriority key job1.priority }, none)
    | none =>
      (CreateAndStartJob m1 key local_result.out_tasks r.cache_usage m.next_request r.priority,
        none)

/-- Modelled from the spec: a caller cancels a request (section 5,
"Cancellation"): the request is detached from its job; the job stays and its
queued handle moves to the priority of the requests that remain. -/
def CancelRequest (m : Manager) (request : Nat) : Manager :=
  let jobs := m.jobs_.map
    (fun p => (p.1, { p.2 with requests := p.2.requests.filter (fun r => decide (r.1 ≠ request)) }))
  { m with
    jobs_ := jobs
    dispatcher_ :=
      jobs.foldl (fun d p => d.ChangePriority p.1 p.2.priority) m.dispatcher_ }

/-- Modelled from the spec: completes, with the same result, each of the listed
jobs. -/
def CompleteJobs (m : Manager) (entry : Entry) : List JobKey → Manager
  | [] => m
  | k :: rest => CompleteJobs (CompleteJob m k entry) entry rest

/-- Modelled from the spec: the body of `DeregisterResolveContext` (with
`RemoveAllJobs`) is in host_resolver_manager.cc, which is not among the
sources.  Section 4.3: aborts and removes every job whose key belongs to the
context, delivering an "aborted" completion to every attached request. -/
def DeregisterResolveContext (m : Manager) (context : Nat) : Manager :=
  MaybeDispatchJobs
    (CompleteJobs m { error := .ERR_ABORTED, addresses := [] }
      ((m.jobs_.filter (fun p => decide (p.1.resolve_context = context))).map Prod.fst))

/-- Modelled from the spec: the abort of the in-flight insecure DNS task of one
job (header, `AbortInsecureDnsTasks`; section 4.3): a job that runs an insecure
DNS task falls back to the system resolver if that is the next task of its
sequence, and otherwise fails with the error. -/
def AbortInsecureDnsTask (m : Manager) (error : NetError) (k : JobKey) : Manager :=
  match JobMap.find m.jobs_ k with
  | some job =>
    if 0 < job.num_occupied_job_slots ∧ job.tasks.head? = some TaskType.DNS then
      if job.tasks.tail.head? = some TaskType.PROC then StartNextTask m k job.tasks.tail error
      else CompleteJob m k { error := error, addresses := [] }
    else m
  | none => m

/-- Modelled from the spec: aborts the in-flight insecure DNS tasks of the listed
jobs. -/
def AbortInsecureDnsTasks (m : Manager) (error : NetError) : List JobKey → Manager
  | [] => m
  | k :: rest => AbortInsecureDnsTasks (AbortInsecureDnsTask m error k) error rest

/-- Modelled from the spec: the body of `InvalidateCaches` is in
host_resolver_manager.cc, which is not among the sources.  Section 4.3: clears
the cached reachability state and aborts the in-flight insecure network stages,
with fallback where the sequence allows it. -/
def InvalidateCaches (m : Manager) : Manager :=
  MaybeDispatchJobs
    (AbortInsecureDnsTasks { m with last_ipv6_probe_result_ := true } .ERR_NETWORK_CHANGED
      (m.jobs_.map Prod.fst))

/-- Modelled from the spec: the body of the destructor is in
host_resolver_manager.cc, which is not among the sources.  Header, lines
125-127: if any completion callbacks are pending when the resolver is
destroyed, the host resolutions are cancelled, and the completion callbacks
will not be called. -/
def Destroy (m : Manager) : Manager :=
  { m with
    jobs_ := []
    dispatcher_ := { m.dispatcher_ with num_running_jobs := 0, queue := [] }
    destroyed := true }

/-- Modelled from the spec: the constructor: no job, no running task, the
dispatcher limit of the options (header, lines 112-114), the members'
initial values of the header (`allow_fallback_to_proctask_ = true`,
`last_ipv6_probe_result_ = true`). -/
def Create (max_running_jobs : Nat) (enable_caching : Bool) (target_network : Nat) : Manager :=
  { jobs_ := []
    dispatcher_ := { max_running_jobs := max_running_jobs, num_running_jobs := 0, queue := [] }
    has_dns_config := false
    secure_dns_mode := .off
    insecure_dns_client_enabled := false
    allow_fallback_to_proctask_ := true
    last_ipv6_probe_result_ := true
    target_network_ := target_network
    hosts := []
    config_presets := []
    cache := if enable_caching then some { entries := [] } else none
    hostname_validator := fun _ => true
    destroyed := false
    next_request := 0
    callbacks := [] }

/-- A fresh manager whose hostname check is `validator` (see `Manager`): the
state of `Create` with that check in place of the check that accepts every
non-empty hostname. -/
def CreateWithValidator (max_running_jobs : Nat) (enable_caching : Bool) (target_network : Nat)
    (validator : String → Bool) : Manager :=
  { Create max_running_jobs enable_caching target_network with hostname_validator := validator }

/-- Modelled from the spec: what can happen to a manager: calls of its interface, completions reported by
the collaborators, configuration changes, and its destruction. -/
inductive Event where
  | resolve (r : RequestParams)
  | cancel (request : Nat)
  | taskComplete (k : JobKey) (outcome : TaskOutcome)
  | startRace (k : JobKey)
  | endRace (k : JobKey)
  | deregisterContext (context : Nat)
  | invalidateCaches
  | setDnsConfig (has_dns_config : Bool) (mode : SecureDnsMode)
      (insecure_enabled allow_fallback : Bool) (hosts presets : List (String × List IPAddress))
  | setIPv6ProbeResult (reachable : Bool)
  | destroy
  deriving DecidableEq, Repr

/-- Modelled from the spec: one step of a manager.  A destroyed manager takes no
step. -/
def Manager.step (m : Manager) (e : Event) : Manager :=
  if m.destroyed then m
  else
    match e with
    | .resolve r => (Resolve m r).1
    | .cancel request => CancelRequest m request
    | .taskComplete k outcome => OnTaskComplete m k outcome
    | .startRace k => StartRace m k
    | .endRace k => EndRace m k
    | .deregisterContext context => DeregisterResolveContext m context
    | .invalidateCaches => InvalidateCaches m
    | .setDnsConfig has_dns_config mode insecure_enabled allow_fallback hosts presets =>
      { m with
        has_dns_config := has_dns_config, secure_dns_mode := mode
        insecure_dns_client_enabled := insecure_enabled
        allow_fallback_to_proctask_ := allow_fallback, hosts := hosts
        config_presets := presets }
    | .setIPv6ProbeResult reachable => { m with last_ipv6_probe_result_ := reachable }
    | .destroy => Destroy m

/-- The state of a manager after a run of events. -/
def Manager.run (m : Manager) (events : List Event) : Manager :=
  events.foldl Manager.step m

/-- The number of terminal callbacks a request has received. -/
def Manager.callbackCount (m : Manager) (request : Nat) : Nat :=
  (m.callbacks.map Prod.fst).count request

/-! ## Invariant of the reachable states -/

/-- The invariant of a manager created with dispatcher limit `limit`: the job map
holds one job per key; the dispatcher counts exactly the slots the jobs occupy,
within the unchanged limit; no request is both notified and attached, notified
twice, or attached twice; every request known to the manager was started. -/
structure Manager.Invariant (limit : Nat) (m : Manager) : Prop where
  keys_nodup : (m.jobs_.map Prod.fst).Nodup
  running_eq : m.dispatcher_.num_running_jobs = JobMap.occupiedSlots m.jobs_
  running_le : m.dispatcher_.num_running_jobs ≤ m.dispatcher_.max_running_jobs
  limit_eq : m.dispatcher_.max_running_jobs = limit
  requests_nodup : (m.callbacks.map Prod.fst ++ JobMap.attachedRequests m.jobs_).Nodup
  requests_lt : ∀ request ∈ m.callbacks.map Prod.fst ++ JobMap.attachedRequests m.jobs_,
    request < m.next_request

/-- How a later state `m'` extends an earlier state `m`: request numbers only
grow, a request attached in `m'` was attached in `m` or started since, and the
callbacks delivered in `m` are the first callbacks of `m'`. -/
structure Manager.Extends (m m' : Manager) : Prop where
  next_le : m.next_request ≤ m'.next_request
  attached : ∀ request ∈ JobMap.attachedRequests m'.jobs_,
    request ∈ JobMap.attachedRequests m.jobs_ ∨ m.next_request ≤ request
  callbacks_kept : m.callbacks <+: m'.callbacks

/-- How a later state `m'` follows an earlier state `m` as to where requests are
attached and who is notified: the later state extends the earlier one, the
target network and the hostname check stay the same, a request attached to the
job under a key in `m'` was attached to the job under that key in `m` or has
been started since, and a request notified in `m'` was notified or attached in
`m` or has been started since. -/
structure Manager.Follows (m m' : Manager) : Prop where
  kept : m.Extends m'
  target_eq : m'.target_network_ = m.target_network_
  validator_eq : m'.hostname_validator = m.hostname_validator
  attached_under : ∀ (k : JobKey) (job' : Job) (request : Nat),
    JobMap.find m'.jobs_ k = some job' → request ∈ job'.requests.map Prod.fst →
    (∃ job, JobMap.find m.jobs_ k = some job ∧ request ∈ job.requests.map Prod.fst)
      ∨ m.next_request ≤ request
  notified_from : ∀ request ∈ m'.callbacks.map Prod.fst,
    request ∈ m.callbacks.map Prod.fst ∨ request ∈ JobMap.attachedRequests m.jobs_
      ∨ m.next_request ≤ request

/-- No request is lost between an earlier state `m` and a later state `m'`: the
later state extends the earlier one, and every request attached in `m` is
attached in `m'` or has been notified in `m'`. -/
structure Manager.Notifies (m m' : Manager) : Prop where
  kept : m.Extends m'
  notified : ∀ request ∈ JobMap.attachedRequests m.jobs_,
    request ∈ JobMap.attachedRequests m'.jobs_ ∨ request ∈ m'.callbacks.map Prod.fst

/-- A request for the addresses of "example.com" with default parameters. -/
def exampleRequest : RequestParams :=
  { host := .name "example.com", dns_query_type := .UNSPECIFIED, cache_usage := .ALLOWED,
    secure_dns_policy := .unspecified, prioritize_local_lookups := false, priority := 2,
    resolve_context := 0 }

/-- The resolution key of `exampleRequest` under a manager bound to target
network 0. -/
def exampleKey : JobKey :=
  { host := .name "example.com", dns_query_type := .UNSPECIFIED,
    secure_dns_policy := .unspecified,
    resolve_context := 0, target_network := 0 }

/-- A hostname check for examples: a hostname is well formed if it holds no
space. -/
def exampleValidator (hostname : String) : Bool :=
  !hostname.toList.contains ' '

/-- A cache whose only entry, for `exampleKey`, is stale. -/
def staleCache : HostCache :=
  { entries :=
      [({ key := exampleKey, secure := false },
        { error := .OK, addresses := [{ bytes := [93, 184, 216, 34] }] },
        { is_stale := true, expired_by := 5 })] }

end HostResolverManager

/-! # Certificate path building: the simple delegate

A shallow embedding of `net::SimplePathBuilderDelegate`
(net/cert/pki/simple_path_builder_delegate.cc) and of the size parameters of
net/cert/pki/cert_error_params.cc. -/

namespace SimplePathBuilderDelegate

/-- The signature algorithms that the switch of `IsSignatureAlgorithmAcceptable`
names (`enum class SignatureAlgorithm`; its declaration, in
net/cert/pki/signature_algorithm.h, is not among the sources, and the switch has
no default case, so these are all its enumerators). -/
inductive SignatureAlgorithm where
  | kRsaPkcs1Sha1
  | kRsaPkcs1Sha256
  | kRsaPkcs1Sha384
  | kRsaPkcs1Sha512
  | kEcdsaSha1
  | kEcdsaSha256
  | kEcdsaSha384
  | kEcdsaSha512
  | kRsaPssSha256
  | kRsaPssSha384
  | kRsaPssSha512
  | kRsaPkcs1Md2
  | kRsaPkcs1Md4
  | kRsaPkcs1Md5
  | kDsaSha1
  | kDsaSha256
  deriving DecidableEq, Repr

/-- The digest policy of a delegate (`DigestPolicy`, declared in
net/cert/pki/simple_path_builder_delegate.h, which is not among the sources):
the policy that allows SHA-1, which the code names, and the strong one. -/
inductive DigestPolicy where
  | kStrong
  | kWeakAllowSha1
  deriving DecidableEq, Repr

/-- The decimal rendering of a number (`base::NumberToString`, not among the
sources). -/
def NumberToString (value : Nat) : String :=
  toString value

/-- The parameters of a certificate error, by class of cert_error_params.cc:
`CertErrorParams1SizeT` (one named size) and `CertErrorParams2SizeT` (two named
sizes).  The class for DER blobs is not used by the delegate and is left out. -/
inductive CertErrorParams where
  | SizeT1 (name : String) (value : Nat)
  | SizeT2 (name1 : String) (value1 : Nat) (name2 : String) (value2 : Nat)
  deriving DecidableEq, Repr

/-- The `ToDebugString` overrides of `CertErrorParams1SizeT` and
`CertErrorParams2SizeT`. -/
def CertErrorParams.ToDebugString : CertErrorParams → String
  | .SizeT1 name value => name ++ ": " ++ NumberToString value
  | .SizeT2 name1 value1 name2 value2 =>
    name1 ++ ": " ++ NumberToString value1 ++ "\n" ++ name2 ++ ": " ++ NumberToString value2

/-- The function `CreateCertErrorParams2SizeT`. -/
def CreateCertErrorParams2SizeT (name1 : String) (value1 : Nat) (name2 : String)
    (value2 : Nat) : CertErrorParams :=
  .SizeT2 name1 value1 name2 value2

/-- The error `kRsaModulusTooSmall`
(`DEFINE_CERT_ERROR_ID(SimplePathBuilderDelegate::kRsaModulusTooSmall, ...)`): an
error id is its description. -/
def kRsaModulusTooSmall : String :=
  "RSA modulus too small"

/-- The error `kUnacceptableCurveForEcdsa`. -/
def kUnacceptableCurveForEcdsa : String :=
  "Only P-256, P-384, P-521 are supported for ECDSA"

/-- One error of a `CertErrors`: its id and its parameters, if any. -/
structure CertError where
  id : String
  params : Option CertErrorParams
  deriving DecidableEq, Repr

/-- The errors collected so far (`CertErrors`, declared in
net/cert/pki/cert_errors.h, which is not among the sources), oldest first. -/
abbrev CertErrors := List CertError

/-- The method `CertErrors::AddError`: adds one error after the errors collected
so far. -/
def CertErrors.AddError (errors : CertErrors) (id : String) (params : Option CertErrorParams) :
    CertErrors :=
  errors ++ [{ id := id, params := params }]

/-- The curve identifier of P-256 (`NID_X9_62_prime256v1` of BoringSSL's nid.h,
which is not among the sources). -/
def NID_X9_62_prime256v1 : Int := 415

/-- The curve identifier of P-384 (`NID_secp384r1` of BoringSSL's nid.h). -/
def NID_secp384r1 : Int := 715

/-- The curve identifier of P-521 (`NID_secp521r1` of BoringSSL's nid.h). -/
def NID_secp521r1 : Int := 716

/-- The function `IsAcceptableCurveForEcdsa`. -/
def IsAcceptableCurveForEcdsa (curve_nid : Int) : Bool :=
  if curve_nid = NID_X9_62_prime256v1 then true
  else if curve_nid = NID_secp384r1 then true
  else if curve_nid = NID_secp521r1 then true
  else false

/-- An RSA key as the delegate reads it: the length of its modulus in bits
(`RSA_bits`). -/
structure RSA where
  bits : Nat
  deriving DecidableEq, Repr

/-- An EC key as the delegate reads it: the name of the curve of its group
(`EC_GROUP_get_curve_name(EC_KEY_get0_group(ec))`). -/
structure EC_KEY where
  curve_name : Int
  deriving DecidableEq, Repr

/-- A public key (`EVP_PKEY` of BoringSSL, not among the sources) as the delegate
reads it: by its type (`EVP_PKEY_id`), an RSA key with what `EVP_PKEY_get0_RSA`
returns, an EC key with what `EVP_PKEY_get0_EC_KEY` returns (either may be
null), or a key of another type. -/
inductive EVP_PKEY where
  | rsa (key : Option RSA)
  | ec (key : Option EC_KEY)
  | other
  deriving DecidableEq, Repr

/-- The members of a `SimplePathBuilderDelegate`, set by its constructor. -/
structure Delegate where
  min_rsa_modulus_length_bits_ : Nat
  digest_policy_ : DigestPolicy
  deriving DecidableEq, Repr

/-- The method `IsSignatureAlgorithmAcceptable`: the result and the errors
afterwards. -/
def IsSignatureAlgorithmAcceptable (d : Delegate) (algorithm : SignatureAlgorithm)
    (errors : CertErrors) : Bool × CertErrors :=
  match algorithm with
  | .kRsaPkcs1Sha1 | .kEcdsaSha1 => (decide (d.digest_policy_ = .kWeakAllowSha1), errors)
  | .kRsaPkcs1Sha256 | .kRsaPkcs1Sha384 | .kRsaPkcs1Sha512 | .kEcdsaSha256 | .kEcdsaSha384
  | .kEcdsaSha512 | .kRsaPssSha256 | .kRsaPssSha384 | .kRsaPssSha512 => (true, errors)
  | .kRsaPkcs1Md2 | .kRsaPkcs1Md4 | .kRsaPkcs1Md5 | .kDsaSha1 | .kDsaSha256 => (false, errors)

/-- The method `IsPublicKeyAcceptable`: the result and the errors afterwards.  The
modulus length (an `unsigned int`) is compared with the minimum (a `size_t`)
after conversion to `size_t`, which changes no value. -/
def IsPublicKeyAcceptable (d : Delegate) (public_key : EVP_PKEY) (errors : CertErrors) :
    Bool × CertErrors :=
  match public_key with
  | .rsa none => (false, errors)
  | .rsa (some rsa) =>
    let modulus_length_bits := rsa.bits
    if modulus_length_bits < d.min_rsa_modulus_length_bits_ then
      (false,
        errors.AddError kRsaModulusTooSmall
          (some (CreateCertErrorParams2SizeT "actual" modulus_length_bits "minimum"
            d.min_rsa_modulus_length_bits_)))
    else (true, errors)
  | .ec none => (false, errors)
  | .ec (some ec) =>
    let curve_nid := ec.curve_name
    if !IsAcceptableCurveForEcdsa curve_nid then
      (false, errors.AddError kUnacceptableCurveForEcdsa none)
    else (true, errors)
  | .other => (false, errors)

end SimplePathBuilderDelegate

/-! # In-memory trust store

A shallow embedding of `net::TrustStoreInMemory`
(net/cert/pki/trust_store_in_memory.cc). -/

/-- A parsed certificate (`ParsedCertificate`, declared in
net/cert/pki/parsed_certificate.h, which is not among the sources), given by its
DER encoding (`der_cert()`).  A certificate object is immutable and built from
its DER encoding alone, so two objects are told apart by their encodings only. -/
structure ParsedCertificate where
  der_cert : List Nat
  deriving DecidableEq, Repr

/-- What parsing computes from the DER encoding of a certificate
(`normalized_subject()` and `normalized_issuer()`; the parser is not among the
sources and is a parameter of the embedding). -/
structure CertificateParser where
  normalized_subject : List Nat → List Nat
  normalized_issuer : List Nat → List Nat

/-- The trust values that the trust store uses, named by the functions of
`CertificateTrust` that return them (`CertificateTrust` is declared in
net/cert/pki/trust_store.h, which is not among the sources). -/
inductive CertificateTrust where
  | ForTrustAnchor
  | ForTrustAnchorEnforcingExpiration
  | ForTrustAnchorEnforcingConstraints
  | ForDistrusted
  | ForUnspecified
  deriving DecidableEq, Repr

/-- An entry of the store (`TrustStoreInMemory::Entry`). -/
structure TrustStoreInMemory.Entry where
  cert : ParsedCertificate
  trust : CertificateTrust
  deriving DecidableEq, Repr

/-- The member `entries_` of a trust store, an unordered multimap from normalized
subjects to entries, as the list of its key/entry pairs in iteration order. -/
structure TrustStoreInMemory where
  entries_ : List (List Nat × TrustStoreInMemory.Entry)
  deriving DecidableEq, Repr

namespace TrustStoreInMemory

/-- The store of the default constructor. -/
def empty : TrustStoreInMemory :=
  { entries_ := [] }

/-- The method `IsEmpty`. -/
def IsEmpty (s : TrustStoreInMemory) : Bool :=
  s.entries_.isEmpty

/-- The method `Clear`. -/
def Clear (_s : TrustStoreInMemory) : TrustStoreInMemory :=
  { entries_ := [] }

/-- The pairs of `entries_.equal_range(key)`: the pairs with that key, in iteration
order. -/
def equal_range (s : TrustStoreInMemory) (key : List Nat) :
    List (List Nat × TrustStoreInMemory.Entry) :=
  s.entries_.filter (fun kv => decide (kv.1 = key))

/-- The pairs after `entries_.insert(pair)`.  Where an unordered multimap places
a new pair is left open by the language; `position` stands for that choice. -/
def insert (s : TrustStoreInMemory) (position : Nat) (pair : List Nat × TrustStoreInMemory.Entry) :
    TrustStoreInMemory :=
  { entries_ := s.entries_.take position ++ [pair] ++ s.entries_.drop position }

/-- The method `AddCertificate`. -/
def AddCertificate (p : CertificateParser) (s : TrustStoreInMemory) (cert : ParsedCertificate)
    (trust : CertificateTrust) (position : Nat) : TrustStoreInMemory :=
  let entry : TrustStoreInMemory.Entry := { cert := cert, trust := trust }
  s.insert position (p.normalized_subject entry.cert.der_cert, entry)

/-- The method `AddTrustAnchor`. -/
def AddTrustAnchor (p : CertificateParser) (s : TrustStoreInMemory) (cert : ParsedCertificate)
    (position : Nat) : TrustStoreInMemory :=
  AddCertificate p s cert .ForTrustAnchor position

/-- The method `AddTrustAnchorWithExpiration`. -/
def AddTrustAnchorWithExpiration (p : CertificateParser) (s : TrustStoreInMemory)
    (cert : ParsedCertificate) (position : Nat) : TrustStoreInMemory :=
  AddCertificate p s cert .ForTrustAnchorEnforcingExpiration position

/-- The method `AddTrustAnchorWithConstraints`. -/
def AddTrustAnchorWithConstraints (p : CertificateParser) (s : TrustStoreInMemory)
    (cert : ParsedCertificate) (position : Nat) : TrustStoreInMemory :=
  AddCertificate p s cert .ForTrustAnchorEnforcingConstraints position

/-- The method `AddDistrustedCertificateForTest`. -/
def AddDistrustedCertificateForTest (p : CertificateParser) (s : TrustStoreInMemory)
    (cert : ParsedCertificate) (position : Nat) : TrustStoreInMemory :=
  AddCertificate p s cert .ForDistrusted position

/-- The method `AddCertificateWithUnspecifiedTrust`. -/
def AddCertificateWithUnspecifiedTrust (p : CertificateParser) (s : TrustStoreInMemory)
    (cert : ParsedCertificate) (position : Nat) : TrustStoreInMemory :=
  AddCertificate p s cert .ForUnspecified position

/-- The method `SyncGetIssuersOf`: the store and the list `issuers` afterwards. -/
def SyncGetIssuersOf (p : CertificateParser) (s : TrustStoreInMemory) (cert : ParsedCertificate)
    (issuers : List ParsedCertificate) : TrustStoreInMemory × List ParsedCertificate :=
  let range := s.equal_range (p.normalized_issuer cert.der_cert)
  (s, issuers ++ range.map (fun it => it.2.cert))

/-- The method `GetEntry`: the first pair of the range of the certificate's
normalized subject whose certificate is the given one or has the same DER
encoding; `none` stands for the null pointer. -/
def GetEntry (p : CertificateParser) (s : TrustStoreInMemory) (cert : ParsedCertificate) :
    Option TrustStoreInMemory.Entry :=
  let range := s.equal_range (p.normalized_subject cert.der_cert)
  (range.find?
    (fun it => decide (cert = it.2.cert) || decide (cert.der_cert = it.2.cert.der_cert))).map
    Prod.snd

/-- The method `GetTrust`. -/
def GetTrust (p : CertificateParser) (s : TrustStoreInMemory) (cert : ParsedCertificate) :
    CertificateTrust :=
  match GetEntry p s cert with
  | some entry => entry.trust
  | none => .ForUnspecified

/-- The method `Contains`. -/
def Contains (p : CertificateParser) (s : TrustStoreInMemory) (cert : ParsedCertificate) : Bool :=
  (GetEntry p s cert).isSome

/-- A call that changes a store: `AddCertificate` (through one of the five public
methods, which differ in the trust only) or `Clear`. -/
inductive Operation where
  | add (cert : ParsedCertificate) (trust : CertificateTrust) (position : Nat)
  | clear
  deriving DecidableEq, Repr

/-- The store after a call. -/
def apply (p : CertificateParser) (s : TrustStoreInMemory) : Operation → TrustStoreInMemory
  | .add cert trust position => AddCertificate p s cert trust position
  | .clear => Clear s

/-- The store after a run of calls on a new store. -/
def run (p : CertificateParser) (operations : List Operation) : TrustStoreInMemory :=
  operations.foldl (apply p) empty

/-- The invariant of the stores built by calls: every key is the normalized subject
of the certificate of its entry. -/
def KeysAreSubjects (p : CertificateParser) (s : TrustStoreInMemory) : Prop :=
  ∀ kv ∈ s.entries_, kv.1 = p.normalized_subject kv.2.cert.der_cert

/-- A parser for examples: the first two bytes of an encoding are the subject,
the next two the issuer. -/
def exampleParser : CertificateParser :=
  { normalized_subject := fun der => der.take 2
    normalized_issuer := fun der => (der.drop 2).take 2 }

end TrustStoreInMemory

/-! # Battery state sampler

A shallow embedding of `base::BatteryStateSampler`
(base/power_monitor/battery_state_sampler.h and .cc). -/

/-- A battery sample (`BatteryLevelProvider::BatteryState`, declared in
base/power_monitor/battery_level_provider.h, which is not among the sources);
the sampler passes samples on without reading them. -/
structure BatteryState where
  battery_count : Nat
  is_external_power_connected : Bool
  current_capacity : Option Nat
  full_charged_capacity : Option Nat
  deriving DecidableEq, Repr

/-- The members of a `BatteryStateSampler` that its methods read and write:
`observer_list_` (the observers, each named by a number, in the order of
iteration), `has_last_battery_state_` and `last_battery_state_`; and a ghost
field, the calls of `Observer::OnBatteryStateSampled` made so far, oldest first,
each with the observer called and the sample passed. -/
structure BatteryStateSampler where
  observer_list_ : List Nat
  has_last_battery_state_ : Bool
  last_battery_state_ : Option BatteryState
  notifications : List (Nat × Option BatteryState)
  deriving DecidableEq, Repr

namespace BatteryStateSampler

/-- The method `ObserverList::AddObserver` (base/observer_list.h, which is not
among the sources): an observer that is already in the list is not added again,
a new observer is added at the end. -/
def ObserverList.AddObserver (observers : List Nat) (obs : Nat) : List Nat :=
  if obs ∈ observers then observers else observers ++ [obs]

/-- The method `ObserverList::RemoveObserver` (base/observer_list.h, which is not
among the sources): the observer is taken out of the list if it is there. -/
def ObserverList.RemoveObserver (observers : List Nat) (obs : Nat) : List Nat :=
  observers.erase obs

/-- The sampler after its constructor: no observer, no sample
(`has_last_battery_state_ = false`), no observer called. -/
def Create : BatteryStateSampler :=
  { observer_list_ := [], has_last_battery_state_ := false, last_battery_state_ := none,
    notifications := [] }

/-- The method `AddObserver`. -/
def AddObserver (s : BatteryStateSampler) (observer : Nat) : BatteryStateSampler :=
  let s1 := { s with observer_list_ := ObserverList.AddObserver s.observer_list_ observer }
  if s1.has_last_battery_state_ then
    { s1 with notifications := s1.notifications ++ [(observer, s1.last_battery_state_)] }
  else s1

/-- The method `RemoveObserver`. -/
def RemoveObserver (s : BatteryStateSampler) (observer : Nat) : BatteryStateSampler :=
  { s with observer_list_ := ObserverList.RemoveObserver s.observer_list_ observer }

/-- The loop `for (auto& observer : observer_list_)
observer.OnBatteryStateSampled(battery_state)`: the calls it makes. -/
def NotifyObservers (s : BatteryStateSampler) (battery_state : Option BatteryState) :
    List (Nat × Option BatteryState) :=
  s.observer_list_.map (fun observer => (observer, battery_state))

/-- The method `OnInitialBatteryStateSampled`.  Its `DCHECK(!has_last_battery_state_)`
is a precondition and changes nothing. -/
def OnInitialBatteryStateSampled (s : BatteryStateSampler) (battery_state : Option BatteryState) :
    BatteryStateSampler :=
  { s with
    has_last_battery_state_ := true
    last_battery_state_ := battery_state
    notifications := s.notifications ++ NotifyObservers s battery_state }

/-- The method `OnBatteryStateSampled`.  Its `DCHECK(has_last_battery_state_)` is a
precondition and changes nothing. -/
def OnBatteryStateSampled (s : BatteryStateSampler) (battery_state : Option BatteryState) :
    BatteryStateSampler :=
  { s with
    last_battery_state_ := battery_state
    notifications := s.notifications ++ NotifyObservers s battery_state }

/-- What happens to a sampler: calls of `AddObserver` and `RemoveObserver`, the
reply to the request for the initial sample, and the replies to the periodic
requests. -/
inductive Event where
  | addObserver (observer : Nat)
  | removeObserver (observer : Nat)
  | initialSample (battery_state : Option BatteryState)
  | periodicSample (battery_state : Option BatteryState)
  deriving DecidableEq, Repr

/-- One step of a sampler. -/
def step (s : BatteryStateSampler) : Event → BatteryStateSampler
  | .addObserver observer => AddObserver s observer
  | .removeObserver observer => RemoveObserver s observer
  | .initialSample battery_state => OnInitialBatteryStateSampled s battery_state
  | .periodicSample battery_state => OnBatteryStateSampled s battery_state

/-- The sampler after a run of events on a new sampler. -/
def run (events : List Event) : BatteryStateSampler :=
  events.foldl step Create

end BatteryStateSampler

/-! # WMI queries

A shallow embedding of `RunWmiQuery` and its helpers (base/win/wmi.cc). -/

namespace Wmi

/-- A result code of the COM interface (`HRESULT`, a signed 32-bit number). -/
abbrev HRESULT := Int

/-- The test `FAILED(hr)` of the Windows headers: a result code is a failure when
it is negative. -/
def FAILED (hr : HRESULT) : Bool :=
  decide (hr < 0)

/-- A COM smart pointer (`ComPtr<T>`): the object pointed to, named by a number,
or `none` for the null pointer. -/
abbrev ComPtr := Option Nat

/-- The errors that the functions of wmi.cc report (`WmiError`, declared in
base/win/wmi.h, which is not among the sources). -/
inductive WmiError where
  | kFailedToCreateInstance
  | kFailedToConnectToWMI
  | kFailedToSetSecurityBlanket
  | kFailedToExecWMIQuery
  deriving DecidableEq, Repr

/-- The COM calls that the functions make, as the environment answers them:
`CoCreateInstance` for the WMI locator, `IWbemLocator::ConnectServer` on a
locator for a server name, `CoSetProxyBlanket` on a services object, and
`IWbemServices::ExecQuery` on a services object for a query.  Each answer is a
result code and, where the call has one, the object written to its output. -/
structure ComEnvironment where
  CoCreateInstance : HRESULT × ComPtr
  ConnectServer : ComPtr → String → HRESULT × ComPtr
  CoSetProxyBlanket : ComPtr → HRESULT
  ExecQuery : ComPtr → String → HRESULT × ComPtr

/-- The function `CreateLocalWmiConnection(server_name, set_blanket,
wmi_services)` of the anonymous namespace: the error, if any, and `*wmi_services`
afterwards. -/
def CreateLocalWmiConnection (env : ComEnvironment) (server_name : String) (set_blanket : Bool)
    (wmi_services : ComPtr) : Option WmiError × ComPtr :=
  let (hr, wmi_locator) := env.CoCreateInstance
  if FAILED hr then (some .kFailedToCreateInstance, wmi_services)
  else
    let (hr, wmi_services_r) := env.ConnectServer wmi_locator server_name
    if FAILED hr then (some .kFailedToConnectToWMI, wmi_services)
    else if set_blanket && FAILED (env.CoSetProxyBlanket wmi_services_r) then
      (some .kFailedToSetSecurityBlanket, wmi_services)
    else (none, wmi_services_r)

/-- The function `TryRunQuery`: the result and `*enumerator` afterwards. -/
def TryRunQuery (env : ComEnvironment) (query : String) (wmi_services : ComPtr)
    (enumerator : ComPtr) : Bool × ComPtr :=
  let (hr, enumerator_r) := env.ExecQuery wmi_services query
  if FAILED hr then (false, enumerator) else (true, enumerator_r)

/-- The function `RunWmiQuery`: the error, if any, and `*enumerator` afterwards. -/
def RunWmiQuery (env : ComEnvironment) (server_name query : String) (enumerator : ComPtr) :
    Option WmiError × ComPtr :=
  let wmi_services : ComPtr := none
  let (error, wmi_services) := CreateLocalWmiConnection env server_name true wmi_services
  if error.isSome then (error, enumerator)
  else
    let (ok, enumerator) := TryRunQuery env query wmi_services enumerator
    if !ok then (some .kFailedToExecWMIQuery, enumerator) else (none, enumerator)

/-- An environment for examples: the locator is object 1, the server
"ROOT\\CIMV2" is reached (services object 2) and no other, the proxy blanket is
accepted, and a query that starts with "SELECT" succeeds (enumerator 3). -/
def exampleEnvironment : ComEnvironment :=
  { CoCreateInstance := (0, some 1)
    ConnectServer := fun _ server_name =>
      if server_name = "ROOT\\CIMV2" then (0, some 2) else (-2147217394, none)
    CoSetProxyBlanket := fun _ => 0
    ExecQuery := fun _ query =>
      if "SELECT".toList.isPrefixOf query.toList then (0, some 3) else (-2147217385, none) }

end Wmi

/-! ## Theorems -/

namespace HostResolverManager



/-! ### The job map -/

theorem JobMap.find_eq_none_iff (jobs : JobMap) (k : JobKey) :
    JobMap.find jobs k = none ↔ k ∉ jobs.map Prod.fst := by
  induction jobs with
  | nil => simp [JobMap.find]
  | cons p rest ih =>
    obtain ⟨k', j'⟩ := p
    by_cases h : k' = k
    · simp [JobMap.find, h]
    · simp [JobMap.find, h, ih, Ne.symm h]

theorem JobMap.find_some_mem (jobs : JobMap) (k : JobKey) (j : Job)
    (h : JobMap.find jobs k = some j) : (k, j) ∈ jobs := by
  induction jobs with
  | nil => simp [JobMap.find] at h
  | cons p rest ih =>
    obtain ⟨k', j'⟩ := p
    by_cases hk : k' = k
    · simp [JobMap.find, hk] at h; simp [hk, h]
    · simp [JobMap.find, hk] at h; simp [ih h]

theorem JobMap.modify_of_not_mem (jobs : JobMap) (k : JobKey) (f : Job → Job)
    (h : k ∉ jobs.map Prod.fst) : JobMap.modify jobs k f = jobs := by
  induction jobs with
  | nil => simp [JobMap.modify]
  | cons p rest ih =>
    obtain ⟨k', j'⟩ := p
    simp at h
    have hk : ¬ k' = k := fun e => h.1 e.symm
    simp only [JobMap.modify, hk, if_false]
    rw [ih (by simpa using h.2)]

theorem JobMap.erase_of_not_mem (jobs : JobMap) (k : JobKey)
    (h : k ∉ jobs.map Prod.fst) : JobMap.erase jobs k = jobs := by
  induction jobs with
  | nil => simp [JobMap.erase]
  | cons p rest ih =>
    obtain ⟨k', j'⟩ := p
    simp at h
    have hk : ¬ k' = k := fun e => h.1 e.symm
    simp only [JobMap.erase, hk, if_false]
    rw [ih (by simpa using h.2)]

theorem JobMap.keys_modify (jobs : JobMap) (k : JobKey) (f : Job → Job) :
    (JobMap.modify jobs k f).map Prod.fst = jobs.map Prod.fst := by
  induction jobs with
  | nil => simp [JobMap.modify]
  | cons p rest ih =>
    obtain ⟨k', j'⟩ := p
    by_cases hk : k' = k <;> simp [JobMap.modify, hk, ih]

theorem JobMap.keys_erase (jobs : JobMap) (k : JobKey) :
    (JobMap.erase jobs k).map Prod.fst = (jobs.map Prod.fst).filter (fun k' => decide (k' ≠ k)) := by
  induction jobs with
  | nil => simp [JobMap.erase]
  | cons p rest ih =>
    obtain ⟨k', j'⟩ := p
    by_cases hk : k' = k <;> simp [JobMap.erase, hk, ih]

theorem JobMap.keys_erase_nodup (jobs : JobMap) (k : JobKey)
    (h : (jobs.map Prod.fst).Nodup) : ((JobMap.erase jobs k).map Prod.fst).Nodup := by
  rw [JobMap.keys_erase]; exact h.filter _

theorem JobMap.find_erase_ne (jobs : JobMap) (k k' : JobKey) (h : k' ≠ k) :
    JobMap.find (JobMap.erase jobs k) k' = JobMap.find jobs k' := by
  induction jobs with
  | nil => simp [JobMap.erase]
  | cons p rest ih =>
    obtain ⟨k0, j0⟩ := p
    by_cases hk : k0 = k
    · have : ¬ k0 = k' := by rw [hk]; exact Ne.symm h
      simp [JobMap.erase, JobMap.find, hk, ih, this, Ne.symm h]
    · by_cases hk' : k0 = k'
      · subst hk'; simp [JobMap.erase, JobMap.find, h]
      · simp [JobMap.erase, JobMap.find, hk, hk', ih]

theorem JobMap.find_modify_self (jobs : JobMap) (k : JobKey) (f : Job → Job) :
    JobMap.find (JobMap.modify jobs k f) k = (JobMap.find jobs k).map f := by
  induction jobs with
  | nil => simp [JobMap.modify, JobMap.find]
  | cons p rest ih =>
    obtain ⟨k0, j0⟩ := p
    by_cases hk : k0 = k <;> simp [JobMap.modify, JobMap.find, hk, ih]

theorem JobMap.find_modify_ne (jobs : JobMap) (k k' : JobKey) (f : Job → Job) (h : k' ≠ k) :
    JobMap.find (JobMap.modify jobs k f) k' = JobMap.find jobs k' := by
  induction jobs with
  | nil => simp [JobMap.modify]
  | cons p rest ih =>
    obtain ⟨k0, j0⟩ := p
    by_cases hk : k0 = k
    · have : ¬ k0 = k' := by rw [hk]; exact Ne.symm h
      simp [JobMap.modify, JobMap.find, hk, ih, this, Ne.symm h]
    · by_cases hk' : k0 = k'
      · subst hk'; simp [JobMap.modify, JobMap.find, h]
      · simp [JobMap.modify, JobMap.find, hk, hk', ih]

theorem JobMap.occupiedSlots_modify (jobs : JobMap) (k : JobKey) (f : Job → Job) (j : Job)
    (hnd : (jobs.map Prod.fst).Nodup) (hf : JobMap.find jobs k = some j) :
    JobMap.occupiedSlots (JobMap.modify jobs k f) + j.num_occupied_job_slots
      = JobMap.occupiedSlots jobs + (f j).num_occupied_job_slots := by
  induction jobs with
  | nil => simp [JobMap.find] at hf
  | cons p rest ih =>
    obtain ⟨k0, j0⟩ := p
    simp at hnd
    by_cases hk : k0 = k
    · subst hk
      simp [JobMap.find] at hf
      subst hf
      have hnot : k0 ∉ rest.map Prod.fst := by simpa using hnd.1
      simp only [JobMap.modify, if_true, JobMap.occupiedSlots]
      rw [JobMap.modify_of_not_mem rest k0 f hnot]
      omega
    · simp [JobMap.find, hk] at hf
      have := ih hnd.2 hf
      simp only [JobMap.modify, hk, if_false, JobMap.occupiedSlots]
      omega

theorem JobMap.occupiedSlots_erase (jobs : JobMap) (k : JobKey) (j : Job)
    (hnd : (jobs.map Prod.fst).Nodup) (hf : JobMap.find jobs k = some j) :
    JobMap.occupiedSlots (JobMap.erase jobs k) + j.num_occupied_job_slots
      = JobMap.occupiedSlots jobs := by
  induction jobs with
  | nil => simp [JobMap.find] at hf
  | cons p rest ih =>
    obtain ⟨k0, j0⟩ := p
    simp at hnd
    by_cases hk : k0 = k
    · subst hk
      simp [JobMap.find] at hf
      subst hf
      have hnot : k0 ∉ rest.map Prod.fst := by simpa using hnd.1
      simp only [JobMap.erase, if_true, JobMap.occupiedSlots]
      rw [JobMap.erase_of_not_mem rest k0 hnot]
      omega
    · simp [JobMap.find, hk] at hf
      have := ih hnd.2 hf
      simp only [JobMap.erase, hk, if_false, JobMap.occupiedSlots]
      omega

theorem JobMap.attachedRequests_modify (jobs : JobMap) (k : JobKey) (f : Job → Job)
    (hf : ∀ j, (f j).requests = j.requests) :
    JobMap.attachedRequests (JobMap.modify jobs k f) = JobMap.attachedRequests jobs := by
  induction jobs with
  | nil => simp [JobMap.modify]
  | cons p rest ih =>
    obtain ⟨k0, j0⟩ := p
    by_cases hk : k0 = k <;> simp [JobMap.modify, JobMap.attachedRequests, hk, ih, hf]

theorem JobMap.attachedRequests_add (jobs : JobMap) (k : JobKey) (request priority : Nat)
    (j : Job) (hnd : (jobs.map Prod.fst).Nodup) (hf : JobMap.find jobs k = some j) :
    (JobMap.attachedRequests (JobMap.modify jobs k (fun j => j.AddRequest request priority))).Perm
      (request :: JobMap.attachedRequests jobs) := by
  induction jobs with
  | nil => simp [JobMap.find] at hf
  | cons p rest ih =>
    obtain ⟨k0, j0⟩ := p
    simp at hnd
    by_cases hk : k0 = k
    · subst hk
      have hnot : k0 ∉ rest.map Prod.fst := by simpa using hnd.1
      simp only [JobMap.modify, if_true, JobMap.attachedRequests]
      rw [JobMap.modify_of_not_mem rest k0 _ hnot]
      simp only [Job.AddRequest, List.map_append, List.map_cons, List.map_nil, List.append_assoc]
      have : (List.map Prod.fst j0.requests ++ ([request] ++ JobMap.attachedRequests rest)).Perm
          ([request] ++ (List.map Prod.fst j0.requests ++ JobMap.attachedRequests rest)) := by
        rw [← List.append_assoc, ← List.append_assoc]
        exact List.Perm.append_right _ List.perm_append_comm
      simp at this ⊢
    · simp [JobMap.find, hk] at hf
      have := ih hnd.2 hf
      simp only [JobMap.modify, hk, if_false, JobMap.attachedRequests]
      have h2 := List.Perm.append_left (List.map Prod.fst j0.requests) this
      exact h2.trans List.perm_middle

theorem JobMap.attachedRequests_erase (jobs : JobMap) (k : JobKey) (j : Job)
    (hnd : (jobs.map Prod.fst).Nodup) (hf : JobMap.find jobs k = some j) :
    (JobMap.attachedRequests jobs).Perm
      (j.requests.map Prod.fst ++ JobMap.attachedRequests (JobMap.erase jobs k)) := by
  induction jobs with
  | nil => simp [JobMap.find] at hf
  | cons p rest ih =>
    obtain ⟨k0, j0⟩ := p
    simp at hnd
    by_cases hk : k0 = k
    · subst hk
      simp [JobMap.find] at hf
      subst hf
      have hnot : k0 ∉ rest.map Prod.fst := by simpa using hnd.1
      simp only [JobMap.erase, if_true, JobMap.attachedRequests]
      rw [JobMap.erase_of_not_mem rest k0 hnot]
    · simp [JobMap.find, hk] at hf
      have := ih hnd.2 hf
      simp only [JobMap.erase, hk, if_false, JobMap.attachedRequests]
      have h2 := List.Perm.append_left (List.map Prod.fst j0.requests) this
      refine h2.trans ?_
      rw [← List.append_assoc, ← List.append_assoc]
      exact List.Perm.append_right _ List.perm_append_comm

theorem JobMap.occupiedSlots_modify_same (jobs : JobMap) (k : JobKey) (f : Job → Job)
    (hf : ∀ j, (f j).num_occupied_job_slots = j.num_occupied_job_slots) :
    JobMap.occupiedSlots (JobMap.modify jobs k f) = JobMap.occupiedSlots jobs := by
  induction jobs with
  | nil => simp [JobMap.modify]
  | cons p rest ih =>
    obtain ⟨k0, j0⟩ := p
    by_cases hk : k0 = k <;> simp [JobMap.modify, JobMap.occupiedSlots, hk, ih, hf]

theorem JobMap.occupiedSlots_append (jobs jobs' : JobMap) :
    JobMap.occupiedSlots (jobs ++ jobs') = JobMap.occupiedSlots jobs + JobMap.occupiedSlots jobs' := by
  induction jobs with
  | nil => simp [JobMap.occupiedSlots]
  | cons p rest ih =>
    obtain ⟨k0, j0⟩ := p
    show j0.num_occupied_job_slots + JobMap.occupiedSlots (rest ++ jobs')
      = (j0.num_occupied_job_slots + JobMap.occupiedSlots rest) + JobMap.occupiedSlots jobs'
    rw [ih]; omega

theorem JobMap.attachedRequests_append (jobs jobs' : JobMap) :
    JobMap.attachedRequests (jobs ++ jobs')
      = JobMap.attachedRequests jobs ++ JobMap.attachedRequests jobs' := by
  induction jobs with
  | nil => simp [JobMap.attachedRequests]
  | cons p rest ih =>
    obtain ⟨k0, j0⟩ := p
    show j0.requests.map Prod.fst ++ JobMap.attachedRequests (rest ++ jobs')
      = (j0.requests.map Prod.fst ++ JobMap.attachedRequests rest) ++ JobMap.attachedRequests jobs'
    rw [ih, List.append_assoc]

theorem JobMap.attachedRequests_erase_sublist (jobs : JobMap) (k : JobKey) :
    (JobMap.attachedRequests (JobMap.erase jobs k)).Sublist (JobMap.attachedRequests jobs) := by
  induction jobs with
  | nil => simp [JobMap.erase]
  | cons p rest ih =>
    obtain ⟨k0, j0⟩ := p
    by_cases hk : k0 = k
    · simp only [JobMap.erase, hk, if_true, JobMap.attachedRequests]
      exact ih.trans (List.sublist_append_right _ _)
    · simp only [JobMap.erase, hk, if_false, JobMap.attachedRequests]
      exact List.Sublist.append (List.Sublist.refl _) ih

theorem JobMap.mem_attachedRequests_add (jobs : JobMap) (k : JobKey) (request priority r : Nat)
    (h : r ∈ JobMap.attachedRequests (JobMap.modify jobs k (fun j => j.AddRequest request priority))) :
    r ∈ JobMap.attachedRequests jobs ∨ r = request := by
  induction jobs with
  | nil => simp [JobMap.modify, JobMap.attachedRequests] at h
  | cons p rest ih =>
    obtain ⟨k0, j0⟩ := p
    by_cases hk : k0 = k
    · simp only [JobMap.modify, hk, if_true, JobMap.attachedRequests, List.mem_append,
        Job.AddRequest, List.map_append, List.map_cons, List.map_nil, List.mem_singleton] at h ⊢
      rcases h with (h | h) | h
      · exact Or.inl (Or.inl h)
      · exact Or.inr h
      · rcases ih h with h | h
        · exact Or.inl (Or.inr h)
        · exact Or.inr h
    · simp only [JobMap.modify, hk, if_false, JobMap.attachedRequests, List.mem_append] at h ⊢
      rcases h with h | h
      · exact Or.inl (Or.inl h)
      · rcases ih h with h | h
        · exact Or.inl (Or.inr h)
        · exact Or.inr h

/-! ### The invariant is kept by every operation -/

theorem Manager.Invariant.congr {limit : Nat} {m m' : Manager} (h : m.Invariant limit)
    (hj : m'.jobs_ = m.jobs_) (hr : m'.dispatcher_.num_running_jobs = m.dispatcher_.num_running_jobs)
    (hm : m'.dispatcher_.max_running_jobs = m.dispatcher_.max_running_jobs)
    (hc : m'.callbacks = m.callbacks) (hn : m'.next_request = m.next_request) :
    m'.Invariant limit where
  keys_nodup := by rw [hj]; exact h.keys_nodup
  running_eq := by rw [hj, hr]; exact h.running_eq
  running_le := by rw [hr, hm]; exact h.running_le
  limit_eq := by rw [hm]; exact h.limit_eq
  requests_nodup := by rw [hj, hc]; exact h.requests_nodup
  requests_lt := by rw [hj, hc, hn]; exact h.requests_lt

theorem Manager.Invariant.modify_slots {limit : Nat} {m m' : Manager} (h : m.Invariant limit)
    (k : JobKey) (f : Job → Job) (j : Job) (hf : JobMap.find m.jobs_ k = some j)
    (hreq : ∀ j, (f j).requests = j.requests)
    (hj : m'.jobs_ = JobMap.modify m.jobs_ k f)
    (hr : m'.dispatcher_.num_running_jobs + j.num_occupied_job_slots
      = m.dispatcher_.num_running_jobs + (f j).num_occupied_job_slots)
    (hle : m'.dispatcher_.num_running_jobs ≤ m.dispatcher_.max_running_jobs)
    (hm : m'.dispatcher_.max_running_jobs = m.dispatcher_.max_running_jobs)
    (hc : m'.callbacks = m.callbacks) (hn : m'.next_request = m.next_request) :
    m'.Invariant limit where
  keys_nodup := by rw [hj, JobMap.keys_modify]; exact h.keys_nodup
  running_eq := by
    have h1 := JobMap.occupiedSlots_modify m.jobs_ k f j h.keys_nodup hf
    have h2 := h.running_eq
    rw [hj]; omega
  running_le := by rw [hm]; exact hle
  limit_eq := by rw [hm]; exact h.limit_eq
  requests_nodup := by rw [hj, hc, JobMap.attachedRequests_modify _ _ _ hreq]; exact h.requests_nodup
  requests_lt := by
    rw [hj, hc, hn, JobMap.attachedRequests_modify _ _ _ hreq]; exact h.requests_lt

theorem GrantSlot_invariant {limit : Nat} {m : Manager} (h : m.Invariant limit) (k : JobKey)
    (j : Job) (hf : JobMap.find m.jobs_ k = some j)
    (hlt : m.dispatcher_.num_running_jobs < m.dispatcher_.max_running_jobs) :
    (GrantSlot m k).Invariant limit := by
  refine h.modify_slots k
    (fun j => { j with num_occupied_job_slots := j.num_occupied_job_slots + 1 }) j hf
    (fun _ => rfl) rfl ?_ ?_ rfl rfl rfl
  · simp only [GrantSlot]; omega
  · simp only [GrantSlot]; omega

theorem RequestSlot_invariant {limit : Nat} {m : Manager} (h : m.Invariant limit) (k : JobKey)
    (priority : Nat) : (RequestSlot m k priority).Invariant limit := by
  unfold RequestSlot
  split
  · next hlt =>
    split
    · next j hf => exact GrantSlot_invariant h k j hf hlt
    · exact h
  · exact h.congr rfl rfl rfl rfl rfl

theorem DispatchQueue_invariant {limit : Nat} (queue : List (Nat × JobKey)) :
    ∀ {m : Manager}, m.Invariant limit → (DispatchQueue m queue).Invariant limit := by
  induction queue with
  | nil => intro m h; exact h.congr rfl rfl rfl rfl rfl
  | cons e rest ih =>
    intro m h
    obtain ⟨p, k⟩ := e
    unfold DispatchQueue
    split
    · next hlt =>
      split
      · next j hf => exact ih (GrantSlot_invariant h k j hf hlt)
      · exact ih h
    · exact h.congr rfl rfl rfl rfl rfl

theorem MaybeDispatchJobs_invariant {limit : Nat} {m : Manager} (h : m.Invariant limit) :
    (MaybeDispatchJobs m).Invariant limit :=
  DispatchQueue_invariant _ h

theorem ReleaseSlots_invariant {limit : Nat} {m : Manager} (h : m.Invariant limit) (k : JobKey) :
    (ReleaseSlots m k).Invariant limit := by
  unfold ReleaseSlots
  split
  · next job hf =>
    have h1 := JobMap.occupiedSlots_modify m.jobs_ k
      (fun j => { j with num_occupied_job_slots := 0 }) job h.keys_nodup hf
    have h2 := h.running_eq
    have h3 := h.running_le
    simp only at h1
    refine h.modify_slots k (fun j => { j with num_occupied_job_slots := 0 }) job hf
      (fun _ => rfl) rfl ?_ ?_ rfl rfl rfl
    · simp only; omega
    · simp only; omega
  · exact h

theorem CompleteJob_invariant {limit : Nat} {m : Manager} (h : m.Invariant limit) (k : JobKey)
    (entry : Entry) : (CompleteJob m k entry).Invariant limit := by
  unfold CompleteJob
  split
  · next job hf =>
    have h1 := JobMap.occupiedSlots_erase m.jobs_ k job h.keys_nodup hf
    have h2 := h.running_eq
    have h3 := h.running_le
    have hperm : (m.callbacks.map Prod.fst ++ JobMap.attachedRequests m.jobs_).Perm
        ((m.callbacks ++ job.requests.map (fun r => (r.1, entry))).map Prod.fst
          ++ JobMap.attachedRequests (JobMap.erase m.jobs_ k)) := by
      have := JobMap.attachedRequests_erase m.jobs_ k job h.keys_nodup hf
      simp only [List.map_append, List.map_map, List.append_assoc]
      exact List.Perm.append_left _ this
    constructor
    · exact JobMap.keys_erase_nodup _ _ h.keys_nodup
    · simp only; omega
    · simp only [PrioritizedDispatcher.Cancel]; omega
    · simp only [PrioritizedDispatcher.Cancel]; exact h.limit_eq
    · exact hperm.nodup_iff.mp h.requests_nodup
    · intro r hr
      exact h.requests_lt r (hperm.mem_iff.mpr hr)
  · exact h



theorem Manager.Invariant.modify_tasks {limit : Nat} {m : Manager} (h : m.Invariant limit)
    (k : JobKey) (tasks : List TaskType) :
    Manager.Invariant limit
      { m with jobs_ := JobMap.modify m.jobs_ k (fun j => { j with tasks := tasks }) } where
  keys_nodup := by simp only [JobMap.keys_modify]; exact h.keys_nodup
  running_eq :=
    h.running_eq.trans
      (JobMap.occupiedSlots_modify_same m.jobs_ k (fun j => { j with tasks := tasks })
        (fun _ => rfl)).symm
  running_le := h.running_le
  limit_eq := h.limit_eq
  requests_nodup := by
    have e := JobMap.attachedRequests_modify m.jobs_ k (fun j => { j with tasks := tasks })
      (fun _ => rfl)
    show (_ ++ JobMap.attachedRequests (JobMap.modify m.jobs_ k _)).Nodup
    rw [e]; exact h.requests_nodup
  requests_lt := by
    have e := JobMap.attachedRequests_modify m.jobs_ k (fun j => { j with tasks := tasks })
      (fun _ => rfl)
    show ∀ request ∈ _ ++ JobMap.attachedRequests (JobMap.modify m.jobs_ k _), _
    rw [e]; exact h.requests_lt

theorem StartNextTask_invariant {limit : Nat} {m : Manager} (h : m.Invariant limit) (k : JobKey)
    (tasks : List TaskType) (error : NetError) : (StartNextTask m k tasks error).Invariant limit := by
  unfold StartNextTask
  split
  · next job hf =>
    have h1 := ReleaseSlots_invariant h k
    simp only
    split
    · exact CompleteJob_invariant h1 k _
    · exact CompleteJob_invariant h1 k _
    · exact RequestSlot_invariant (h1.modify_tasks k _) k _
  · exact h

theorem CacheResult_invariant {limit : Nat} {m : Manager} (h : m.Invariant limit) (k : JobKey)
    (cache_usage : CacheUsage) (secure : Bool) (entry : Entry) :
    (CacheResult m k cache_usage secure entry).Invariant limit := by
  unfold CacheResult
  split
  · split
    · exact h
    · exact h.congr rfl rfl rfl rfl rfl
  · exact h

theorem OnTaskComplete_invariant {limit : Nat} {m : Manager} (h : m.Invariant limit) (k : JobKey)
    (outcome : TaskOutcome) : (OnTaskComplete m k outcome).Invariant limit := by
  unfold OnTaskComplete
  split
  · next job hf =>
    split
    · exact h
    · split
      · exact MaybeDispatchJobs_invariant
          (CompleteJob_invariant (CacheResult_invariant h k _ _ _) k _)
      · split
        · exact MaybeDispatchJobs_invariant (StartNextTask_invariant h k _ _)
        · exact MaybeDispatchJobs_invariant (CompleteJob_invariant h k _)
  · exact h

theorem StartRace_invariant {limit : Nat} {m : Manager} (h : m.Invariant limit) (k : JobKey) :
    (StartRace m k).Invariant limit := by
  unfold StartRace
  split
  · next job hf =>
    split
    · next hc =>
      refine h.modify_slots k (fun j => { j with num_occupied_job_slots := 2 }) job hf
        (fun _ => rfl) rfl ?_ ?_ rfl rfl rfl
      · simp only; omega
      · simp only; omega
    · exact h
  · exact h

theorem EndRace_invariant {limit : Nat} {m : Manager} (h : m.Invariant limit) (k : JobKey) :
    (EndRace m k).Invariant limit := by
  unfold EndRace
  split
  · next job hf =>
    split
    · next hc =>
      have h1 := JobMap.occupiedSlots_modify m.jobs_ k
        (fun j => { j with num_occupied_job_slots := 1 }) job h.keys_nodup hf
      have h2 := h.running_eq
      have h3 := h.running_le
      simp only at h1
      refine MaybeDispatchJobs_invariant
        (h.modify_slots k (fun j => { j with num_occupied_job_slots := 1 }) job hf
          (fun _ => rfl) rfl ?_ ?_ rfl rfl rfl)
      · simp only; omega
      · simp only; omega
    · exact h
  · exact h

theorem PrioritizedDispatcher.ChangePriority_running (d : PrioritizedDispatcher) (k : JobKey)
    (p : Nat) : (d.ChangePriority k p).num_running_jobs = d.num_running_jobs
      ∧ (d.ChangePriority k p).max_running_jobs = d.max_running_jobs := by
  unfold PrioritizedDispatcher.ChangePriority
  split <;> simp

theorem Resolve_invariant {limit : Nat} {m : Manager} (h : m.Invariant limit) (r : RequestParams) :
    (Resolve m r).1.Invariant limit := by
  have hsync : Manager.Invariant limit { m with next_request := m.next_request + 1 } :=
    { keys_nodup := h.keys_nodup, running_eq := h.running_eq, running_le := h.running_le
      limit_eq := h.limit_eq, requests_nodup := h.requests_nodup
      requests_lt := fun r hr => Nat.lt_succ_of_lt (h.requests_lt r hr) }
  unfold Resolve
  simp only
  split
  · exact hsync
  · split
    · next job hf =>
      have hperm := JobMap.attachedRequests_add m.jobs_ (MakeJobKey m r) m.next_request
        r.priority job h.keys_nodup hf
      have hfresh : m.next_request ∉ m.callbacks.map Prod.fst ++ JobMap.attachedRequests m.jobs_ :=
        fun hmem => Nat.lt_irrefl _ (h.requests_lt _ hmem)
      have hperm2 : (m.callbacks.map Prod.fst ++ JobMap.attachedRequests
            (JobMap.modify m.jobs_ (MakeJobKey m r) (fun j => j.AddRequest m.next_request r.priority))).Perm
          (m.next_request :: (m.callbacks.map Prod.fst ++ JobMap.attachedRequests m.jobs_)) :=
        (List.Perm.append_left _ hperm).trans List.perm_middle
      constructor
      · simp only [JobMap.keys_modify]; exact h.keys_nodup
      · simp only [(PrioritizedDispatcher.ChangePriority_running _ _ _).1]
        exact h.running_eq.trans
          (JobMap.occupiedSlots_modify_same m.jobs_ (MakeJobKey m r)
            (fun j => j.AddRequest m.next_request r.priority) (fun _ => rfl)).symm
      · simp only [(PrioritizedDispatcher.ChangePriority_running _ _ _).1,
          (PrioritizedDispatcher.ChangePriority_running _ _ _).2]
        exact h.running_le
      · simp only [(PrioritizedDispatcher.ChangePriority_running _ _ _).2]
        exact h.limit_eq
      · exact hperm2.nodup_iff.mpr (List.nodup_cons.mpr ⟨hfresh, h.requests_nodup⟩)
      · intro x hx
        have := hperm2.mem_iff.mp hx
        simp only [List.mem_cons] at this
        rcases this with rfl | hx'
        · exact Nat.lt_succ_self _
        · exact Nat.lt_succ_of_lt (h.requests_lt x hx')
    · next hf =>
      unfold CreateAndStartJob
      simp only
      apply RequestSlot_invariant
      have hnot : MakeJobKey m r ∉ m.jobs_.map Prod.fst := (JobMap.find_eq_none_iff _ _).mp hf
      have hfresh : m.next_request ∉ m.callbacks.map Prod.fst ++ JobMap.attachedRequests m.jobs_ :=
        fun hmem => Nat.lt_irrefl _ (h.requests_lt _ hmem)
      simp only [JobMap.emplace, hf]
      constructor
      · simp only [List.map_append, List.map_cons, List.map_nil]
        exact List.Nodup.append h.keys_nodup (List.nodup_singleton _)
          (fun a ha hb => by
            rw [List.mem_singleton] at hb; subst hb; exact hnot ha)
      · simp only [JobMap.occupiedSlots_append, JobMap.occupiedSlots]
        have := h.running_eq; omega
      · exact h.running_le
      · exact h.limit_eq
      · simp only [JobMap.attachedRequests_append, JobMap.attachedRequests, List.map_cons,
          List.map_nil, List.append_nil, ← List.append_assoc]
        exact List.Nodup.append h.requests_nodup (List.nodup_singleton _)
          (fun a ha hb => by
            rw [List.mem_singleton] at hb; subst hb; exact hfresh ha)
      · intro x hx
        simp only [JobMap.attachedRequests_append, JobMap.attachedRequests, List.map_cons,
          List.map_nil, List.append_nil, ← List.append_assoc, List.mem_append,
          List.mem_singleton] at hx
        rcases hx with hx | rfl
        · exact Nat.lt_succ_of_lt (h.requests_lt x (List.mem_append.mpr hx))
        · exact Nat.lt_succ_self _



theorem ChangePriority_foldl_running (jobs : JobMap) :
    ∀ d : PrioritizedDispatcher,
      (jobs.foldl (fun d p => d.ChangePriority p.1 p.2.priority) d).num_running_jobs
          = d.num_running_jobs
        ∧ (jobs.foldl (fun d p => d.ChangePriority p.1 p.2.priority) d).max_running_jobs
          = d.max_running_jobs := by
  induction jobs with
  | nil => intro d; exact ⟨rfl, rfl⟩
  | cons p rest ih =>
    intro d
    have h1 := ih (d.ChangePriority p.1 p.2.priority)
    have h2 := PrioritizedDispatcher.ChangePriority_running d p.1 p.2.priority
    simp only [List.foldl_cons]
    exact ⟨h1.1.trans h2.1, h1.2.trans h2.2⟩

theorem JobMap.occupiedSlots_map_requests (jobs : JobMap) (g : List (Nat × Nat) → List (Nat × Nat)) :
    JobMap.occupiedSlots (jobs.map (fun p => (p.1, { p.2 with requests := g p.2.requests })))
      = JobMap.occupiedSlots jobs := by
  induction jobs with
  | nil => rfl
  | cons p rest ih =>
    obtain ⟨k0, j0⟩ := p
    simp only [List.map_cons, JobMap.occupiedSlots, ih]

theorem JobMap.attachedRequests_cancel_sublist (jobs : JobMap) (request : Nat) :
    (JobMap.attachedRequests (jobs.map (fun p =>
        (p.1, { p.2 with requests := p.2.requests.filter (fun r => decide (r.1 ≠ request)) })))).Sublist
      (JobMap.attachedRequests jobs) := by
  induction jobs with
  | nil => simp
  | cons p rest ih =>
    obtain ⟨k0, j0⟩ := p
    simp only [List.map_cons, JobMap.attachedRequests]
    exact List.Sublist.append ((List.filter_sublist _).map _) ih

theorem JobMap.not_mem_attachedRequests_cancel (jobs : JobMap) (request : Nat) :
    request ∉ JobMap.attachedRequests (jobs.map (fun p =>
      (p.1, { p.2 with requests := p.2.requests.filter (fun r => decide (r.1 ≠ request)) }))) := by
  induction jobs with
  | nil => simp [JobMap.attachedRequests]
  | cons p rest ih =>
    obtain ⟨k0, j0⟩ := p
    simp only [JobMap.attachedRequests, List.map_cons, List.mem_append, not_or]
    refine ⟨?_, ih⟩
    intro h
    obtain ⟨q, hq, hq'⟩ := List.mem_map.mp h
    have := (List.mem_filter.mp hq).2
    simp only [ne_eq, decide_not, Bool.not_eq_true', decide_eq_false_iff_not] at this
    exact this hq'

theorem CancelRequest_invariant {limit : Nat} {m : Manager} (h : m.Invariant limit)
    (request : Nat) : (CancelRequest m request).Invariant limit := by
  have hsub := JobMap.attachedRequests_cancel_sublist m.jobs_ request
  have hsub2 := List.Sublist.append (List.Sublist.refl (m.callbacks.map Prod.fst)) hsub
  unfold CancelRequest
  constructor
  · simp only [List.map_map]
    exact h.keys_nodup
  · simp only [(ChangePriority_foldl_running _ _).1]
    exact h.running_eq.trans (JobMap.occupiedSlots_map_requests m.jobs_ _).symm
  · simp only [(ChangePriority_foldl_running _ _).1, (ChangePriority_foldl_running _ _).2]
    exact h.running_le
  · simp only [(ChangePriority_foldl_running _ _).2]
    exact h.limit_eq
  · exact h.requests_nodup.sublist hsub2
  · intro x hx
    exact h.requests_lt x (hsub2.subset hx)

theorem CompleteJobs_invariant {limit : Nat} (entry : Entry) (keys : List JobKey) :
    ∀ {m : Manager}, m.Invariant limit → (CompleteJobs m entry keys).Invariant limit := by
  induction keys with
  | nil => intro m h; exact h
  | cons k rest ih => intro m h; exact ih (CompleteJob_invariant h k entry)

theorem DeregisterResolveContext_invariant {limit : Nat} {m : Manager} (h : m.Invariant limit)
    (context : Nat) : (DeregisterResolveContext m context).Invariant limit :=
  MaybeDispatchJobs_invariant (CompleteJobs_invariant _ _ h)

theorem AbortInsecureDnsTask_invariant {limit : Nat} {m : Manager} (h : m.Invariant limit)
    (error : NetError) (k : JobKey) : (AbortInsecureDnsTask m error k).Invariant limit := by
  unfold AbortInsecureDnsTask
  split
  · split
    · split
      · exact StartNextTask_invariant h k _ _
      · exact CompleteJob_invariant h k _
    · exact h
  · exact h

theorem AbortInsecureDnsTasks_invariant {limit : Nat} (error : NetError) (keys : List JobKey) :
    ∀ {m : Manager}, m.Invariant limit → (AbortInsecureDnsTasks m error keys).Invariant limit := by
  induction keys with
  | nil => intro m h; exact h
  | cons k rest ih => intro m h; exact ih (AbortInsecureDnsTask_invariant h error k)

theorem InvalidateCaches_invariant {limit : Nat} {m : Manager} (h : m.Invariant limit) :
    (InvalidateCaches m).Invariant limit :=
  MaybeDispatchJobs_invariant
    (AbortInsecureDnsTasks_invariant _ _ (h.congr rfl rfl rfl rfl rfl))

theorem Destroy_invariant {limit : Nat} {m : Manager} (h : m.Invariant limit) :
    (Destroy m).Invariant limit where
  keys_nodup := List.nodup_nil
  running_eq := rfl
  running_le := Nat.zero_le _
  limit_eq := h.limit_eq
  requests_nodup :=
    h.requests_nodup.sublist
      (List.Sublist.append (List.Sublist.refl _) (List.nil_sublist _))
  requests_lt := fun x hx =>
    h.requests_lt x
      ((List.Sublist.append (List.Sublist.refl _) (List.nil_sublist _)).subset hx)

theorem Create_invariant (limit : Nat) (enable_caching : Bool) (target_network : Nat) :
    (Create limit enable_caching target_network).Invariant limit where
  keys_nodup := List.nodup_nil
  running_eq := rfl
  running_le := Nat.zero_le _
  limit_eq := rfl
  requests_nodup := List.nodup_nil
  requests_lt := fun x hx => by simp [Create, JobMap.attachedRequests] at hx

theorem step_invariant {limit : Nat} {m : Manager} (h : m.Invariant limit) (e : Event) :
    (m.step e).Invariant limit := by
  unfold Manager.step
  split
  · exact h
  · cases e with
    | resolve r => exact Resolve_invariant h r
    | cancel request => exact CancelRequest_invariant h request
    | taskComplete k outcome => exact OnTaskComplete_invariant h k outcome
    | startRace k => exact StartRace_invariant h k
    | endRace k => exact EndRace_invariant h k
    | deregisterContext context => exact DeregisterResolveContext_invariant h context
    | invalidateCaches => exact InvalidateCaches_invariant h
    | setDnsConfig a b c d e f => exact h.congr rfl rfl rfl rfl rfl
    | setIPv6ProbeResult reachable => exact h.congr rfl rfl rfl rfl rfl
    | destroy => exact Destroy_invariant h

theorem run_invariant {limit : Nat} (events : List Event) :
    ∀ {m : Manager}, m.Invariant limit → (m.run events).Invariant limit := by
  induction events with
  | nil => intro m h; exact h
  | cons e rest ih => intro m h; exact ih (step_invariant h e)



/-! ### How each operation extends the state -/

theorem Manager.Extends.refl (m : Manager) : m.Extends m where
  next_le := Nat.le_refl _
  attached := fun _ h => Or.inl h
  callbacks_kept := List.prefix_refl _

theorem Manager.Extends.trans {m1 m2 m3 : Manager} (h12 : m1.Extends m2) (h23 : m2.Extends m3) :
    m1.Extends m3 where
  next_le := Nat.le_trans h12.next_le h23.next_le
  attached := fun r hr => by
    rcases h23.attached r hr with h | h
    · exact h12.attached r h
    · exact Or.inr (Nat.le_trans h12.next_le h)
  callbacks_kept := h12.callbacks_kept.trans h23.callbacks_kept

theorem Manager.Extends.of_subset {m m' : Manager} (hn : m'.next_request = m.next_request)
    (ha : ∀ r ∈ JobMap.attachedRequests m'.jobs_, r ∈ JobMap.attachedRequests m.jobs_)
    (hc : m'.callbacks = m.callbacks) : m.Extends m' where
  next_le := Nat.le_of_eq hn.symm
  attached := fun r hr => Or.inl (ha r hr)
  callbacks_kept := by rw [hc]

theorem Manager.Extends.of_modify {m m' : Manager} (k : JobKey) (f : Job → Job)
    (hreq : ∀ j, (f j).requests = j.requests) (hj : m'.jobs_ = JobMap.modify m.jobs_ k f)
    (hn : m'.next_request = m.next_request) (hc : m'.callbacks = m.callbacks) : m.Extends m' :=
  Manager.Extends.of_subset hn
    (fun r hr => by rw [hj, JobMap.attachedRequests_modify _ _ _ hreq] at hr; exact hr) hc

theorem GrantSlot_extends (m : Manager) (k : JobKey) : m.Extends (GrantSlot m k) :=
  Manager.Extends.of_modify k
    (fun j => { j with num_occupied_job_slots := j.num_occupied_job_slots + 1 })
    (fun _ => rfl) rfl rfl rfl

theorem RequestSlot_extends (m : Manager) (k : JobKey) (priority : Nat) :
    m.Extends (RequestSlot m k priority) := by
  unfold RequestSlot
  split
  · split
    · exact GrantSlot_extends m k
    · exact Manager.Extends.refl m
  · exact Manager.Extends.of_subset rfl (fun _ h => h) rfl

theorem DispatchQueue_extends (queue : List (Nat × JobKey)) :
    ∀ m : Manager, m.Extends (DispatchQueue m queue) := by
  induction queue with
  | nil => intro m; exact Manager.Extends.of_subset rfl (fun _ h => h) rfl
  | cons e rest ih =>
    intro m
    obtain ⟨p, k⟩ := e
    unfold DispatchQueue
    split
    · split
      · exact (GrantSlot_extends m k).trans (ih _)
      · exact ih m
    · exact Manager.Extends.of_subset rfl (fun _ h => h) rfl

theorem MaybeDispatchJobs_extends (m : Manager) : m.Extends (MaybeDispatchJobs m) :=
  DispatchQueue_extends _ m

theorem ReleaseSlots_extends (m : Manager) (k : JobKey) : m.Extends (ReleaseSlots m k) := by
  unfold ReleaseSlots
  split
  · exact Manager.Extends.of_modify k (fun j => { j with num_occupied_job_slots := 0 })
      (fun _ => rfl) rfl rfl rfl
  · exact Manager.Extends.refl m

theorem CompleteJob_extends (m : Manager) (k : JobKey) (entry : Entry) :
    m.Extends (CompleteJob m k entry) := by
  unfold CompleteJob
  split
  · exact
      { next_le := Nat.le_refl _
        attached := fun r hr => Or.inl ((JobMap.attachedRequests_erase_sublist m.jobs_ k).subset hr)
        callbacks_kept := List.prefix_append _ _ }
  · exact Manager.Extends.refl m

theorem StartNextTask_extends (m : Manager) (k : JobKey) (tasks : List TaskType)
    (error : NetError) : m.Extends (StartNextTask m k tasks error) := by
  unfold StartNextTask
  split
  · simp only
    split
    · exact (ReleaseSlots_extends m k).trans (CompleteJob_extends _ k _)
    · exact (ReleaseSlots_extends m k).trans (CompleteJob_extends _ k _)
    · next t residual _ =>
      refine (ReleaseSlots_extends m k).trans (Manager.Extends.trans ?_ (RequestSlot_extends _ k _))
      exact Manager.Extends.of_modify k (fun j => { j with tasks := t :: residual })
        (fun _ => rfl) rfl rfl rfl
  · exact Manager.Extends.refl m

theorem CacheResult_extends (m : Manager) (k : JobKey) (cache_usage : CacheUsage) (secure : Bool)
    (entry : Entry) : m.Extends (CacheResult m k cache_usage secure entry) := by
  unfold CacheResult
  split
  · split
    · exact Manager.Extends.refl m
    · exact Manager.Extends.of_subset rfl (fun _ h => h) rfl
  · exact Manager.Extends.refl m

theorem OnTaskComplete_extends (m : Manager) (k : JobKey) (outcome : TaskOutcome) :
    m.Extends (OnTaskComplete m k outcome) := by
  unfold OnTaskComplete
  split
  · split
    · exact Manager.Extends.refl m
    · split
      · exact ((CacheResult_extends m k _ _ _).trans (CompleteJob_extends _ k _)).trans
          (MaybeDispatchJobs_extends _)
      · split
        · exact (StartNextTask_extends m k _ _).trans (MaybeDispatchJobs_extends _)
        · exact (CompleteJob_extends m k _).trans (MaybeDispatchJobs_extends _)
  · exact Manager.Extends.refl m

theorem StartRace_extends (m : Manager) (k : JobKey) : m.Extends (StartRace m k) := by
  unfold StartRace
  split
  · split
    · exact Manager.Extends.of_modify k (fun j => { j with num_occupied_job_slots := 2 })
        (fun _ => rfl) rfl rfl rfl
    · exact Manager.Extends.refl m
  · exact Manager.Extends.refl m

theorem EndRace_extends (m : Manager) (k : JobKey) : m.Extends (EndRace m k) := by
  unfold EndRace
  split
  · split
    · refine Manager.Extends.trans ?_ (MaybeDispatchJobs_extends _)
      exact Manager.Extends.of_modify k (fun j => { j with num_occupied_job_slots := 1 })
        (fun _ => rfl) rfl rfl rfl
    · exact Manager.Extends.refl m
  · exact Manager.Extends.refl m

theorem Resolve_extends (m : Manager) (r : RequestParams) : m.Extends (Resolve m r).1 := by
  have hsync : m.Extends { m with next_request := m.next_request + 1 } :=
    { next_le := Nat.le_succ _, attached := fun _ h => Or.inl h
      callbacks_kept := List.prefix_refl _ }
  unfold Resolve
  simp only
  split
  · exact hsync
  · split
    · exact
        { next_le := Nat.le_succ _
          attached := fun x hx => by
            rcases JobMap.mem_attachedRequests_add m.jobs_ _ _ _ x hx with h | h
            · exact Or.inl h
            · exact Or.inr (Nat.le_of_eq h.symm)
          callbacks_kept := List.prefix_refl _ }
    · next hf =>
      unfold CreateAndStartJob
      simp only
      refine Manager.Extends.trans ?_ (RequestSlot_extends _ _ _)
      exact
        { next_le := Nat.le_succ _
          attached := fun x hx => by
            simp only [JobMap.emplace, hf, JobMap.attachedRequests_append, JobMap.attachedRequests,
              List.map_cons, List.map_nil, List.append_nil, List.mem_append,
              List.mem_singleton] at hx
            rcases hx with h | h
            · exact Or.inl h
            · exact Or.inr (Nat.le_of_eq h.symm)
          callbacks_kept := List.prefix_refl _ }

theorem CancelRequest_extends (m : Manager) (request : Nat) :
    m.Extends (CancelRequest m request) :=
  Manager.Extends.of_subset rfl
    (fun _ h => (JobMap.attachedRequests_cancel_sublist m.jobs_ request).subset h) rfl

theorem CompleteJobs_extends (entry : Entry) (keys : List JobKey) :
    ∀ m : Manager, m.Extends (CompleteJobs m entry keys) := by
  induction keys with
  | nil => intro m; exact Manager.Extends.refl m
  | cons k rest ih => intro m; exact (CompleteJob_extends m k entry).trans (ih _)

theorem AbortInsecureDnsTask_extends (m : Manager) (error : NetError) (k : JobKey) :
    m.Extends (AbortInsecureDnsTask m error k) := by
  unfold AbortInsecureDnsTask
  split
  · split
    · split
      · exact StartNextTask_extends m k _ _
      · exact CompleteJob_extends m k _
    · exact Manager.Extends.refl m
  · exact Manager.Extends.refl m

theorem AbortInsecureDnsTasks_extends (error : NetError) (keys : List JobKey) :
    ∀ m : Manager, m.Extends (AbortInsecureDnsTasks m error keys) := by
  induction keys with
  | nil => intro m; exact Manager.Extends.refl m
  | cons k rest ih => intro m; exact (AbortInsecureDnsTask_extends m error k).trans (ih _)

theorem step_extends (m : Manager) (e : Event) : m.Extends (m.step e) := by
  unfold Manager.step
  split
  · exact Manager.Extends.refl m
  · cases e with
    | resolve r => exact Resolve_extends m r
    | cancel request => exact CancelRequest_extends m request
    | taskComplete k outcome => exact OnTaskComplete_extends m k outcome
    | startRace k => exact StartRace_extends m k
    | endRace k => exact EndRace_extends m k
    | deregisterContext context =>
      exact (CompleteJobs_extends _ _ m).trans (MaybeDispatchJobs_extends _)
    | invalidateCaches =>
      refine Manager.Extends.trans ?_
        ((AbortInsecureDnsTasks_extends _ _ _).trans (MaybeDispatchJobs_extends _))
      exact Manager.Extends.of_subset rfl (fun _ h => h) rfl
    | setDnsConfig a b c d e f => exact Manager.Extends.of_subset rfl (fun _ h => h) rfl
    | setIPv6ProbeResult reachable => exact Manager.Extends.of_subset rfl (fun _ h => h) rfl
    | destroy =>
      exact Manager.Extends.of_subset rfl
        (fun _ h => by simp [Destroy, JobMap.attachedRequests] at h) rfl

theorem run_extends (events : List Event) : ∀ m : Manager, m.Extends (m.run events) := by
  induction events with
  | nil => intro m; exact Manager.Extends.refl m
  | cons e rest ih => intro m; exact (step_extends m e).trans (ih _)

theorem run_destroyed (events : List Event) :
    ∀ m : Manager, m.destroyed = true → m.run events = m := by
  induction events with
  | nil => intro m _; rfl
  | cons e rest ih =>
    intro m h
    have hs : m.step e = m := by simp [Manager.step, h]
    show (m.step e).run rest = m
    rw [hs]; exact ih m h

theorem run_append (m : Manager) (es1 es2 : List Event) :
    m.run (es1 ++ es2) = (m.run es1).run es2 := by
  simp [Manager.run, List.foldl_append]

/-! ### Where requests are attached -/

theorem JobMap.find_erase_self (jobs : JobMap) (k : JobKey) :
    JobMap.find (JobMap.erase jobs k) k = none := by
  induction jobs with
  | nil => simp [JobMap.erase, JobMap.find]
  | cons p rest ih =>
    obtain ⟨k0, j0⟩ := p
    by_cases hk : k0 = k <;> simp [JobMap.erase, JobMap.find, hk, ih]

theorem JobMap.find_erase_some (jobs : JobMap) (k k' : JobKey) (job : Job)
    (h : JobMap.find (JobMap.erase jobs k) k' = some job) : JobMap.find jobs k' = some job := by
  by_cases hk : k' = k
  · subst hk; rw [JobMap.find_erase_self] at h; cases h
  · rwa [JobMap.find_erase_ne _ _ _ hk] at h

theorem JobMap.find_modify_some (jobs : JobMap) (k k' : JobKey) (f : Job → Job) (job' : Job)
    (h : JobMap.find (JobMap.modify jobs k f) k' = some job') :
    ∃ job, JobMap.find jobs k' = some job ∧ (job' = job ∨ job' = f job) := by
  by_cases hk : k' = k
  · subst hk
    rw [JobMap.find_modify_self] at h
    cases hf : JobMap.find jobs k' with
    | none => rw [hf] at h; cases h
    | some job =>
      rw [hf] at h
      simp only [Option.map_some', Option.some.injEq] at h
      exact ⟨job, rfl, Or.inr h.symm⟩
  · rw [JobMap.find_modify_ne _ _ _ _ hk] at h
    exact ⟨job', h, Or.inl rfl⟩

theorem JobMap.find_map (jobs : JobMap) (g : Job → Job) (k : JobKey) :
    JobMap.find (jobs.map (fun p => (p.1, g p.2))) k = (JobMap.find jobs k).map g := by
  induction jobs with
  | nil => simp [JobMap.find]
  | cons p rest ih =>
    obtain ⟨k0, j0⟩ := p
    by_cases hk : k0 = k <;> simp [JobMap.find, hk, ih]

theorem JobMap.find_append_some (jobs : JobMap) (k k' : JobKey) (j job' : Job)
    (h : JobMap.find (jobs ++ [(k, j)]) k' = some job') :
    JobMap.find jobs k' = some job' ∨ job' = j := by
  induction jobs with
  | nil =>
    by_cases hk : k = k'
    · simp [JobMap.find, hk] at h; exact Or.inr h.symm
    · simp [JobMap.find, hk] at h
  | cons p rest ih =>
    obtain ⟨k0, j0⟩ := p
    have h' : JobMap.find ((k0, j0) :: (rest ++ [(k, j)])) k' = some job' := h
    by_cases hk : k0 = k'
    · simp only [JobMap.find, hk, if_true] at h' ⊢; exact Or.inl h'
    · simp only [JobMap.find, hk, if_false] at h' ⊢
      exact ih h'

theorem JobMap.mem_attachedRequests_of_find (jobs : JobMap) (k : JobKey) (job : Job)
    (request : Nat) (hf : JobMap.find jobs k = some job)
    (hr : request ∈ job.requests.map Prod.fst) : request ∈ JobMap.attachedRequests jobs := by
  induction jobs with
  | nil => simp [JobMap.find] at hf
  | cons p rest ih =>
    obtain ⟨k0, j0⟩ := p
    by_cases hk : k0 = k
    · simp only [JobMap.find, hk, if_true, Option.some.injEq] at hf
      subst hf
      exact List.mem_append_left _ hr
    · simp only [JobMap.find, hk, if_false] at hf
      exact List.mem_append_right _ (ih hf)

theorem Manager.Follows.follows_refl (m : Manager) : m.Follows m where
  kept := Manager.Extends.refl m
  target_eq := rfl
  validator_eq := rfl
  attached_under := fun _ job' _ hf hr => Or.inl ⟨job', hf, hr⟩
  notified_from := fun _ h => Or.inl h

theorem Manager.Follows.follows_trans {m1 m2 m3 : Manager} (h12 : m1.Follows m2) (h23 : m2.Follows m3) :
    m1.Follows m3 where
  kept := h12.kept.trans h23.kept
  target_eq := h23.target_eq.trans h12.target_eq
  validator_eq := h23.validator_eq.trans h12.validator_eq
  attached_under := fun k job' request hf hr => by
    rcases h23.attached_under k job' request hf hr with ⟨job2, hf2, hr2⟩ | h
    · exact h12.attached_under k job2 request hf2 hr2
    · exact Or.inr (Nat.le_trans h12.kept.next_le h)
  notified_from := fun request hr => by
    rcases h23.notified_from request hr with h | h | h
    · exact h12.notified_from request h
    · rcases h12.kept.attached request h with h' | h'
      · exact Or.inr (Or.inl h')
      · exact Or.inr (Or.inr h')
    · exact Or.inr (Or.inr (Nat.le_trans h12.kept.next_le h))

theorem Manager.Follows.follows_of_jobs {m m' : Manager} (hext : m.Extends m')
    (ht : m'.target_network_ = m.target_network_)
    (hv : m'.hostname_validator = m.hostname_validator)
    (hc : m'.callbacks = m.callbacks)
    (ha : ∀ (k : JobKey) (job' : Job), JobMap.find m'.jobs_ k = some job' →
      ∃ job, JobMap.find m.jobs_ k = some job ∧ job'.requests ⊆ job.requests) :
    m.Follows m' where
  kept := hext
  target_eq := ht
  validator_eq := hv
  attached_under := fun k job' request hf hr => by
    obtain ⟨job, hj, hsub⟩ := ha k job' hf
    exact Or.inl ⟨job, hj, List.map_subset _ hsub hr⟩
  notified_from := fun request hr => by rw [hc] at hr; exact Or.inl hr

theorem Manager.Follows.follows_of_same_jobs {m m' : Manager} (hj : m'.jobs_ = m.jobs_)
    (hn : m.next_request ≤ m'.next_request) (ht : m'.target_network_ = m.target_network_)
    (hv : m'.hostname_validator = m.hostname_validator) (hc : m'.callbacks = m.callbacks) :
    m.Follows m' :=
  Manager.Follows.follows_of_jobs
    { next_le := hn
      attached := fun r hr => by rw [hj] at hr; exact Or.inl hr
      callbacks_kept := by rw [hc] }
    ht hv hc
    (fun k job' hf => ⟨job', by rw [← hj]; exact hf, List.Subset.refl _⟩)

theorem Manager.Follows.follows_of_modify {m m' : Manager} (k : JobKey) (f : Job → Job)
    (hreq : ∀ j, (f j).requests = j.requests) (hj : m'.jobs_ = JobMap.modify m.jobs_ k f)
    (hn : m'.next_request = m.next_request) (ht : m'.target_network_ = m.target_network_)
    (hv : m'.hostname_validator = m.hostname_validator) (hc : m'.callbacks = m.callbacks) :
    m.Follows m' :=
  Manager.Follows.follows_of_jobs (Manager.Extends.of_modify k f hreq hj hn hc) ht hv hc
    (fun k' job' hf => by
      rw [hj] at hf
      obtain ⟨job, hjob, h | h⟩ := JobMap.find_modify_some _ _ _ _ _ hf
      · exact ⟨job, hjob, by rw [h]; exact List.Subset.refl _⟩
      · exact ⟨job, hjob, by rw [h, hreq]; exact List.Subset.refl _⟩)

theorem GrantSlot_follows (m : Manager) (k : JobKey) : m.Follows (GrantSlot m k) :=
  Manager.Follows.follows_of_modify k
    (fun j => { j with num_occupied_job_slots := j.num_occupied_job_slots + 1 })
    (fun _ => rfl) rfl rfl rfl rfl rfl

theorem RequestSlot_follows (m : Manager) (k : JobKey) (priority : Nat) :
    m.Follows (RequestSlot m k priority) := by
  unfold RequestSlot
  split
  · split
    · exact GrantSlot_follows m k
    · exact Manager.Follows.follows_refl m
  · exact Manager.Follows.follows_of_same_jobs rfl (Nat.le_refl _) rfl rfl rfl

theorem DispatchQueue_follows (queue : List (Nat × JobKey)) :
    ∀ m : Manager, m.Follows (DispatchQueue m queue) := by
  induction queue with
  | nil => intro m; exact Manager.Follows.follows_of_same_jobs rfl (Nat.le_refl _) rfl rfl rfl
  | cons e rest ih =>
    intro m
    obtain ⟨p, k⟩ := e
    unfold DispatchQueue
    split
    · split
      · exact (GrantSlot_follows m k).follows_trans (ih _)
      · exact ih m
    · exact Manager.Follows.follows_of_same_jobs rfl (Nat.le_refl _) rfl rfl rfl

theorem MaybeDispatchJobs_follows (m : Manager) : m.Follows (MaybeDispatchJobs m) :=
  DispatchQueue_follows _ m

theorem ReleaseSlots_follows (m : Manager) (k : JobKey) : m.Follows (ReleaseSlots m k) := by
  unfold ReleaseSlots
  split
  · exact Manager.Follows.follows_of_modify k (fun j => { j with num_occupied_job_slots := 0 })
      (fun _ => rfl) rfl rfl rfl rfl rfl
  · exact Manager.Follows.follows_refl m

theorem CompleteJob_follows (m : Manager) (k : JobKey) (entry : Entry) :
    m.Follows (CompleteJob m k entry) := by
  unfold CompleteJob
  split
  · next job hjob =>
    exact
      { kept := by
          have h := CompleteJob_extends m k entry
          simp only [CompleteJob, hjob] at h
          exact h
        target_eq := rfl
        validator_eq := rfl
        attached_under := fun k' job' request hf hr =>
          Or.inl ⟨job', JobMap.find_erase_some _ _ _ _ hf, hr⟩
        notified_from := fun request hr => by
          simp only [List.map_append, List.map_map, List.mem_append] at hr
          rcases hr with hr | hr
          · exact Or.inl hr
          · exact Or.inr (Or.inl (JobMap.mem_attachedRequests_of_find _ k job request hjob hr)) }
  · exact Manager.Follows.follows_refl m

theorem StartNextTask_follows (m : Manager) (k : JobKey) (tasks : List TaskType)
    (error : NetError) : m.Follows (StartNextTask m k tasks error) := by
  unfold StartNextTask
  split
  · simp only
    split
    · exact (ReleaseSlots_follows m k).follows_trans (CompleteJob_follows _ k _)
    · exact (ReleaseSlots_follows m k).follows_trans (CompleteJob_follows _ k _)
    · next t residual _ =>
      refine (ReleaseSlots_follows m k).follows_trans (Manager.Follows.follows_trans ?_ (RequestSlot_follows _ k _))
      exact Manager.Follows.follows_of_modify k (fun j => { j with tasks := t :: residual })
        (fun _ => rfl) rfl rfl rfl rfl rfl
  · exact Manager.Follows.follows_refl m

theorem CacheResult_follows (m : Manager) (k : JobKey) (cache_usage : CacheUsage) (secure : Bool)
    (entry : Entry) : m.Follows (CacheResult m k cache_usage secure entry) := by
  unfold CacheResult
  split
  · split
    · exact Manager.Follows.follows_refl m
    · exact Manager.Follows.follows_of_same_jobs rfl (Nat.le_refl _) rfl rfl rfl
  · exact Manager.Follows.follows_refl m

theorem OnTaskComplete_follows (m : Manager) (k : JobKey) (outcome : TaskOutcome) :
    m.Follows (OnTaskComplete m k outcome) := by
  unfold OnTaskComplete
  split
  · split
    · exact Manager.Follows.follows_refl m
    · split
      · exact ((CacheResult_follows m k _ _ _).follows_trans (CompleteJob_follows _ k _)).follows_trans
          (MaybeDispatchJobs_follows _)
      · split
        · exact (StartNextTask_follows m k _ _).follows_trans (MaybeDispatchJobs_follows _)
        · exact (CompleteJob_follows m k _).follows_trans (MaybeDispatchJobs_follows _)
  · exact Manager.Follows.follows_refl m

theorem StartRace_follows (m : Manager) (k : JobKey) : m.Follows (StartRace m k) := by
  unfold StartRace
  split
  · split
    · exact Manager.Follows.follows_of_modify k (fun j => { j with num_occupied_job_slots := 2 })
        (fun _ => rfl) rfl rfl rfl rfl rfl
    · exact Manager.Follows.follows_refl m
  · exact Manager.Follows.follows_refl m

theorem EndRace_follows (m : Manager) (k : JobKey) : m.Follows (EndRace m k) := by
  unfold EndRace
  split
  · split
    · refine Manager.Follows.follows_trans ?_ (MaybeDispatchJobs_follows _)
      exact Manager.Follows.follows_of_modify k (fun j => { j with num_occupied_job_slots := 1 })
        (fun _ => rfl) rfl rfl rfl rfl rfl
    · exact Manager.Follows.follows_refl m
  · exact Manager.Follows.follows_refl m

theorem Resolve_follows (m : Manager) (r : RequestParams) : m.Follows (Resolve m r).1 := by
  unfold Resolve
  simp only
  split
  · exact Manager.Follows.follows_of_same_jobs rfl (Nat.le_succ _) rfl rfl rfl
  · split
    · exact
        { kept :=
            { next_le := Nat.le_succ _
              attached := fun x hx => by
                rcases JobMap.mem_attachedRequests_add m.jobs_ _ _ _ x hx with h | h
                · exact Or.inl h
                · exact Or.inr (Nat.le_of_eq h.symm)
              callbacks_kept := List.prefix_refl _ }
          target_eq := rfl
          validator_eq := rfl
          notified_from := fun _ h => Or.inl h
          attached_under := fun k' job' request hf hr => by
            obtain ⟨job, hjob, h | h⟩ := JobMap.find_modify_some _ _ _ _ _ hf
            · exact Or.inl ⟨job, hjob, by rw [← h]; exact hr⟩
            · rw [h] at hr
              simp only [Job.AddRequest, List.map_append, List.map_cons, List.map_nil,
                List.mem_append, List.mem_singleton] at hr
              rcases hr with hr | hr
              · exact Or.inl ⟨job, hjob, hr⟩
              · exact Or.inr (Nat.le_of_eq hr.symm) }
    · next hf =>
      unfold CreateAndStartJob
      simp only
      refine Manager.Follows.follows_trans ?_ (RequestSlot_follows _ _ _)
      exact
        { kept :=
            { next_le := Nat.le_succ _
              attached := fun x hx => by
                simp only [JobMap.emplace, hf, JobMap.attachedRequests_append,
                  JobMap.attachedRequests, List.map_cons, List.map_nil, List.append_nil,
                  List.mem_append, List.mem_singleton] at hx
                rcases hx with h | h
                · exact Or.inl h
                · exact Or.inr (Nat.le_of_eq h.symm)
              callbacks_kept := List.prefix_refl _ }
          target_eq := rfl
          validator_eq := rfl
          notified_from := fun _ h => Or.inl h
          attached_under := fun k' job' request hf' hr => by
            simp only [JobMap.emplace, hf] at hf'
            rcases JobMap.find_append_some _ _ _ _ _ hf' with h | h
            · exact Or.inl ⟨job', h, hr⟩
            · rw [h] at hr
              simp only [List.map_cons, List.map_nil, List.mem_singleton] at hr
              exact Or.inr (Nat.le_of_eq hr.symm) }

theorem CancelRequest_follows (m : Manager) (request : Nat) :
    m.Follows (CancelRequest m request) :=
  Manager.Follows.follows_of_jobs (CancelRequest_extends m request) rfl rfl rfl (fun k job' hf => by
    have h := (JobMap.find_map m.jobs_
      (fun j => { j with requests := j.requests.filter (fun r => decide (r.1 ≠ request)) }) k).symm.trans hf
    cases hj : JobMap.find m.jobs_ k with
    | none => rw [hj] at h; cases h
    | some job =>
      rw [hj] at h
      simp only [Option.map_some', Option.some.injEq] at h
      exact ⟨job, rfl, by rw [← h]; exact (List.filter_sublist _).subset⟩)

theorem CompleteJobs_follows (entry : Entry) (keys : List JobKey) :
    ∀ m : Manager, m.Follows (CompleteJobs m entry keys) := by
  induction keys with
  | nil => intro m; exact Manager.Follows.follows_refl m
  | cons k rest ih => intro m; exact (CompleteJob_follows m k entry).follows_trans (ih _)

theorem AbortInsecureDnsTask_follows (m : Manager) (error : NetError) (k : JobKey) :
    m.Follows (AbortInsecureDnsTask m error k) := by
  unfold AbortInsecureDnsTask
  split
  · split
    · split
      · exact StartNextTask_follows m k _ _
      · exact CompleteJob_follows m k _
    · exact Manager.Follows.follows_refl m
  · exact Manager.Follows.follows_refl m

theorem AbortInsecureDnsTasks_follows (error : NetError) (keys : List JobKey) :
    ∀ m : Manager, m.Follows (AbortInsecureDnsTasks m error keys) := by
  induction keys with
  | nil => intro m; exact Manager.Follows.follows_refl m
  | cons k rest ih => intro m; exact (AbortInsecureDnsTask_follows m error k).follows_trans (ih _)

theorem step_follows (m : Manager) (e : Event) : m.Follows (m.step e) := by
  unfold Manager.step
  split
  · exact Manager.Follows.follows_refl m
  · cases e with
    | resolve r => exact Resolve_follows m r
    | cancel request => exact CancelRequest_follows m request
    | taskComplete k outcome => exact OnTaskComplete_follows m k outcome
    | startRace k => exact StartRace_follows m k
    | endRace k => exact EndRace_follows m k
    | deregisterContext context =>
      exact (CompleteJobs_follows _ _ m).follows_trans (MaybeDispatchJobs_follows _)
    | invalidateCaches =>
      refine Manager.Follows.follows_trans ?_
        ((AbortInsecureDnsTasks_follows _ _ _).follows_trans (MaybeDispatchJobs_follows _))
      exact Manager.Follows.follows_of_same_jobs rfl (Nat.le_refl _) rfl rfl rfl
    | setDnsConfig a b c d e f =>
      exact Manager.Follows.follows_of_same_jobs rfl (Nat.le_refl _) rfl rfl rfl
    | setIPv6ProbeResult reachable =>
      exact Manager.Follows.follows_of_same_jobs rfl (Nat.le_refl _) rfl rfl rfl
    | destroy =>
      exact Manager.Follows.follows_of_jobs
        (Manager.Extends.of_subset rfl
          (fun _ h => by simp [Destroy, JobMap.attachedRequests] at h) rfl)
        rfl rfl rfl
        (fun k job' hf => by simp [Destroy, JobMap.find] at hf)

theorem run_follows (events : List Event) : ∀ m : Manager, m.Follows (m.run events) := by
  induction events with
  | nil => intro m; exact Manager.Follows.follows_refl m
  | cons e rest ih => intro m; exact (step_follows m e).follows_trans (ih _)


/-! ### Resolution policy -/

theorem PushDnsTasks_required (m : Manager) (proc ins cache prio : Bool) (out : List TaskType) :
    PushDnsTasks m proc .required ins cache prio out
      = out ++ (if cache then [TaskType.SECURE_CACHE_LOOKUP] else []) ++ [TaskType.SECURE_DNS] := by
  simp [PushDnsTasks]

theorem CreateTaskSequence_required (m : Manager) (job_key : JobKey) (cache_usage : CacheUsage)
    (prioritize_local_lookups : Bool)
    (h : GetEffectiveSecureDnsMode m job_key.secure_dns_policy = .required) :
    ∀ t ∈ CreateTaskSequence m job_key cache_usage prioritize_local_lookups,
      t = .SECURE_CACHE_LOOKUP ∨ t = .SECURE_DNS ∨ t = .MDNS := by
  intro t ht
  unfold CreateTaskSequence at ht
  split at ht
  · simp at ht
  · split at ht
    · simp at ht; simp [ht]
    · have h2 : (GetEffectiveParametersForRequest m job_key.dns_query_type
          job_key.secure_dns_policy).2 = .required := h
      rw [h2, PushDnsTasks_required] at ht
      split at ht <;> simp at ht <;> rcases ht with rfl | rfl <;> simp

/-- C2: for every request and manager state whose effective secure-DNS mode is
"required", the task sequence built for the request holds neither a
system-resolver task (PROC) nor an insecure DNS task (DNS), whatever the
fallback flag: its only tasks are SECURE_CACHE_LOOKUP, SECURE_DNS and MDNS.  The
same holds of `CreateTaskSequence` for every key whose policy gives the effective
mode "required", and
`PushDnsTasks` adds neither PROC nor DNS in that mode, whatever its flags. -/
theorem required_mode_excludes_proc_and_insecure_dns (m : Manager) (r : RequestParams)
    (h : GetEffectiveSecureDnsMode m r.secure_dns_policy = .required) :
    TaskType.PROC ∉ TaskSequenceForRequest m r
    ∧ TaskType.DNS ∉ TaskSequenceForRequest m r
    ∧ (∀ t ∈ TaskSequenceForRequest m r, t = .SECURE_CACHE_LOOKUP ∨ t = .SECURE_DNS ∨ t = .MDNS)
    ∧ (∀ (job_key : JobKey) (cache_usage : CacheUsage) (prioritize_local_lookups : Bool),
        GetEffectiveSecureDnsMode m job_key.secure_dns_policy = .required →
        TaskType.PROC ∉ CreateTaskSequence m job_key cache_usage prioritize_local_lookups
        ∧ TaskType.DNS ∉ CreateTaskSequence m job_key cache_usage prioritize_local_lookups)
    ∧ (∀ (proc ins cache prio : Bool) (out : List TaskType),
        TaskType.PROC ∉ out → TaskType.DNS ∉ out →
        TaskType.PROC ∉ PushDnsTasks m proc .required ins cache prio out
        ∧ TaskType.DNS ∉ PushDnsTasks m proc .required ins cache prio out) := by
  have hkey : GetEffectiveSecureDnsMode m (MakeJobKey m r).secure_dns_policy = .required := h
  have hall := CreateTaskSequence_required m (MakeJobKey m r) r.cache_usage
    r.prioritize_local_lookups hkey
  refine ⟨?_, ?_, hall, ?_, ?_⟩
  · intro hmem
    rcases hall _ hmem with h1 | h1 | h1 <;> cases h1
  · intro hmem
    rcases hall _ hmem with h1 | h1 | h1 <;> cases h1
  · intro job_key cache_usage prio hk
    have hk' := CreateTaskSequence_required m job_key cache_usage prio hk
    constructor
    · intro hmem
      rcases hk' _ hmem with h1 | h1 | h1 <;> cases h1
    · intro hmem
      rcases hk' _ hmem with h1 | h1 | h1 <;> cases h1
  · intro proc ins cache prio out h1 h2
    rw [PushDnsTasks_required]
    cases cache <;> simp [h1, h2]

/-- Witness of C2: a request for "example.com" that forces "required" under a
manager whose global mode is "automatic" and whose fallback flag is set. -/
theorem required_mode_excludes_proc_and_insecure_dns_witness :
    GetEffectiveSecureDnsMode { (Create 2 true 0) with secure_dns_mode := .automatic }
        .forceRequired = .required
    ∧ TaskSequenceForRequest { (Create 2 true 0) with secure_dns_mode := .automatic }
        { exampleRequest with secure_dns_policy := .forceRequired }
      = [.SECURE_CACHE_LOOKUP, .SECURE_DNS]
    ∧ TaskType.PROC ∉ TaskSequenceForRequest
        { (Create 2 true 0) with secure_dns_mode := .automatic }
        { exampleRequest with secure_dns_policy := .forceRequired } :=
  ⟨by decide, by decide,
    (required_mode_excludes_proc_and_insecure_dns
      { (Create 2 true 0) with secure_dns_mode := .automatic }
      { exampleRequest with secure_dns_policy := .forceRequired } (by decide)).1⟩

/-- C3: whatever the per-request policy, the effective secure-DNS mode restricts
the manager's global mode; a globally "required" mode stays "required"; under a
globally "automatic" mode a request can force "off" or "required". -/
theorem effective_mode_only_restricts (m : Manager) (secure_dns_policy : SecureDnsPolicy) :
    (GetEffectiveSecureDnsMode m secure_dns_policy).restricts m.secure_dns_mode = true
    ∧ (m.secure_dns_mode = .required →
        GetEffectiveSecureDnsMode m secure_dns_policy = .required)
    ∧ (m.secure_dns_mode = .automatic →
        GetEffectiveSecureDnsMode m .forceOff = .off
        ∧ GetEffectiveSecureDnsMode m .forceRequired = .required
        ∧ GetEffectiveSecureDnsMode m .unspecified = .automatic) := by
  refine ⟨?_, ?_, ?_⟩
  · cases secure_dns_policy <;> cases hm : m.secure_dns_mode <;>
      simp [GetEffectiveSecureDnsMode, SecureDnsPolicy.forcedMode, SecureDnsMode.restricts, hm]
  · intro hm
    cases secure_dns_policy <;>
      simp [GetEffectiveSecureDnsMode, SecureDnsPolicy.forcedMode, SecureDnsMode.restricts, hm]
  · intro hm
    simp [GetEffectiveSecureDnsMode, SecureDnsPolicy.forcedMode, SecureDnsMode.restricts, hm]

theorem HostCache.Lookup_stale (c : HostCache) (key : CacheKey) (allow_stale ignore_secure : Bool)
    (entry : Entry) (staleness : EntryStaleness)
    (h : c.Lookup key allow_stale ignore_secure = some (entry, staleness))
    (hstale : staleness.is_stale = true) : allow_stale = true := by
  unfold HostCache.Lookup at h
  split at h
  · simp at h
  · split at h
    · simp at h
    · next hcond =>
      simp only [Option.some.injEq, Prod.mk.injEq] at h
      obtain ⟨_, hs⟩ := h
      subst hs
      simpa [hstale] using hcond

theorem Resolve_of_local_result (m : Manager) (r : RequestParams)
    (h : (ResolveLocally m (MakeJobKey m r) r.cache_usage r.prioritize_local_lookups).entry.error
      ≠ .ERR_DNS_CACHE_MISS) :
    Resolve m r = ({ m with next_request := m.next_request + 1 },
      some (ResolveLocally m (MakeJobKey m r) r.cache_usage r.prioritize_local_lookups).entry) := by
  unfold Resolve
  simp only
  rw [if_pos (Or.inl h)]

theorem synchronous_request_never_attached {limit : Nat} {m : Manager} (h : m.Invariant limit)
    (later : List Event) :
    m.next_request ∉ JobMap.attachedRequests
      (Manager.run { m with next_request := m.next_request + 1 } later).jobs_ := by
  intro hmem
  rcases (run_extends later { m with next_request := m.next_request + 1 }).attached _ hmem with h1 | h1
  · exact Nat.lt_irrefl _ (h.requests_lt _ (List.mem_append_right _ h1))
  · exact Nat.not_succ_le_self _ h1

/-- C4: a request whose host is an IP literal is resolved synchronously with the
address as its result; the job map and the dispatcher are left as they were, the
task sequence built for it holds no task, and in no later state is the request
attached to a job. -/
theorem ip_literal_resolved_without_job (limit : Nat) (enable_caching : Bool)
    (target_network : Nat) (events : List Event) (m : Manager) (r : RequestParams)
    (ip : IPAddress) (hm : m = (Create limit enable_caching target_network).run events)
    (hhost : r.host = .literal ip) :
    (Resolve m r).2 = some { error := .OK, addresses := [ip] }
    ∧ (Resolve m r).2
        = some (ResolveLocally m (MakeJobKey m r) r.cache_usage r.prioritize_local_lookups).entry
    ∧ (ResolveLocally m (MakeJobKey m r) r.cache_usage r.prioritize_local_lookups).entry
        = ResolveAsIP ip
    ∧ (Resolve m r).1.jobs_ = m.jobs_
    ∧ (Resolve m r).1.dispatcher_ = m.dispatcher_
    ∧ TaskSequenceForRequest m r = []
    ∧ ∀ later : List Event,
        m.next_request ∉ JobMap.attachedRequests ((Resolve m r).1.run later).jobs_ := by
  have hinv : m.Invariant limit := by rw [hm]; exact run_invariant _ (Create_invariant _ _ _)
  have hlocal : ResolveLocally m (MakeJobKey m r) r.cache_usage r.prioritize_local_lookups
      = { entry := { error := .OK, addresses := [ip] }, out_tasks := [], out_stale_info := none } := by
    simp [ResolveLocally, MakeJobKey, hhost, ResolveAsIP, CreateTaskSequence]
  have hres := Resolve_of_local_result m r (by simp [hlocal])
  have hres0 := hres
  rw [hlocal] at hres
  refine ⟨by rw [hres], by rw [hres0], by rw [hlocal]; rfl, by rw [hres], by rw [hres], ?_, ?_⟩
  · simp [TaskSequenceForRequest, CreateTaskSequence, MakeJobKey, hhost]
  · intro later
    rw [hres]
    exact synchronous_request_never_attached hinv later

/-- Witness of C4: the literal 192.0.2.1 asked of a fresh manager. -/
theorem ip_literal_resolved_without_job_witness :
    (Resolve (Create 1 true 0) { exampleRequest with host := .literal { bytes := [192, 0, 2, 1] } }).2
        = some { error := .OK, addresses := [{ bytes := [192, 0, 2, 1] }] }
    ∧ (Resolve (Create 1 true 0)
        { exampleRequest with host := .literal { bytes := [192, 0, 2, 1] } }).1.jobs_ = [] :=
  ⟨(ip_literal_resolved_without_job 1 true 0 [] (Create 1 true 0)
      { exampleRequest with host := .literal { bytes := [192, 0, 2, 1] } }
      { bytes := [192, 0, 2, 1] } rfl rfl).1,
   by decide⟩

theorem CreateWithValidator_default (limit : Nat) (enable_caching : Bool) (target_network : Nat) :
    CreateWithValidator limit enable_caching target_network (fun _ => true)
      = Create limit enable_caching target_network :=
  rfl

/-- C7: whatever the hostname check of the manager, a request whose hostname is
invalid input, be it the empty hostname or any hostname that the check rejects,
fails synchronously in every reachable state: the hostname is invalid for
`IsValidHostname`, `ResolveLocally` yields ERR_NAME_NOT_RESOLVED, `Resolve`
returns that error at once, the job map and the dispatcher are left as they
were, and in no later state is the request attached to a job. -/
theorem invalid_hostname_fails_without_job (limit : Nat) (enable_caching : Bool)
    (target_network : Nat) (validator : String → Bool) (events : List Event) (m : Manager)
    (r : RequestParams) (hostname : String)
    (hm : m = (CreateWithValidator limit enable_caching target_network validator).run events)
    (hhost : r.host = .name hostname)
    (hinvalid : hostname.isEmpty = true ∨ validator hostname = false) :
    IsValidHostname m hostname = false
    ∧ (ResolveLocally m (MakeJobKey m r) r.cache_usage r.prioritize_local_lookups).entry.error
        = .ERR_NAME_NOT_RESOLVED
    ∧ (Resolve m r).2 = some { error := .ERR_NAME_NOT_RESOLVED, addresses := [] }
    ∧ (Resolve m r).1.jobs_ = m.jobs_
    ∧ (Resolve m r).1.dispatcher_ = m.dispatcher_
    ∧ ∀ later : List Event,
        m.next_request ∉ JobMap.attachedRequests ((Resolve m r).1.run later).jobs_ := by
  have hinv : m.Invariant limit := by
    rw [hm]
    exact run_invariant _ ((Create_invariant limit enable_caching target_network).congr
      rfl rfl rfl rfl rfl)
  have hv : m.hostname_validator = validator := by
    rw [hm]; exact (run_follows events _).validator_eq
  have hvalid : IsValidHostname m hostname = false := by
    rcases hinvalid with h | h <;> simp [IsValidHostname, hv, h]
  have hlocal : (ResolveLocally m (MakeJobKey m r) r.cache_usage r.prioritize_local_lookups).entry
      = { error := .ERR_NAME_NOT_RESOLVED, addresses := [] } := by
    simp [ResolveLocally, MakeJobKey, hhost, hvalid]
  have hres := Resolve_of_local_result m r (by simp [hlocal])
  rw [hlocal] at hres
  refine ⟨hvalid, by rw [hlocal], by rw [hres], by rw [hres], by rw [hres], ?_⟩
  intro later
  rw [hres]
  exact synchronous_request_never_attached hinv later

/-- Witness of C7: the hostname " " asked of a manager whose hostname check
rejects hostnames with a space and that already runs a job. -/
theorem invalid_hostname_fails_without_job_witness :
    exampleValidator " " = false
    ∧ (Resolve ((CreateWithValidator 1 true 0 exampleValidator).run [.resolve exampleRequest])
        { exampleRequest with host := .name " " }).2
        = some { error := .ERR_NAME_NOT_RESOLVED, addresses := [] }
    ∧ (Resolve ((CreateWithValidator 1 true 0 exampleValidator).run [.resolve exampleRequest])
        { exampleRequest with host := .name " " }).1.jobs_
        = ((CreateWithValidator 1 true 0 exampleValidator).run [.resolve exampleRequest]).jobs_ :=
  ⟨by decide,
   (invalid_hostname_fails_without_job 1 true 0 exampleValidator [.resolve exampleRequest] _
      { exampleRequest with host := .name " " } " " rfl rfl (Or.inr (by decide))).2.2.1,
   (invalid_hostname_fails_without_job 1 true 0 exampleValidator [.resolve exampleRequest] _
      { exampleRequest with host := .name " " } " " rfl rfl (Or.inr (by decide))).2.2.2.1⟩

/-- C8, as stated, fails: with a stale entry cached for the key and cache usage
ALLOWED, the lookup is a miss and the staleness of the entry is not reported:
`out_stale_info` is nullopt, both from `MaybeServeFromCache` and from
`ResolveLocally`. -/
theorem stale_miss_reports_no_staleness :
    staleCache.Lookup { key := exampleKey, secure := false } true false
        = some ({ error := .OK, addresses := [{ bytes := [93, 184, 216, 34] }] },
            { is_stale := true, expired_by := 5 })
    ∧ MaybeServeFromCache (some staleCache) { key := exampleKey, secure := false } .ALLOWED false
        = (none, none)
    ∧ (ResolveLocally { (Create 1 true 0) with cache := some staleCache } exampleKey .ALLOWED
        false).out_stale_info = none
    ∧ (ResolveLocally { (Create 1 true 0) with cache := some staleCache } exampleKey .ALLOWED
        false).entry.error = .ERR_DNS_CACHE_MISS := by
  decide

/-- C8, amended: a cached entry that is stale is returned only if the cache usage
is STALE_ALLOWED, and then with its staleness; for any other cache usage a stale
entry is a miss; `out_stale_info` is filled in exactly when an entry is returned
and is nullopt on every miss, a miss on a stale entry included; an entry that is
not stale is returned, with its staleness, unless the cache usage is DISALLOWED. -/
theorem stale_entries_need_stale_allowed (cache : Option HostCache) (key : CacheKey)
    (cache_usage : CacheUsage) (ignore_secure : Bool) :
    (∀ entry staleness,
        MaybeServeFromCache cache key cache_usage ignore_secure = (some entry, some staleness) →
        staleness.is_stale = true → cache_usage = .STALE_ALLOWED)
    ∧ ((MaybeServeFromCache cache key cache_usage ignore_secure).1 = none →
        (MaybeServeFromCache cache key cache_usage ignore_secure).2 = none)
    ∧ ((MaybeServeFromCache cache key cache_usage ignore_secure).1.isSome
        = (MaybeServeFromCache cache key cache_usage ignore_secure).2.isSome)
    ∧ (∀ c entry staleness, cache = some c →
        c.Lookup key true ignore_secure = some (entry, staleness) →
        (staleness.is_stale = true → cache_usage ≠ .STALE_ALLOWED →
          MaybeServeFromCache cache key cache_usage ignore_secure = (none, none))
        ∧ (cache_usage = .STALE_ALLOWED →
          MaybeServeFromCache cache key cache_usage ignore_secure = (some entry, some staleness))
        ∧ (staleness.is_stale = false → cache_usage ≠ .DISALLOWED →
          MaybeServeFromCache cache key cache_usage ignore_secure
            = (some entry, some staleness))) := by
  refine ⟨?_, ?_, ?_, ?_⟩
  · intro entry staleness h hstale
    unfold MaybeServeFromCache at h
    split at h
    · simp at h
    · next c =>
      split at h
      · simp at h
      · split at h
        · simp at h
        · next e s hfind =>
          simp only [Prod.mk.injEq, Option.some.injEq] at h
          obtain ⟨_, hs⟩ := h
          subst hs
          simpa using HostCache.Lookup_stale c key _ ignore_secure e s hfind hstale
  · unfold MaybeServeFromCache
    split
    · simp
    · split
      · simp
      · split <;> simp
  · unfold MaybeServeFromCache
    split
    · simp
    · split
      · simp
      · split <;> simp
  · intro c entry staleness hc hlookup
    subst hc
    unfold HostCache.Lookup at hlookup
    split at hlookup
    · simp at hlookup
    · next k e s hfind =>
      simp only [Bool.not_true, Bool.and_false, Bool.false_eq_true, if_false, Option.some.injEq,
        Prod.mk.injEq] at hlookup
      obtain ⟨he, hs⟩ := hlookup
      subst he hs
      refine ⟨?_, ?_, ?_⟩
      · intro hstale hne
        cases cache_usage <;> simp_all [MaybeServeFromCache, HostCache.Lookup]
      · intro hu
        simp [MaybeServeFromCache, HostCache.Lookup, hfind, hu]
      · intro hfresh hne
        cases cache_usage <;> simp_all [MaybeServeFromCache, HostCache.Lookup]



/-! ### Deduplication in the job registry -/

theorem CompleteJob_callbacks (m : Manager) (k : JobKey) (entry : Entry) (job : Job)
    (hf : JobMap.find m.jobs_ k = some job) :
    (CompleteJob m k entry).callbacks = m.callbacks ++ job.requests.map (fun r => (r.1, entry)) := by
  simp only [CompleteJob, hf]

theorem CompleteJob_delivers (m : Manager) (k : JobKey) (entry : Entry) (job : Job)
    (request : Nat) (hf : JobMap.find m.jobs_ k = some job)
    (hr : request ∈ job.requests.map Prod.fst) :
    (request, entry) ∈ (CompleteJob m k entry).callbacks := by
  rw [CompleteJob_callbacks m k entry job hf]
  obtain ⟨p, hp, rfl⟩ := List.mem_map.mp hr
  exact List.mem_append_right _ (List.mem_map.mpr ⟨p, hp, rfl⟩)

theorem RequestSlot_find_other (m : Manager) (k k' : JobKey) (priority : Nat) (hne : k' ≠ k) :
    JobMap.find (RequestSlot m k priority).jobs_ k' = JobMap.find m.jobs_ k' := by
  unfold RequestSlot
  split
  · split
    · exact JobMap.find_modify_ne _ _ _ _ hne
    · rfl
  · rfl

theorem ReleaseSlots_find_other (m : Manager) (k k' : JobKey) (hne : k' ≠ k) :
    JobMap.find (ReleaseSlots m k).jobs_ k' = JobMap.find m.jobs_ k' := by
  unfold ReleaseSlots
  split
  · exact JobMap.find_modify_ne _ _ _ _ hne
  · rfl

theorem CompleteJob_find_other (m : Manager) (k k' : JobKey) (entry : Entry) (hne : k' ≠ k) :
    JobMap.find (CompleteJob m k entry).jobs_ k' = JobMap.find m.jobs_ k' := by
  unfold CompleteJob
  split
  · exact JobMap.find_erase_ne _ _ _ hne
  · rfl

theorem StartNextTask_find_other (m : Manager) (k k' : JobKey) (tasks : List TaskType)
    (error : NetError) (hne : k' ≠ k) :
    JobMap.find (StartNextTask m k tasks error).jobs_ k' = JobMap.find m.jobs_ k' := by
  unfold StartNextTask
  split
  · simp only
    split
    · rw [CompleteJob_find_other _ _ _ _ hne, ReleaseSlots_find_other _ _ _ hne]
    · rw [CompleteJob_find_other _ _ _ _ hne, ReleaseSlots_find_other _ _ _ hne]
    · rw [RequestSlot_find_other _ _ _ _ hne]
      exact (JobMap.find_modify_ne _ _ _ _ hne).trans (ReleaseSlots_find_other _ _ _ hne)
  · rfl

theorem AbortInsecureDnsTask_find_other (m : Manager) (error : NetError) (k k' : JobKey)
    (hne : k' ≠ k) :
    JobMap.find (AbortInsecureDnsTask m error k).jobs_ k' = JobMap.find m.jobs_ k' := by
  unfold AbortInsecureDnsTask
  split
  · split
    · split
      · exact StartNextTask_find_other _ _ _ _ _ hne
      · exact CompleteJob_find_other _ _ _ _ hne
    · rfl
  · rfl

/-- A job that races a secure and an insecure query occupies two dispatcher slots:
under a limit of two, the job of `exampleRequest` runs with one slot and holds
two once its race has started, and a second job then waits in the queue. -/
theorem racing_job_occupies_two_slots :
    ((Create 2 true 0).run [.resolve exampleRequest, .startRace exampleKey]).dispatcher_.num_running_jobs
        = 2
    ∧ JobMap.occupiedSlots
        ((Create 2 true 0).run [.resolve exampleRequest, .startRace exampleKey]).jobs_ = 2
    ∧ ((Create 2 true 0).run
        [.resolve exampleRequest, .startRace exampleKey,
          .resolve { exampleRequest with host := .name "example.org" }]).dispatcher_.num_running_jobs
        = 2
    ∧ ((Create 2 true 0).run
        [.resolve exampleRequest, .startRace exampleKey,
          .resolve { exampleRequest with host := .name "example.org" }]).dispatcher_.queue.length
        = 1 := by
  decide

/-- C5: in every reachable state of a manager created with a dispatcher limit,
the number of running dispatcher jobs is the number of slots the jobs occupy
(two for a job that races a secure and an insecure query) and does not exceed
the limit, which never changes. -/
theorem running_jobs_within_limit (limit : Nat) (enable_caching : Bool) (target_network : Nat)
    (events : List Event) :
    ((Create limit enable_caching target_network).run events).dispatcher_.num_running_jobs ≤ limit
    ∧ ((Create limit enable_caching target_network).run events).dispatcher_.max_running_jobs = limit
    ∧ ((Create limit enable_caching target_network).run events).dispatcher_.num_running_jobs
        = JobMap.occupiedSlots ((Create limit enable_caching target_network).run events).jobs_ := by
  have h := @run_invariant limit events _ (Create_invariant limit enable_caching target_network)
  have h1 := h.running_le
  have h2 := h.limit_eq
  exact ⟨by omega, h2, h.running_eq⟩



/-! ### Terminal callbacks -/

theorem DispatchQueue_callbacks (queue : List (Nat × JobKey)) :
    ∀ m : Manager, (DispatchQueue m queue).callbacks = m.callbacks := by
  induction queue with
  | nil => intro m; rfl
  | cons e rest ih =>
    intro m
    obtain ⟨p, k⟩ := e
    unfold DispatchQueue
    split
    · split
      · rw [ih]; rfl
      · exact ih m
    · rfl

theorem CompleteJobs_delivers (entry : Entry) (k : JobKey) (job : Job) (request : Nat)
    (hr : request ∈ job.requests.map Prod.fst) (keys : List JobKey) :
    ∀ m : Manager, JobMap.find m.jobs_ k = some job → k ∈ keys →
      (request, entry) ∈ (CompleteJobs m entry keys).callbacks := by
  induction keys with
  | nil => intro m _ hk; simp at hk
  | cons k' rest ih =>
    intro m hf hk
    by_cases hkk : k' = k
    · subst hkk
      exact (CompleteJobs_extends entry rest _).callbacks_kept.subset
        (CompleteJob_delivers m k' entry job request hf hr)
    · have hk' : k ∈ rest := by
        rcases List.mem_cons.mp hk with h | h
        · exact absurd h.symm hkk
        · exact h
      apply ih _ _ hk'
      unfold CompleteJob
      split
      · simp only [JobMap.find_erase_ne _ _ _ (Ne.symm hkk), hf]
      · exact hf

theorem Manager.Invariant.callbackCount_of_mem {limit : Nat} {m : Manager}
    (h : m.Invariant limit) (request : Nat) (entry : Entry)
    (hmem : (request, entry) ∈ m.callbacks) : m.callbackCount request = 1 :=
  List.count_eq_one_of_mem (List.Nodup.of_append_left h.requests_nodup)
    (List.mem_map.mpr ⟨_, hmem, rfl⟩)

theorem Manager.Extends.callbackCount_le {m m' : Manager} (h : m.Extends m') (request : Nat) :
    m.callbackCount request ≤ m'.callbackCount request := by
  obtain ⟨t, ht⟩ := h.callbacks_kept
  simp only [Manager.callbackCount, ← ht, List.map_append, List.count_append]
  omega

/-! ### No request is lost -/

theorem JobMap.mem_attachedRequests_add_of_mem (jobs : JobMap) (k : JobKey)
    (request priority r : Nat) (h : r ∈ JobMap.attachedRequests jobs) :
    r ∈ JobMap.attachedRequests (JobMap.modify jobs k (fun j => j.AddRequest request priority)) := by
  induction jobs with
  | nil => simp [JobMap.attachedRequests] at h
  | cons p rest ih =>
    obtain ⟨k0, j0⟩ := p
    by_cases hk : k0 = k
    · simp only [JobMap.modify, hk, if_true, JobMap.attachedRequests, List.mem_append,
        Job.AddRequest, List.map_append, List.map_cons, List.map_nil, List.mem_singleton] at h ⊢
      rcases h with h | h
      · exact Or.inl (Or.inl h)
      · exact Or.inr (ih h)
    · simp only [JobMap.modify, hk, if_false, JobMap.attachedRequests, List.mem_append] at h ⊢
      rcases h with h | h
      · exact Or.inl h
      · exact Or.inr (ih h)

theorem JobMap.mem_attachedRequests_cancel (jobs : JobMap) (request other : Nat)
    (hne : other ≠ request) (h : other ∈ JobMap.attachedRequests jobs) :
    other ∈ JobMap.attachedRequests (jobs.map (fun p =>
      (p.1, { p.2 with requests := p.2.requests.filter (fun r => decide (r.1 ≠ request)) }))) := by
  induction jobs with
  | nil => simp [JobMap.attachedRequests] at h
  | cons p rest ih =>
    obtain ⟨k0, j0⟩ := p
    simp only [JobMap.attachedRequests, List.map_cons, List.mem_append] at h ⊢
    rcases h with h | h
    · left
      obtain ⟨q, hq, rfl⟩ := List.mem_map.mp h
      exact List.mem_map.mpr ⟨q, List.mem_filter.mpr ⟨hq, by simpa using hne⟩, rfl⟩
    · exact Or.inr (ih h)

theorem Manager.Notifies.notifies_refl (m : Manager) : m.Notifies m where
  kept := Manager.Extends.refl m
  notified := fun _ h => Or.inl h

theorem Manager.Notifies.notifies_trans {m1 m2 m3 : Manager} (h12 : m1.Notifies m2)
    (h23 : m2.Notifies m3) : m1.Notifies m3 where
  kept := h12.kept.trans h23.kept
  notified := fun r hr => by
    rcases h12.notified r hr with h | h
    · exact h23.notified r h
    · exact Or.inr (List.map_subset _ h23.kept.callbacks_kept.subset h)

theorem Manager.Notifies.notifies_of_attached {m m' : Manager} (hext : m.Extends m')
    (h : ∀ r ∈ JobMap.attachedRequests m.jobs_, r ∈ JobMap.attachedRequests m'.jobs_) :
    m.Notifies m' where
  kept := hext
  notified := fun r hr => Or.inl (h r hr)

theorem Manager.Notifies.notifies_of_modify {m m' : Manager} (k : JobKey) (f : Job → Job)
    (hreq : ∀ j, (f j).requests = j.requests) (hj : m'.jobs_ = JobMap.modify m.jobs_ k f)
    (hn : m'.next_request = m.next_request) (hc : m'.callbacks = m.callbacks) : m.Notifies m' :=
  Manager.Notifies.notifies_of_attached (Manager.Extends.of_modify k f hreq hj hn hc)
    (fun r hr => by rw [hj, JobMap.attachedRequests_modify _ _ _ hreq]; exact hr)

theorem Manager.Notifies.notifies_of_same_jobs {m m' : Manager} (hj : m'.jobs_ = m.jobs_)
    (hn : m'.next_request = m.next_request) (hc : m'.callbacks = m.callbacks) : m.Notifies m' :=
  Manager.Notifies.notifies_of_attached
    (Manager.Extends.of_subset hn (fun r hr => by rw [hj] at hr; exact hr) hc)
    (fun r hr => by rw [hj]; exact hr)

theorem GrantSlot_notifies (m : Manager) (k : JobKey) : m.Notifies (GrantSlot m k) :=
  Manager.Notifies.notifies_of_modify k
    (fun j => { j with num_occupied_job_slots := j.num_occupied_job_slots + 1 })
    (fun _ => rfl) rfl rfl rfl

theorem RequestSlot_notifies (m : Manager) (k : JobKey) (priority : Nat) :
    m.Notifies (RequestSlot m k priority) := by
  unfold RequestSlot
  split
  · split
    · exact GrantSlot_notifies m k
    · exact Manager.Notifies.notifies_refl m
  · exact Manager.Notifies.notifies_of_same_jobs rfl rfl rfl

theorem DispatchQueue_notifies (queue : List (Nat × JobKey)) :
    ∀ m : Manager, m.Notifies (DispatchQueue m queue) := by
  induction queue with
  | nil => intro m; exact Manager.Notifies.notifies_of_same_jobs rfl rfl rfl
  | cons e rest ih =>
    intro m
    obtain ⟨p, k⟩ := e
    unfold DispatchQueue
    split
    · split
      · exact (GrantSlot_notifies m k).notifies_trans (ih _)
      · exact ih m
    · exact Manager.Notifies.notifies_of_same_jobs rfl rfl rfl

theorem MaybeDispatchJobs_notifies (m : Manager) : m.Notifies (MaybeDispatchJobs m) :=
  DispatchQueue_notifies _ m

theorem ReleaseSlots_notifies (m : Manager) (k : JobKey) : m.Notifies (ReleaseSlots m k) := by
  unfold ReleaseSlots
  split
  · exact Manager.Notifies.notifies_of_modify k (fun j => { j with num_occupied_job_slots := 0 })
      (fun _ => rfl) rfl rfl rfl
  · exact Manager.Notifies.notifies_refl m

theorem CompleteJob_notifies {limit : Nat} {m : Manager} (h : m.Invariant limit) (k : JobKey)
    (entry : Entry) : m.Notifies (CompleteJob m k entry) where
  kept := CompleteJob_extends m k entry
  notified := fun r hr => by
    cases hf : JobMap.find m.jobs_ k with
    | none => simp only [CompleteJob, hf]; exact Or.inl hr
    | some job =>
      have hp := (JobMap.attachedRequests_erase m.jobs_ k job h.keys_nodup hf).subset hr
      simp only [CompleteJob, hf]
      rcases List.mem_append.mp hp with h1 | h1
      · obtain ⟨q, hq, rfl⟩ := List.mem_map.mp h1
        exact Or.inr (List.mem_map.mpr ⟨(q.1, entry),
          List.mem_append_right _ (List.mem_map.mpr ⟨q, hq, rfl⟩), rfl⟩)
      · exact Or.inl h1

theorem StartNextTask_notifies {limit : Nat} {m : Manager} (h : m.Invariant limit) (k : JobKey)
    (tasks : List TaskType) (error : NetError) : m.Notifies (StartNextTask m k tasks error) := by
  unfold StartNextTask
  split
  · simp only
    split
    · exact (ReleaseSlots_notifies m k).notifies_trans (CompleteJob_notifies (ReleaseSlots_invariant h k) k _)
    · exact (ReleaseSlots_notifies m k).notifies_trans (CompleteJob_notifies (ReleaseSlots_invariant h k) k _)
    · next t residual _ =>
      refine (ReleaseSlots_notifies m k).notifies_trans
        (Manager.Notifies.notifies_trans ?_ (RequestSlot_notifies _ k _))
      exact Manager.Notifies.notifies_of_modify k (fun j => { j with tasks := t :: residual })
        (fun _ => rfl) rfl rfl rfl
  · exact Manager.Notifies.notifies_refl m

theorem CacheResult_notifies (m : Manager) (k : JobKey) (cache_usage : CacheUsage) (secure : Bool)
    (entry : Entry) : m.Notifies (CacheResult m k cache_usage secure entry) := by
  unfold CacheResult
  split
  · split
    · exact Manager.Notifies.notifies_refl m
    · exact Manager.Notifies.notifies_of_same_jobs rfl rfl rfl
  · exact Manager.Notifies.notifies_refl m

theorem OnTaskComplete_notifies {limit : Nat} {m : Manager} (h : m.Invariant limit) (k : JobKey)
    (outcome : TaskOutcome) : m.Notifies (OnTaskComplete m k outcome) := by
  unfold OnTaskComplete
  split
  · split
    · exact Manager.Notifies.notifies_refl m
    · split
      · exact ((CacheResult_notifies m k _ _ _).notifies_trans
          (CompleteJob_notifies (CacheResult_invariant h k _ _ _) k _)).notifies_trans
          (MaybeDispatchJobs_notifies _)
      · split
        · exact (StartNextTask_notifies h k _ _).notifies_trans (MaybeDispatchJobs_notifies _)
        · exact (CompleteJob_notifies h k _).notifies_trans (MaybeDispatchJobs_notifies _)
  · exact Manager.Notifies.notifies_refl m

theorem StartRace_notifies (m : Manager) (k : JobKey) : m.Notifies (StartRace m k) := by
  unfold StartRace
  split
  · split
    · exact Manager.Notifies.notifies_of_modify k (fun j => { j with num_occupied_job_slots := 2 })
        (fun _ => rfl) rfl rfl rfl
    · exact Manager.Notifies.notifies_refl m
  · exact Manager.Notifies.notifies_refl m

theorem EndRace_notifies (m : Manager) (k : JobKey) : m.Notifies (EndRace m k) := by
  unfold EndRace
  split
  · split
    · refine Manager.Notifies.notifies_trans ?_ (MaybeDispatchJobs_notifies _)
      exact Manager.Notifies.notifies_of_modify k (fun j => { j with num_occupied_job_slots := 1 })
        (fun _ => rfl) rfl rfl rfl
    · exact Manager.Notifies.notifies_refl m
  · exact Manager.Notifies.notifies_refl m

theorem Resolve_notifies (m : Manager) (r : RequestParams) : m.Notifies (Resolve m r).1 where
  kept := Resolve_extends m r
  notified := fun x hx => by
    unfold Resolve
    simp only
    split
    · exact Or.inl hx
    · split
      · exact Or.inl (JobMap.mem_attachedRequests_add_of_mem _ _ _ _ _ hx)
      · next hf =>
        unfold CreateAndStartJob
        simp only
        apply (RequestSlot_notifies _ _ _).notified
        simp only [JobMap.emplace, hf, JobMap.attachedRequests_append]
        exact List.mem_append_left _ hx

theorem CompleteJobs_notifies {limit : Nat} (entry : Entry) (keys : List JobKey) :
    ∀ {m : Manager}, m.Invariant limit → m.Notifies (CompleteJobs m entry keys) := by
  induction keys with
  | nil => intro m _; exact Manager.Notifies.notifies_refl m
  | cons k rest ih =>
    intro m h
    exact (CompleteJob_notifies h k entry).notifies_trans (ih (CompleteJob_invariant h k entry))

theorem AbortInsecureDnsTask_notifies {limit : Nat} {m : Manager} (h : m.Invariant limit)
    (error : NetError) (k : JobKey) : m.Notifies (AbortInsecureDnsTask m error k) := by
  unfold AbortInsecureDnsTask
  split
  · split
    · split
      · exact StartNextTask_notifies h k _ _
      · exact CompleteJob_notifies h k _
    · exact Manager.Notifies.notifies_refl m
  · exact Manager.Notifies.notifies_refl m

theorem AbortInsecureDnsTasks_notifies {limit : Nat} (error : NetError) (keys : List JobKey) :
    ∀ {m : Manager}, m.Invariant limit → m.Notifies (AbortInsecureDnsTasks m error keys) := by
  induction keys with
  | nil => intro m _; exact Manager.Notifies.notifies_refl m
  | cons k rest ih =>
    intro m h
    exact (AbortInsecureDnsTask_notifies h error k).notifies_trans
      (ih (AbortInsecureDnsTask_invariant h error k))

theorem step_notifies {limit : Nat} {m : Manager} (h : m.Invariant limit) (e : Event)
    (hdestroy : e ≠ .destroy) (hcancel : ∀ request : Nat, e ≠ .cancel request) :
    m.Notifies (m.step e) := by
  unfold Manager.step
  split
  · exact Manager.Notifies.notifies_refl m
  · cases e with
    | resolve r => exact Resolve_notifies m r
    | cancel request => exact absurd rfl (hcancel request)
    | taskComplete k outcome => exact OnTaskComplete_notifies h k outcome
    | startRace k => exact StartRace_notifies m k
    | endRace k => exact EndRace_notifies m k
    | deregisterContext context =>
      exact (CompleteJobs_notifies _ _ h).notifies_trans (MaybeDispatchJobs_notifies _)
    | invalidateCaches =>
      have h0 : Manager.Invariant limit { m with last_ipv6_probe_result_ := true } :=
        h.congr rfl rfl rfl rfl rfl
      refine Manager.Notifies.notifies_trans ?_
        ((AbortInsecureDnsTasks_notifies _ _ h0).notifies_trans (MaybeDispatchJobs_notifies _))
      exact Manager.Notifies.notifies_of_same_jobs rfl rfl rfl
    | setDnsConfig a b c d e f => exact Manager.Notifies.notifies_of_same_jobs rfl rfl rfl
    | setIPv6ProbeResult reachable => exact Manager.Notifies.notifies_of_same_jobs rfl rfl rfl
    | destroy => exact absurd rfl hdestroy

theorem step_keeps_or_notifies {limit : Nat} {m : Manager} (h : m.Invariant limit) (e : Event)
    (request : Nat) (hdestroy : e ≠ .destroy) (hcancel : e ≠ .cancel request)
    (hr : request ∈ JobMap.attachedRequests m.jobs_) :
    request ∈ JobMap.attachedRequests (m.step e).jobs_
      ∨ request ∈ (m.step e).callbacks.map Prod.fst := by
  by_cases hc : ∃ other : Nat, e = .cancel other
  · obtain ⟨other, rfl⟩ := hc
    have hne : request ≠ other := fun e => hcancel (by rw [e])
    unfold Manager.step
    split
    · exact Or.inl hr
    · exact Or.inl (JobMap.mem_attachedRequests_cancel m.jobs_ other request hne hr)
  · exact (step_notifies h e hdestroy (fun other e' => hc ⟨other, e'⟩)).notified request hr

theorem run_keeps_or_notifies {limit : Nat} (request : Nat) (later : List Event)
    (hdestroy : Event.destroy ∉ later) (hcancel : Event.cancel request ∉ later) :
    ∀ {m : Manager}, m.Invariant limit → request ∈ JobMap.attachedRequests m.jobs_ →
      request ∈ JobMap.attachedRequests (m.run later).jobs_
        ∨ request ∈ (m.run later).callbacks.map Prod.fst := by
  induction later with
  | nil => intro m _ hr; exact Or.inl hr
  | cons e rest ih =>
    intro m h hr
    have hd : e ≠ .destroy := fun e' => hdestroy (by rw [e']; exact List.mem_cons_self _ _)
    have hc : e ≠ .cancel request := fun e' => hcancel (by rw [e']; exact List.mem_cons_self _ _)
    have hd' : Event.destroy ∉ rest := fun h' => hdestroy (List.mem_cons_of_mem _ h')
    have hc' : Event.cancel request ∉ rest := fun h' => hcancel (List.mem_cons_of_mem _ h')
    rcases step_keeps_or_notifies h e request hd hc hr with h1 | h1
    · exact ih hd' hc' (step_invariant h e) h1
    · exact Or.inr (List.map_subset _ (run_extends rest (m.step e)).callbacks_kept.subset h1)

theorem AbortInsecureDnsTasks_delivers (error : NetError) (k : JobKey) (job : Job)
    (request : Nat) (hr : request ∈ job.requests.map Prod.fst)
    (hslots : 0 < job.num_occupied_job_slots) (hhead : job.tasks.head? = some TaskType.DNS)
    (hnext : job.tasks.tail.head? ≠ some TaskType.PROC) (keys : List JobKey) :
    ∀ m : Manager, JobMap.find m.jobs_ k = some job → k ∈ keys →
      (request, { error := error, addresses := [] })
        ∈ (AbortInsecureDnsTasks m error keys).callbacks := by
  induction keys with
  | nil => intro m _ hk; simp at hk
  | cons k' rest ih =>
    intro m hf hk
    by_cases hkk : k' = k
    · subst hkk
      have hstep : AbortInsecureDnsTask m error k'
          = CompleteJob m k' { error := error, addresses := [] } := by
        simp only [AbortInsecureDnsTask, hf, hslots, hhead, hnext, and_self, if_true, if_false]
      show (request, _) ∈ (AbortInsecureDnsTasks (AbortInsecureDnsTask m error k') error rest).callbacks
      rw [hstep]
      exact (AbortInsecureDnsTasks_extends error rest _).callbacks_kept.subset
        (CompleteJob_delivers m k' _ job request hf hr)
    · have hk' : k ∈ rest := by
        rcases List.mem_cons.mp hk with h | h
        · exact absurd h.symm hkk
        · exact h
      apply ih _ _ hk'
      rw [AbortInsecureDnsTask_find_other _ _ _ _ (Ne.symm hkk)]
      exact hf

theorem never_notified_once_detached {m : Manager} (request : Nat)
    (hlt : request < m.next_request) (hna : request ∉ JobMap.attachedRequests m.jobs_)
    (hnc : request ∉ m.callbacks.map Prod.fst) (later : List Event) :
    (m.run later).callbackCount request = 0 := by
  apply List.count_eq_zero_of_not_mem
  intro h
  rcases (run_follows later m).notified_from request h with h1 | h1 | h1
  · exact hnc h1
  · exact hna h1
  · exact Nat.lt_irrefl _ (Nat.lt_of_lt_of_le hlt h1)

/-- C6, as stated, fails: a request attached to a job receives no callback when
the manager is destroyed while the job is pending, whatever happens later; nor
does a request that its caller cancels while it is attached. -/
theorem destroyed_manager_drops_callbacks :
    0 ∈ JobMap.attachedRequests ((Create 1 true 0).run [.resolve exampleRequest]).jobs_
    ∧ (∀ later : List Event,
        ((Create 1 true 0).run ([.resolve exampleRequest, .destroy] ++ later)).callbackCount 0
          = 0)
    ∧ (∀ later : List Event,
        ((Create 1 true 0).run ([.resolve exampleRequest, .cancel 0] ++ later)).callbackCount 0
          = 0) := by
  refine ⟨by decide, fun later => ?_, fun later => ?_⟩
  · rw [run_append, run_destroyed later _ (by decide)]
    decide
  · rw [run_append]
    exact never_notified_once_detached 0 (by decide) (by decide) (by decide) later

/-- C6, amended: in every reachable state a request has received at most one
terminal callback, and none while it is attached to a job; a callback once
received stays the only one.  A request that is attached to a job and, after a
run in which the manager is not destroyed and the request is not cancelled, is
attached no more has received exactly one callback, whatever made it leave the
job.  In particular, while the manager is alive, the request receives exactly one
callback with the job's result when the running task of its job succeeds, when it
fails terminally (the error is not retryable, or no task is left), when
`InvalidateCaches` aborts the job's insecure DNS task and no system-resolver
task follows (ERR_NETWORK_CHANGED), and when the job's context is deregistered
(ERR_ABORTED).  A request that its caller cancels receives no callback; once
the manager is destroyed no callback is delivered any more, so a request pending
at destruction receives none. -/
theorem request_notified_at_most_once (limit : Nat) (enable_caching : Bool)
    (target_network : Nat) (events : List Event) (m : Manager) (request : Nat)
    (hm : m = (Create limit enable_caching target_network).run events) :
    m.callbackCount request ≤ 1
    ∧ (request ∈ JobMap.attachedRequests m.jobs_ → m.callbackCount request = 0)
    ∧ (∀ later : List Event, m.callbackCount request = 1 →
        (m.run later).callbackCount request = 1)
    ∧ (∀ later : List Event, request ∈ JobMap.attachedRequests m.jobs_ →
        Event.destroy ∉ later → Event.cancel request ∉ later →
        request ∉ JobMap.attachedRequests (m.run later).jobs_ →
        (m.run later).callbackCount request = 1)
    ∧ (∀ (k : JobKey) (job : Job), m.destroyed = false → JobMap.find m.jobs_ k = some job →
        request ∈ job.requests.map Prod.fst →
        (0 < job.num_occupied_job_slots → ∀ entry : Entry,
          (request, entry) ∈ (m.step (.taskComplete k (.success entry))).callbacks
          ∧ (m.step (.taskComplete k (.success entry))).callbackCount request = 1)
        ∧ (0 < job.num_occupied_job_slots → ∀ (error : NetError) (retryable : Bool),
          retryable = false ∨ job.tasks.tail = [] →
          (request, { error := error, addresses := [] })
            ∈ (m.step (.taskComplete k (.failure error retryable))).callbacks
          ∧ (m.step (.taskComplete k (.failure error retryable))).callbackCount request = 1)
        ∧ (0 < job.num_occupied_job_slots → job.tasks.head? = some TaskType.DNS →
          job.tasks.tail.head? ≠ some TaskType.PROC →
          (request, { error := .ERR_NETWORK_CHANGED, addresses := [] })
            ∈ (m.step .invalidateCaches).callbacks
          ∧ (m.step .invalidateCaches).callbackCount request = 1)
        ∧ (request, { error := .ERR_ABORTED, addresses := [] })
            ∈ (m.step (.deregisterContext k.resolve_context)).callbacks
        ∧ (m.step (.deregisterContext k.resolve_context)).callbackCount request = 1)
    ∧ (∀ later : List Event, m.destroyed = false →
        request ∈ JobMap.attachedRequests m.jobs_ →
        ((m.step (.cancel request)).run later).callbackCount request = 0)
    ∧ (∀ later : List Event, ((m.step .destroy).run later).callbacks = m.callbacks) := by
  have hinv : m.Invariant limit := by rw [hm]; exact run_invariant _ (Create_invariant _ _ _)
  have hnd := hinv.requests_nodup
  refine ⟨?_, ?_, ?_, ?_, ?_, ?_, ?_⟩
  · exact List.nodup_iff_count_le_one.mp (List.Nodup.of_append_left hnd) request
  · intro hatt
    have hdis := List.disjoint_of_nodup_append hnd
    exact List.count_eq_zero_of_not_mem (fun hc => hdis hc hatt)
  · intro later h1
    have hle := (run_extends later m).callbackCount_le request
    have hinv' : (m.run later).Invariant limit := run_invariant later hinv
    have hle' := List.nodup_iff_count_le_one.mp
      (List.Nodup.of_append_left hinv'.requests_nodup) request
    simp only [Manager.callbackCount] at hle h1 ⊢
    omega
  · intro later hatt hdestroy hcancel hgone
    have hinv' : (m.run later).Invariant limit := run_invariant later hinv
    rcases run_keeps_or_notifies request later hdestroy hcancel hinv hatt with h | h
    · exact absurd h hgone
    · exact List.count_eq_one_of_mem (List.Nodup.of_append_left hinv'.requests_nodup) h
  · intro k job halive hf hr
    refine ⟨?_, ?_, ?_, ?_⟩
    · intro hslots entry
      have hmem : (request, entry) ∈ (m.step (.taskComplete k (.success entry))).callbacks := by
        have hne : job.num_occupied_job_slots ≠ 0 := Nat.pos_iff_ne_zero.mp hslots
        simp only [Manager.step, halive, Bool.false_eq_true, if_false, OnTaskComplete, hf, hne,
          MaybeDispatchJobs, DispatchQueue_callbacks]
        apply CompleteJob_delivers _ k entry job request _ hr
        unfold CacheResult
        split
        · split
          · exact hf
          · exact hf
        · exact hf
      exact ⟨hmem, (step_invariant hinv _).callbackCount_of_mem request _ hmem⟩
    · intro hslots error retryable hterminal
      have hmem : (request, { error := error, addresses := [] })
          ∈ (m.step (.taskComplete k (.failure error retryable))).callbacks := by
        have hne : job.num_occupied_job_slots ≠ 0 := Nat.pos_iff_ne_zero.mp hslots
        have hcond : (retryable && !job.tasks.tail.isEmpty) = false := by
          rcases hterminal with h | h
          · simp [h]
          · simp [h]
        simp only [Manager.step, halive, Bool.false_eq_true, if_false, OnTaskComplete, hf, hne,
          hcond, MaybeDispatchJobs, DispatchQueue_callbacks]
        exact CompleteJob_delivers _ k _ job request hf hr
      exact ⟨hmem, (step_invariant hinv _).callbackCount_of_mem request _ hmem⟩
    · intro hslots hhead hnext
      have hmem : (request, { error := .ERR_NETWORK_CHANGED, addresses := [] })
          ∈ (m.step .invalidateCaches).callbacks := by
        simp only [Manager.step, halive, Bool.false_eq_true, if_false, InvalidateCaches,
          MaybeDispatchJobs, DispatchQueue_callbacks]
        exact AbortInsecureDnsTasks_delivers _ k job request hr hslots hhead hnext _ _ hf
          (List.mem_map.mpr ⟨(k, job), JobMap.find_some_mem _ _ _ hf, rfl⟩)
      exact ⟨hmem, (step_invariant hinv _).callbackCount_of_mem request _ hmem⟩
    · have hmem : (request, { error := .ERR_ABORTED, addresses := [] })
          ∈ (m.step (.deregisterContext k.resolve_context)).callbacks := by
        simp only [Manager.step, halive, Bool.false_eq_true, if_false, DeregisterResolveContext,
          MaybeDispatchJobs, DispatchQueue_callbacks]
        apply CompleteJobs_delivers _ k job request hr _ m hf
        exact List.mem_map.mpr ⟨(k, job),
          List.mem_filter.mpr ⟨JobMap.find_some_mem _ _ _ hf, by simp⟩, rfl⟩
      exact ⟨hmem, (step_invariant hinv _).callbackCount_of_mem request _ hmem⟩
  · intro later halive hatt
    have hs : m.step (.cancel request) = CancelRequest m request := by
      simp [Manager.step, halive]
    rw [hs]
    refine never_notified_once_detached request ?_ ?_ ?_ later
    · exact hinv.requests_lt _ (List.mem_append_right _ hatt)
    · exact JobMap.not_mem_attachedRequests_cancel m.jobs_ request
    · exact fun hc => List.disjoint_of_nodup_append hnd hc hatt
  · intro later
    by_cases hd : m.destroyed = true
    · have hs : m.step .destroy = m := by simp [Manager.step, hd]
      rw [hs, run_destroyed later m hd]
    · have hs : m.step .destroy = Destroy m := by simp [Manager.step, hd]
      rw [hs, run_destroyed later (Destroy m) rfl]
      rfl

/-- Witness of C6: the request of a job that runs on a fresh manager is notified
once when the task of the job succeeds; and the request of a job that runs an
insecure DNS task without a system-resolver fallback is notified with
ERR_NETWORK_CHANGED when the caches are invalidated. -/
theorem request_notified_at_most_once_witness :
    ((Create 1 true 0).run [.resolve exampleRequest]).callbackCount 0 ≤ 1
    ∧ (((Create 1 true 0).run [.resolve exampleRequest]).step
        (.taskComplete exampleKey
          (.success { error := .OK, addresses := [{ bytes := [93, 184, 216, 34] }] }))).callbackCount 0
        = 1
    ∧ (0, { error := .ERR_NETWORK_CHANGED, addresses := [] })
        ∈ (((Create 1 true 0).run
            [.setDnsConfig true .off true false [] [], .resolve exampleRequest]).step
            .invalidateCaches).callbacks :=
  ⟨(request_notified_at_most_once 1 true 0 [.resolve exampleRequest] _ 0 rfl).1,
   ((request_notified_at_most_once 1 true 0 [.resolve exampleRequest] _ 0 rfl).2.2.2.2.1
      exampleKey
      { tasks := [.PROC], requests := [(0, 2)], cache_usage := .ALLOWED,
        num_occupied_job_slots := 1 }
      (by decide) (by decide) (by decide)).1 (by decide) _ |>.2,
   ((request_notified_at_most_once 1 true 0
      [.setDnsConfig true .off true false [] [], .resolve exampleRequest] _ 0 rfl).2.2.2.2.1
      exampleKey
      { tasks := [.DNS], requests := [(0, 2)], cache_usage := .ALLOWED,
        num_occupied_job_slots := 1 }
      (by decide) (by decide) (by decide)).2.2.1 (by decide) (by decide) (by decide) |>.1⟩

end HostResolverManager

namespace SimplePathBuilderDelegate

/-! ### Acceptable signature algorithms and public keys -/

/-- C11: `IsSignatureAlgorithmAcceptable` never adds an error; it accepts the two
SHA-1 algorithms exactly when the digest policy is `kWeakAllowSha1`, accepts the
nine SHA-256/384/512 algorithms (RSA PKCS#1, ECDSA, RSA-PSS) under either
policy, and rejects `kRsaPkcs1Md2`, `kRsaPkcs1Md4`, `kRsaPkcs1Md5`, `kDsaSha1` and
`kDsaSha256` under either policy; these sixteen are all the algorithms. -/
theorem signature_algorithm_acceptance (d : Delegate) (algorithm : SignatureAlgorithm)
    (errors : CertErrors) :
    (IsSignatureAlgorithmAcceptable d algorithm errors).2 = errors
    ∧ (algorithm ∈ [SignatureAlgorithm.kRsaPkcs1Sha1, .kEcdsaSha1] →
        ((IsSignatureAlgorithmAcceptable d algorithm errors).1 = true
          ↔ d.digest_policy_ = .kWeakAllowSha1))
    ∧ (algorithm ∈ [SignatureAlgorithm.kRsaPkcs1Sha256, .kRsaPkcs1Sha384, .kRsaPkcs1Sha512,
          .kEcdsaSha256, .kEcdsaSha384, .kEcdsaSha512, .kRsaPssSha256, .kRsaPssSha384,
          .kRsaPssSha512] →
        (IsSignatureAlgorithmAcceptable d algorithm errors).1 = true)
    ∧ (algorithm ∈ [SignatureAlgorithm.kRsaPkcs1Md2, .kRsaPkcs1Md4, .kRsaPkcs1Md5, .kDsaSha1,
          .kDsaSha256] →
        (IsSignatureAlgorithmAcceptable d algorithm errors).1 = false)
    ∧ algorithm ∈ [SignatureAlgorithm.kRsaPkcs1Sha1, .kEcdsaSha1, .kRsaPkcs1Sha256,
          .kRsaPkcs1Sha384, .kRsaPkcs1Sha512, .kEcdsaSha256, .kEcdsaSha384, .kEcdsaSha512,
          .kRsaPssSha256, .kRsaPssSha384, .kRsaPssSha512, .kRsaPkcs1Md2, .kRsaPkcs1Md4,
          .kRsaPkcs1Md5, .kDsaSha1, .kDsaSha256] := by
  cases algorithm <;> simp [IsSignatureAlgorithmAcceptable]

/-- C12: for an RSA key with a modulus of `b` bits and a delegate constructed with
minimum `m`, `IsPublicKeyAcceptable` returns true if and only if `b >= m`; when
`b < m` it returns false and adds exactly one error, `kRsaModulusTooSmall` ("RSA
modulus too small"), whose parameters render as "actual: b" and "minimum: m";
when `b >= m` it adds no error. -/
theorem rsa_key_acceptance (m b : Nat) (digest_policy : DigestPolicy) (errors : CertErrors) :
    ((IsPublicKeyAcceptable { min_rsa_modulus_length_bits_ := m, digest_policy_ := digest_policy }
        (.rsa (some { bits := b })) errors).1 = true ↔ m ≤ b)
    ∧ (b < m →
        IsPublicKeyAcceptable { min_rsa_modulus_length_bits_ := m, digest_policy_ := digest_policy }
            (.rsa (some { bits := b })) errors
          = (false, errors ++ [{ id := kRsaModulusTooSmall,
                                 params := some (.SizeT2 "actual" b "minimum" m) }]))
    ∧ (m ≤ b →
        IsPublicKeyAcceptable { min_rsa_modulus_length_bits_ := m, digest_policy_ := digest_policy }
            (.rsa (some { bits := b })) errors
          = (true, errors))
    ∧ (CertErrorParams.SizeT2 "actual" b "minimum" m).ToDebugString
        = "actual: " ++ NumberToString b ++ "\n" ++ "minimum: " ++ NumberToString m
    ∧ kRsaModulusTooSmall = "RSA modulus too small" := by
  refine ⟨?_, ?_, ?_, ?_, rfl⟩
  · by_cases h : b < m
    · simp [IsPublicKeyAcceptable, h]
    · simp [IsPublicKeyAcceptable, h, Nat.le_of_not_lt h]
  · intro h
    simp [IsPublicKeyAcceptable, h, CertErrors.AddError, CreateCertErrorParams2SizeT]
  · intro h
    simp [IsPublicKeyAcceptable, Nat.not_lt.mpr h]
  · simp [CertErrorParams.ToDebugString, String.append_assoc]

/-- A 1024-bit RSA key under a minimum of 2048 bits is rejected with one error
that renders as "actual: 1024" and "minimum: 2048"; a 2048-bit key is accepted
with no error. -/
theorem rsa_key_acceptance_example :
    IsPublicKeyAcceptable { min_rsa_modulus_length_bits_ := 2048, digest_policy_ := .kStrong }
        (.rsa (some { bits := 1024 })) []
      = (false, [{ id := "RSA modulus too small",
                   params := some (.SizeT2 "actual" 1024 "minimum" 2048) }])
    ∧ (CertErrorParams.SizeT2 "actual" 1024 "minimum" 2048).ToDebugString
      = "actual: 1024\nminimum: 2048"
    ∧ IsPublicKeyAcceptable { min_rsa_modulus_length_bits_ := 2048, digest_policy_ := .kStrong }
        (.rsa (some { bits := 2048 })) []
      = (true, []) := by
  decide

/-- C13: for an EC key, `IsPublicKeyAcceptable` returns true if and only if the
curve of the key is P-256, P-384 or P-521, and then adds no error; for any other
curve it returns false and adds exactly one error,
`kUnacceptableCurveForEcdsa`; for a key that is neither RSA nor EC it returns
false and adds no error. -/
theorem ec_key_acceptance (d : Delegate) (curve_nid : Int) (errors : CertErrors) :
    ((IsPublicKeyAcceptable d (.ec (some { curve_name := curve_nid })) errors).1 = true
      ↔ (curve_nid = NID_X9_62_prime256v1 ∨ curve_nid = NID_secp384r1
          ∨ curve_nid = NID_secp521r1))
    ∧ ((curve_nid = NID_X9_62_prime256v1 ∨ curve_nid = NID_secp384r1
          ∨ curve_nid = NID_secp521r1) →
        IsPublicKeyAcceptable d (.ec (some { curve_name := curve_nid })) errors = (true, errors))
    ∧ (¬ (curve_nid = NID_X9_62_prime256v1 ∨ curve_nid = NID_secp384r1
          ∨ curve_nid = NID_secp521r1) →
        IsPublicKeyAcceptable d (.ec (some { curve_name := curve_nid })) errors
          = (false, errors ++ [{ id := kUnacceptableCurveForEcdsa, params := none }]))
    ∧ IsPublicKeyAcceptable d .other errors = (false, errors) := by
  have hcurve : IsAcceptableCurveForEcdsa curve_nid = true
      ↔ (curve_nid = NID_X9_62_prime256v1 ∨ curve_nid = NID_secp384r1
          ∨ curve_nid = NID_secp521r1) := by
    unfold IsAcceptableCurveForEcdsa
    split
    · simp [*]
    · split
      · simp [*]
      · split <;> simp [*]
  refine ⟨?_, ?_, ?_, rfl⟩
  · rw [← hcurve]
    cases h : IsAcceptableCurveForEcdsa curve_nid <;> simp [IsPublicKeyAcceptable, h]
  · intro h
    have h' := hcurve.mpr h
    simp [IsPublicKeyAcceptable, h']
  · intro h
    have h' : IsAcceptableCurveForEcdsa curve_nid = false := by
      cases hc : IsAcceptableCurveForEcdsa curve_nid
      · rfl
      · exact absurd (hcurve.mp hc) h
    simp [IsPublicKeyAcceptable, h', CertErrors.AddError]

/-- A P-384 key is accepted with no error, a key on the curve secp256k1 (714) is
rejected with one error, and a key whose RSA or EC part is missing is rejected
with no error. -/
theorem ec_key_acceptance_example :
    IsPublicKeyAcceptable { min_rsa_modulus_length_bits_ := 2048, digest_policy_ := .kStrong }
        (.ec (some { curve_name := 715 })) [] = (true, [])
    ∧ IsPublicKeyAcceptable { min_rsa_modulus_length_bits_ := 2048, digest_policy_ := .kStrong }
        (.ec (some { curve_name := 714 })) []
      = (false, [{ id := "Only P-256, P-384, P-521 are supported for ECDSA", params := none }])
    ∧ IsPublicKeyAcceptable { min_rsa_modulus_length_bits_ := 2048, digest_policy_ := .kStrong }
        (.ec none) [] = (false, [])
    ∧ IsPublicKeyAcceptable { min_rsa_modulus_length_bits_ := 2048, digest_policy_ := .kStrong }
        (.rsa none) [] = (false, []) := by
  decide

end SimplePathBuilderDelegate

namespace TrustStoreInMemory

/-! ### Lookup, trust and issuers -/

theorem mem_insert (s : TrustStoreInMemory) (position : Nat)
    (pair x : List Nat × TrustStoreInMemory.Entry) :
    x ∈ (s.insert position pair).entries_ ↔ x = pair ∨ x ∈ s.entries_ := by
  have h : x ∈ s.entries_ ↔ x ∈ s.entries_.take position ∨ x ∈ s.entries_.drop position := by
    rw [← List.mem_append, List.take_append_drop]
  simp only [insert, List.mem_append, List.mem_singleton, h]
  tauto

theorem run_keysAreSubjects (p : CertificateParser) (operations : List Operation) :
    KeysAreSubjects p (run p operations) := by
  have hgen : ∀ (ops : List Operation) (s : TrustStoreInMemory), KeysAreSubjects p s →
      KeysAreSubjects p (ops.foldl (apply p) s) := by
    intro ops
    induction ops with
    | nil => intro s h; exact h
    | cons op rest ih =>
      intro s h
      apply ih
      cases op with
      | add cert trust position =>
        intro kv hkv
        rcases (mem_insert s position _ kv).mp hkv with rfl | hold
        · rfl
        · exact h kv hold
      | clear => intro kv hkv; simp [apply, Clear] at hkv
  exact hgen operations empty (fun kv hkv => by simp [empty] at hkv)

theorem GetEntry_isSome_iff (p : CertificateParser) (s : TrustStoreInMemory)
    (cert : ParsedCertificate) :
    (GetEntry p s cert).isSome = true
      ↔ ∃ kv ∈ s.entries_, kv.1 = p.normalized_subject cert.der_cert
          ∧ kv.2.cert.der_cert = cert.der_cert := by
  simp only [GetEntry, equal_range, Option.isSome_map', List.find?_isSome, List.mem_filter,
    decide_eq_true_eq, Bool.or_eq_true]
  constructor
  · rintro ⟨kv, ⟨hmem, hkey⟩, hmatch⟩
    refine ⟨kv, hmem, hkey, ?_⟩
    rcases hmatch with h | h
    · rw [h]
    · exact h.symm
  · rintro ⟨kv, hmem, hkey, hder⟩
    exact ⟨kv, ⟨hmem, hkey⟩, Or.inr hder.symm⟩

theorem GetEntry_some (p : CertificateParser) (s : TrustStoreInMemory)
    (cert : ParsedCertificate) (entry : TrustStoreInMemory.Entry)
    (h : GetEntry p s cert = some entry) :
    ∃ kv ∈ s.entries_, kv.2 = entry ∧ kv.1 = p.normalized_subject cert.der_cert
      ∧ kv.2.cert.der_cert = cert.der_cert := by
  simp only [GetEntry, equal_range, Option.map_eq_some'] at h
  obtain ⟨kv, hfind, hkv⟩ := h
  have hmem := List.mem_of_find?_eq_some hfind
  have hmatch := List.find?_some hfind
  simp only [List.mem_filter, decide_eq_true_eq] at hmem
  simp only [Bool.or_eq_true, decide_eq_true_eq] at hmatch
  refine ⟨kv, hmem.1, hkv, hmem.2, ?_⟩
  rcases hmatch with h | h
  · rw [h]
  · exact h.symm

/-- C14: in every store built by calls, for every certificate `c`: `Contains(c)` is
true exactly when some stored certificate has the DER encoding of `c` (the
lookup by normalized subject misses none); if `Contains(c)` is false,
`GetTrust(c)` is `ForUnspecified()`; otherwise `GetTrust(c)` is the trust stored
with an entry whose certificate has the DER encoding of `c`. -/
theorem trust_of_contained_certificate (p : CertificateParser) (operations : List Operation)
    (s : TrustStoreInMemory) (c : ParsedCertificate) (hs : s = run p operations) :
    (Contains p s c = true ↔ ∃ kv ∈ s.entries_, kv.2.cert.der_cert = c.der_cert)
    ∧ (Contains p s c = false → GetTrust p s c = .ForUnspecified)
    ∧ (Contains p s c = true →
        ∃ kv ∈ s.entries_, kv.2.cert.der_cert = c.der_cert ∧ GetTrust p s c = kv.2.trust) := by
  have hkeys : KeysAreSubjects p s := by rw [hs]; exact run_keysAreSubjects p operations
  refine ⟨?_, ?_, ?_⟩
  · unfold Contains
    rw [GetEntry_isSome_iff]
    constructor
    · rintro ⟨kv, hmem, _, hder⟩
      exact ⟨kv, hmem, hder⟩
    · rintro ⟨kv, hmem, hder⟩
      exact ⟨kv, hmem, by rw [hkeys kv hmem, hder], hder⟩
  · intro h
    unfold Contains at h
    unfold GetTrust
    cases hg : GetEntry p s c with
    | none => rfl
    | some entry => rw [hg] at h; simp at h
  · intro h
    unfold Contains at h
    unfold GetTrust
    cases hg : GetEntry p s c with
    | none => rw [hg] at h; simp at h
    | some entry =>
      obtain ⟨kv, hmem, hkv, _, hder⟩ := GetEntry_some p s c entry hg
      exact ⟨kv, hmem, hder, by rw [hkv]⟩

/-- Witness of C14: a store with a trust anchor and a distrusted certificate of
the same subject; the distrusted one is found, a third certificate is not. -/
theorem trust_of_contained_certificate_witness :
    GetTrust exampleParser
        (run exampleParser [.add { der_cert := [1, 1, 9, 9, 5] } .ForTrustAnchor 0,
          .add { der_cert := [1, 1, 9, 9, 6] } .ForDistrusted 0])
        { der_cert := [1, 1, 9, 9, 6] } = .ForDistrusted
    ∧ (Contains exampleParser
        (run exampleParser [.add { der_cert := [1, 1, 9, 9, 5] } .ForTrustAnchor 0,
          .add { der_cert := [1, 1, 9, 9, 6] } .ForDistrusted 0])
        { der_cert := [1, 1, 9, 9, 7] } = false →
      GetTrust exampleParser
        (run exampleParser [.add { der_cert := [1, 1, 9, 9, 5] } .ForTrustAnchor 0,
          .add { der_cert := [1, 1, 9, 9, 6] } .ForDistrusted 0])
        { der_cert := [1, 1, 9, 9, 7] } = .ForUnspecified) :=
  ⟨by decide,
   (trust_of_contained_certificate exampleParser
      [.add { der_cert := [1, 1, 9, 9, 5] } .ForTrustAnchor 0,
        .add { der_cert := [1, 1, 9, 9, 6] } .ForDistrusted 0]
      _ { der_cert := [1, 1, 9, 9, 7] } rfl).2.1⟩

theorem Contains_AddCertificate_of_Contains (p : CertificateParser) (s : TrustStoreInMemory)
    (c c' : ParsedCertificate) (trust : CertificateTrust) (position : Nat)
    (h : Contains p s c' = true) : Contains p (AddCertificate p s c trust position) c' = true := by
  unfold Contains at h ⊢
  rw [GetEntry_isSome_iff] at h ⊢
  obtain ⟨kv, hmem, hkey, hder⟩ := h
  exact ⟨kv, (mem_insert s position _ kv).mpr (Or.inr hmem), hkey, hder⟩

theorem AddCertificate_properties (p : CertificateParser) (s : TrustStoreInMemory)
    (c : ParsedCertificate) (trust : CertificateTrust) (position : Nat) :
    Contains p (AddCertificate p s c trust position) c = true
    ∧ IsEmpty (AddCertificate p s c trust position) = false
    ∧ (∀ c' : ParsedCertificate, Contains p s c' = true →
        Contains p (AddCertificate p s c trust position) c' = true)
    ∧ (Contains p s c = false → GetTrust p (AddCertificate p s c trust position) c = trust) := by
  refine ⟨?_, ?_, fun c' h => Contains_AddCertificate_of_Contains p s c c' trust position h, ?_⟩
  · unfold Contains
    rw [GetEntry_isSome_iff]
    exact ⟨_, (mem_insert s position _ _).mpr (Or.inl rfl), rfl, rfl⟩
  · simp [IsEmpty, AddCertificate, insert]
  · intro hnot
    have hin : Contains p (AddCertificate p s c trust position) c = true := by
      unfold Contains
      rw [GetEntry_isSome_iff]
      exact ⟨_, (mem_insert s position _ _).mpr (Or.inl rfl), rfl, rfl⟩
    unfold Contains at hin
    unfold GetTrust
    cases hg : GetEntry p (AddCertificate p s c trust position) c with
    | none => rw [hg] at hin; simp at hin
    | some entry =>
      obtain ⟨kv, hmem, hkv, hkey, hder⟩ := GetEntry_some p _ c entry hg
      rcases (mem_insert s position _ kv).mp hmem with rfl | hold
      · simp only at hkv; rw [← hkv]
      · have : Contains p s c = true := by
          unfold Contains
          rw [GetEntry_isSome_iff]
          exact ⟨kv, hold, hkey, hder⟩
        rw [this] at hnot
        simp at hnot

/-- C15: after any of `AddTrustAnchor`, `AddTrustAnchorWithExpiration`,
`AddTrustAnchorWithConstraints`, `AddDistrustedCertificateForTest` and
`AddCertificateWithUnspecifiedTrust` is applied to a certificate `c`, wherever the
multimap places the new entry: `Contains(c)` is true, `IsEmpty()` is false, every
certificate contained before is still contained, and if `c` was not contained
before then `GetTrust(c)` is the trust of the method used (anchor, anchor
enforcing expiration, anchor enforcing constraints, distrusted, unspecified). -/
theorem added_certificate_is_contained (p : CertificateParser) (s : TrustStoreInMemory)
    (c : ParsedCertificate) (position : Nat) :
    (∀ s' ∈ [AddTrustAnchor p s c position, AddTrustAnchorWithExpiration p s c position,
        AddTrustAnchorWithConstraints p s c position,
        AddDistrustedCertificateForTest p s c position,
        AddCertificateWithUnspecifiedTrust p s c position],
      Contains p s' c = true ∧ IsEmpty s' = false
      ∧ ∀ c' : ParsedCertificate, Contains p s c' = true → Contains p s' c' = true)
    ∧ (Contains p s c = false →
        GetTrust p (AddTrustAnchor p s c position) c = .ForTrustAnchor
        ∧ GetTrust p (AddTrustAnchorWithExpiration p s c position) c
            = .ForTrustAnchorEnforcingExpiration
        ∧ GetTrust p (AddTrustAnchorWithConstraints p s c position) c
            = .ForTrustAnchorEnforcingConstraints
        ∧ GetTrust p (AddDistrustedCertificateForTest p s c position) c = .ForDistrusted
        ∧ GetTrust p (AddCertificateWithUnspecifiedTrust p s c position) c = .ForUnspecified) := by
  constructor
  · intro s' hs'
    simp only [List.mem_cons, List.mem_singleton, List.not_mem_nil, or_false] at hs'
    rcases hs' with rfl | rfl | rfl | rfl | rfl
    · exact ⟨(AddCertificate_properties p s c _ position).1,
        (AddCertificate_properties p s c _ position).2.1,
        (AddCertificate_properties p s c _ position).2.2.1⟩
    · exact ⟨(AddCertificate_properties p s c _ position).1,
        (AddCertificate_properties p s c _ position).2.1,
        (AddCertificate_properties p s c _ position).2.2.1⟩
    · exact ⟨(AddCertificate_properties p s c _ position).1,
        (AddCertificate_properties p s c _ position).2.1,
        (AddCertificate_properties p s c _ position).2.2.1⟩
    · exact ⟨(AddCertificate_properties p s c _ position).1,
        (AddCertificate_properties p s c _ position).2.1,
        (AddCertificate_properties p s c _ position).2.2.1⟩
    · exact ⟨(AddCertificate_properties p s c _ position).1,
        (AddCertificate_properties p s c _ position).2.1,
        (AddCertificate_properties p s c _ position).2.2.1⟩
  · intro hnot
    exact ⟨(AddCertificate_properties p s c _ position).2.2.2 hnot,
      (AddCertificate_properties p s c _ position).2.2.2 hnot,
      (AddCertificate_properties p s c _ position).2.2.2 hnot,
      (AddCertificate_properties p s c _ position).2.2.2 hnot,
      (AddCertificate_properties p s c _ position).2.2.2 hnot⟩

/-- A certificate added as distrusted to a store that holds another certificate
of the same subject is contained and distrusted, wherever it is placed; the other
certificate keeps its trust. -/
theorem added_certificate_is_contained_example :
    GetTrust exampleParser
        (AddDistrustedCertificateForTest exampleParser
          (run exampleParser [.add { der_cert := [1, 1, 9, 9, 5] } .ForTrustAnchor 0])
          { der_cert := [1, 1, 9, 9, 6] } 0)
        { der_cert := [1, 1, 9, 9, 6] } = .ForDistrusted
    ∧ GetTrust exampleParser
        (AddDistrustedCertificateForTest exampleParser
          (run exampleParser [.add { der_cert := [1, 1, 9, 9, 5] } .ForTrustAnchor 0])
          { der_cert := [1, 1, 9, 9, 6] } 1)
        { der_cert := [1, 1, 9, 9, 5] } = .ForTrustAnchor
    ∧ IsEmpty (AddDistrustedCertificateForTest exampleParser empty
        { der_cert := [1, 1, 9, 9, 6] } 0) = false := by
  decide

/-- C16: in every store built by calls, `SyncGetIssuersOf(c, issuers)` leaves the
store as it was, keeps the elements of `issuers` in place, and appends the
certificates of exactly the stored entries whose normalized subject is the
normalized issuer of `c`, one per stored entry in iteration order, whatever the
trust of the entry. -/
theorem issuers_are_entries_of_issuer_name (p : CertificateParser)
    (operations : List Operation) (s : TrustStoreInMemory) (c : ParsedCertificate)
    (issuers : List ParsedCertificate) (hs : s = run p operations) :
    (SyncGetIssuersOf p s c issuers).1 = s
    ∧ (SyncGetIssuersOf p s c issuers).2
        = issuers ++ ((s.entries_.map Prod.snd).filter
            (fun entry => decide (p.normalized_subject entry.cert.der_cert
              = p.normalized_issuer c.der_cert))).map (fun entry => entry.cert)
    ∧ (∀ i : Nat, i < issuers.length → (SyncGetIssuersOf p s c issuers).2[i]? = issuers[i]?)
    ∧ (∀ x : ParsedCertificate,
        (SyncGetIssuersOf p s c issuers).2.count x
          = issuers.count x
            + ((s.entries_.map Prod.snd).filter
                (fun entry => decide (entry.cert = x)
                  && decide (p.normalized_subject entry.cert.der_cert
                    = p.normalized_issuer c.der_cert))).length) := by
  have hkeys : KeysAreSubjects p s := by rw [hs]; exact run_keysAreSubjects p operations
  have hrange : (s.equal_range (p.normalized_issuer c.der_cert)).map (fun it => it.2.cert)
      = ((s.entries_.map Prod.snd).filter
          (fun entry => decide (p.normalized_subject entry.cert.der_cert
            = p.normalized_issuer c.der_cert))).map (fun entry => entry.cert) := by
    unfold equal_range
    unfold KeysAreSubjects at hkeys
    generalize s.entries_ = l at hkeys
    induction l with
    | nil => rfl
    | cons kv rest ih =>
      have hkv := hkeys kv (List.mem_cons_self _ _)
      have ih' := ih (fun x hx => hkeys x (List.mem_cons_of_mem _ hx))
      by_cases hk : p.normalized_subject kv.2.cert.der_cert = p.normalized_issuer c.der_cert
      · simp only [List.filter_cons, List.map_cons, hkv, hk, decide_True, if_true, ih']
      · simp only [List.filter_cons, List.map_cons, hkv, hk, decide_False, Bool.false_eq_true,
          if_false, ih']
  refine ⟨rfl, ?_, ?_, ?_⟩
  · simp only [SyncGetIssuersOf, hrange]
  · intro i hi
    simp only [SyncGetIssuersOf]
    rw [List.getElem?_append_left hi]
  · intro x
    simp only [SyncGetIssuersOf, hrange, List.count_append, Nat.add_left_cancel_iff]
    generalize (s.entries_.map Prod.snd) = l
    induction l with
    | nil => simp
    | cons e rest ih =>
      by_cases hk : p.normalized_subject e.cert.der_cert = p.normalized_issuer c.der_cert
      · by_cases hx : e.cert = x
        · subst hx
          simp [List.filter_cons, hk, ih]
        · simp [List.filter_cons, hk, hx, ih, List.count_cons]
      · simp [List.filter_cons, hk, ih]

/-- Witness of C16: a store that holds the same certificate twice, once as an
anchor and once distrusted, and a certificate of another subject; both copies
are returned after the element already in the list. -/
theorem issuers_are_entries_of_issuer_name_witness :
    (SyncGetIssuersOf exampleParser
        (run exampleParser [.add { der_cert := [9, 9, 9, 9, 1] } .ForTrustAnchor 0,
          .add { der_cert := [9, 9, 9, 9, 1] } .ForDistrusted 5,
          .add { der_cert := [7, 7, 9, 9, 2] } .ForUnspecified 1])
        { der_cert := [1, 1, 9, 9, 5] } [{ der_cert := [0] }]).2
      = [{ der_cert := [0] }, { der_cert := [9, 9, 9, 9, 1] }, { der_cert := [9, 9, 9, 9, 1] }]
    ∧ (SyncGetIssuersOf exampleParser
        (run exampleParser [.add { der_cert := [9, 9, 9, 9, 1] } .ForTrustAnchor 0,
          .add { der_cert := [9, 9, 9, 9, 1] } .ForDistrusted 5,
          .add { der_cert := [7, 7, 9, 9, 2] } .ForUnspecified 1])
        { der_cert := [1, 1, 9, 9, 5] } [{ der_cert := [0] }]).1
      = run exampleParser [.add { der_cert := [9, 9, 9, 9, 1] } .ForTrustAnchor 0,
          .add { der_cert := [9, 9, 9, 9, 1] } .ForDistrusted 5,
          .add { der_cert := [7, 7, 9, 9, 2] } .ForUnspecified 1] :=
  ⟨by decide,
   (issuers_are_entries_of_issuer_name exampleParser
      [.add { der_cert := [9, 9, 9, 9, 1] } .ForTrustAnchor 0,
        .add { der_cert := [9, 9, 9, 9, 1] } .ForDistrusted 5,
        .add { der_cert := [7, 7, 9, 9, 2] } .ForUnspecified 1]
      _ { der_cert := [1, 1, 9, 9, 5] } [{ der_cert := [0] }] rfl).1⟩

end TrustStoreInMemory

namespace BatteryStateSampler

/-! ### Observers and samples -/

/-- C17: `AddObserver(o)` registers `o` and keeps the observers registered before;
if an initial sample has been obtained (`has_last_battery_state_` is true) it
calls `o.OnBatteryStateSampled` exactly once, with the cached last sample, be it
the empty optional, and calls no other observer; if no sample has been obtained
it calls nobody; the cached sample is left as it was. -/
theorem add_observer_delivers_last_sample (s : BatteryStateSampler) (observer : Nat) :
    observer ∈ (AddObserver s observer).observer_list_
    ∧ (∀ other ∈ s.observer_list_, other ∈ (AddObserver s observer).observer_list_)
    ∧ (s.has_last_battery_state_ = true →
        (AddObserver s observer).notifications
          = s.notifications ++ [(observer, s.last_battery_state_)])
    ∧ (s.has_last_battery_state_ = false → (AddObserver s observer).notifications = s.notifications)
    ∧ (AddObserver s observer).has_last_battery_state_ = s.has_last_battery_state_
    ∧ (AddObserver s observer).last_battery_state_ = s.last_battery_state_ := by
  have hreg : observer ∈ ObserverList.AddObserver s.observer_list_ observer := by
    unfold ObserverList.AddObserver
    split
    · assumption
    · simp
  have hkeep : ∀ other ∈ s.observer_list_,
      other ∈ ObserverList.AddObserver s.observer_list_ observer := by
    intro other h
    unfold ObserverList.AddObserver
    split
    · exact h
    · exact List.mem_append_left _ h
  cases hlast : s.has_last_battery_state_ <;>
    simp [AddObserver, hlast, hreg] <;> exact hkeep

/-- A sampler whose initial sample was the empty optional calls a new observer
with the empty optional; a new sampler calls nobody. -/
theorem add_observer_delivers_last_sample_example :
    (AddObserver (run [.initialSample none]) 7).notifications = [(7, none)]
    ∧ (AddObserver (run []) 7).notifications = []
    ∧ (AddObserver (run [.initialSample none]) 7).observer_list_ = [7] := by
  decide

end BatteryStateSampler

namespace Wmi

/-! ### Errors of a WMI query -/

/-- C19: `RunWmiQuery` reports the first step that fails, in this order:
`kFailedToCreateInstance` if creating the locator fails; otherwise
`kFailedToConnectToWMI` if connecting to the server fails; otherwise
`kFailedToSetSecurityBlanket` if setting the proxy blanket fails; otherwise
`kFailedToExecWMIQuery` if executing the query fails; it returns nullopt if and
only if all four steps succeed, and `*enumerator` is written, with the result of
the query, in that case only. -/
theorem wmi_query_reports_first_failure (env : ComEnvironment) (server_name query : String)
    (enumerator wmi_locator wmi_services enumerator_r : ComPtr) (hr1 hr2 hr3 hr4 : HRESULT)
    (h1 : env.CoCreateInstance = (hr1, wmi_locator))
    (h2 : env.ConnectServer wmi_locator server_name = (hr2, wmi_services))
    (h3 : env.CoSetProxyBlanket wmi_services = hr3)
    (h4 : env.ExecQuery wmi_services query = (hr4, enumerator_r)) :
    (FAILED hr1 = true →
        RunWmiQuery env server_name query enumerator
          = (some .kFailedToCreateInstance, enumerator))
    ∧ (FAILED hr1 = false → FAILED hr2 = true →
        RunWmiQuery env server_name query enumerator
          = (some .kFailedToConnectToWMI, enumerator))
    ∧ (FAILED hr1 = false → FAILED hr2 = false → FAILED hr3 = true →
        RunWmiQuery env server_name query enumerator
          = (some .kFailedToSetSecurityBlanket, enumerator))
    ∧ (FAILED hr1 = false → FAILED hr2 = false → FAILED hr3 = false → FAILED hr4 = true →
        RunWmiQuery env server_name query enumerator
          = (some .kFailedToExecWMIQuery, enumerator))
    ∧ (FAILED hr1 = false → FAILED hr2 = false → FAILED hr3 = false → FAILED hr4 = false →
        RunWmiQuery env server_name query enumerator = (none, enumerator_r))
    ∧ ((RunWmiQuery env server_name query enumerator).1 = none
        ↔ (FAILED hr1 = false ∧ FAILED hr2 = false ∧ FAILED hr3 = false ∧ FAILED hr4 = false))
    ∧ ((RunWmiQuery env server_name query enumerator).1 ≠ none →
        (RunWmiQuery env server_name query enumerator).2 = enumerator) := by
  have hrun : RunWmiQuery env server_name query enumerator
      = if FAILED hr1 = true then (some .kFailedToCreateInstance, enumerator)
        else if FAILED hr2 = true then (some .kFailedToConnectToWMI, enumerator)
        else if FAILED hr3 = true then (some .kFailedToSetSecurityBlanket, enumerator)
        else if FAILED hr4 = true then (some .kFailedToExecWMIQuery, enumerator)
        else (none, enumerator_r) := by
    cases c1 : FAILED hr1 <;> cases c2 : FAILED hr2 <;> cases c3 : FAILED hr3 <;>
      cases c4 : FAILED hr4 <;>
      simp [RunWmiQuery, CreateLocalWmiConnection, TryRunQuery, h1, h2, h3, h4, c1, c2, c3, c4]
  rw [hrun]
  cases c1 : FAILED hr1 <;> cases c2 : FAILED hr2 <;> cases c3 : FAILED hr3 <;>
    cases c4 : FAILED hr4 <;> simp

/-- Witness of C19: in the example environment the serial-number query of the
server "ROOT\\CIMV2" succeeds and writes the enumerator; a query of an unknown
server fails to connect and leaves the enumerator as it was. -/
theorem wmi_query_reports_first_failure_witness :
    RunWmiQuery exampleEnvironment "ROOT\\CIMV2" "SELECT SerialNumber FROM Win32_Bios" none
      = (none, some 3)
    ∧ RunWmiQuery exampleEnvironment "ROOT\\Nowhere" "SELECT SerialNumber FROM Win32_Bios"
        (some 9)
      = (some .kFailedToConnectToWMI, some 9) :=
  ⟨(wmi_query_reports_first_failure exampleEnvironment "ROOT\\CIMV2"
      "SELECT SerialNumber FROM Win32_Bios" none (some 1) (some 2) (some 3) 0 0 0 0
      rfl (by decide) rfl (by decide)).2.2.2.2.1 (by decide) (by decide) (by decide) (by decide),
   (wmi_query_reports_first_failure exampleEnvironment "ROOT\\Nowhere"
      "SELECT SerialNumber FROM Win32_Bios" (some 9) (some 1) none (some 3) 0 (-2147217394) 0 0
      rfl (by decide) rfl (by decide)).2.1 (by decide) (by decide)⟩

end Wmi
